import Mathlib

/-!
A growable array over manually managed storage (`src/vector.h`)

Embedding conventions.

* A block of raw storage is a list of slots; a slot is `none` while it is
  uninitialized memory and `some x` while it holds a live element `x`.
  `nullptr` is the empty block.  A pointer or iterator into the block is
  the offset of its slot.
* `size_t` values are natural numbers.  Every block the memory source has
  granted fits the address space, so `sz + 1` and `sz * 2` for `sz <= cap`
  stay below `2 ^ 64` and are computed without wrap-around.  The byte count
  `n * sizeof(T)` inside `Allocate` is a `size_t` product: `AllocateBytes`
  computes it modulo `2 ^ 64` for an element type of `w` bytes, and
  `Allocate` with the operations over it is the case without wrap-around,
  in which a request either fails or yields `n` slots (`ReserveBytes_eq`).
* `int` is a 32 bit two's complement integer: `toInt` is the narrowing
  conversion of `int ind = pos - alloc.arr`, `INT_MAX` the largest value.
* `MyAllocator::Allocate` may throw `std::bad_alloc`; the memory source is
  a parameter `mem : Nat → Bool` telling which requests are granted.
* A call ends in `Except.ok` (it returned), in `Fault.bad_alloc s` (the
  exception left the function with the object in state `s`) or in
  `Fault.undefined` (an access outside the block, or a signed overflow).
* Inside the block the slot primitives act by value: construction stores
  `some x`, destruction stores `none` whatever the slot held before, a
  copy or move reads the state of its source slot, and a move leaves the
  source slot as it was (the source destroys it right afterwards wherever
  it moves).  `T()` is `default`, and `T(args...)` is the value it builds.
* An element parameter (`const T&`, `T&&`, forwarded arguments) is the
  value of an object outside the storage of the vector; `Arg` and the
  `Ref` variants of the end insertions take it as a reference, which may
  designate an element of the vector itself.
* Each operation is a function of the state of `*this` (and of `other`);
  identity of objects and of blocks is made explicit only where a claim
  is about it (`aliased`, `Heap`, `Objects` with `copyAssignAt` and
  `moveAssignAt`).
* Where lifetimes matter the slot primitives are observed: the `Checked`
  variants compute the same values and log each primitive applied against
  its precondition (`Misuse`).
* An invariant is stated on the states a call leaves (`Keeps`): the state
  of its result and the state at a `bad_alloc`.  An undefined outcome
  leaves no state.  `Reachable` collects the states that constructors and
  public operations lead to.
-/

namespace MyVector

/-- A block of raw storage, one entry per slot. -/
abbrev Block (T : Type) := List (Option T)

/-- Ways in which a call does not return normally. -/
inductive Fault (σ : Type) where
  | bad_alloc (s : σ)
  | undefined
  deriving DecidableEq, Repr

/-- Outcome of a call on an object with state type `σ`. -/
abbrev Run (σ α : Type) := Except (Fault σ) α

/-- A slot-level step that leaves the block is undefined behaviour. -/
def inBlock {σ α : Type} : Option α → Run σ α
  | some a => Except.ok a
  | none => Except.error Fault.undefined

/-- Largest value of `int`. -/
def INT_MAX : Int := 2147483647

/-- Conversion of a pointer difference to `int`. -/
def toInt (d : Int) : Int := (d + 2147483648) % 4294967296 - 2147483648

/-- The slot designated by `arr + ind` for a signed offset; `none` when the
pointer lies before the block. -/
def slotOf (ind : Int) : Option Nat :=
  if 0 ≤ ind then some ind.toNat else none

/-- The class `MyAllocator<T>`: block handle and capacity. -/
structure MyAllocator (T : Type) where
  arr : Block T := []
  cap : Nat := 0
  deriving DecidableEq, Repr

namespace MyAllocator

variable {T : Type}

/-- `Allocate(n)` for a request whose byte count `n * sizeof(T)` does not
wrap: `n` uninitialized slots, or `none` when the request is refused.
`AllocateBytes` computes the byte count as the source does. -/
def Allocate (mem : Nat → Bool) (n : Nat) : Option (Block T) :=
  if mem n then some (List.replicate n none) else none

/-- Store a slot state at `arr + i`; `none` when the slot is outside the block. -/
def store (b : Block T) (i : Nat) (s : Option T) : Option (Block T) :=
  if i < b.length then some (b.set i s) else none

/-- `Construct(ptr, const T&)`: placement copy construction. -/
def Construct (b : Block T) (i : Nat) (obj : T) : Option (Block T) :=
  store b i (some obj)

/-- `Construct(ptr, T&&)`: placement move construction. -/
def ConstructMove (b : Block T) (i : Nat) (obj : T) : Option (Block T) :=
  store b i (some obj)

/-- `Destroy(ptr)`: run the destructor, the slot is raw memory again.  On a
slot that holds no live element the source runs `~T` on dead storage; by
value nothing changes, and `DestroyChecked` records the misuse. -/
def Destroy (b : Block T) (i : Nat) : Option (Block T) :=
  store b i none

/-- `MyAllocator(size_t n)`. -/
def sized (mem : Nat → Bool) (n : Nat) : Option (MyAllocator T) :=
  (Allocate mem n).map fun a => { arr := a, cap := n }

/-- `Swap(rhs)`: the pair is `(*this, rhs)` after the call. -/
def Swap (self rhs : MyAllocator T) : MyAllocator T × MyAllocator T :=
  ({ arr := rhs.arr, cap := rhs.cap }, { arr := self.arr, cap := self.cap })

end MyAllocator

open MyAllocator

variable {T : Type}

/-- `std::uninitialized_value_construct_n(arr + first, n)`. -/
def uninitialized_value_construct_n [Inhabited T] :
    Block T → Nat → Nat → Option (Block T)
  | b, _, 0 => some b
  | b, first, n + 1 =>
    (Construct b first default).bind fun b1 =>
      uninitialized_value_construct_n b1 (first + 1) n

/-- `std::uninitialized_copy_n(src + first, n, dst + d)`. -/
def uninitialized_copy_n (src : Block T) :
    Nat → Nat → Block T → Nat → Option (Block T)
  | _, 0, dst, _ => some dst
  | first, n + 1, dst, d =>
    (src[first]?).bind fun x =>
      (store dst d x).bind fun dst1 =>
        uninitialized_copy_n src (first + 1) n dst1 (d + 1)

/-- `std::uninitialized_move_n(src + first, n, dst + d)`; the moved-from
source slots stay live. -/
def uninitialized_move_n (src : Block T) :
    Nat → Nat → Block T → Nat → Option (Block T)
  | _, 0, dst, _ => some dst
  | first, n + 1, dst, d =>
    (src[first]?).bind fun x =>
      (store dst d x).bind fun dst1 =>
        uninitialized_move_n src (first + 1) n dst1 (d + 1)

/-- `std::destroy_n(arr + first, n)`. -/
def destroy_n : Block T → Nat → Nat → Option (Block T)
  | b, _, 0 => some b
  | b, first, n + 1 =>
    (Destroy b first).bind fun b1 => destroy_n b1 (first + 1) n

/-- The class `Vector<T>`: allocator and live-element count. -/
structure Vector (T : Type) where
  alloc : MyAllocator T := {}
  sz : Nat := 0
  deriving DecidableEq, Repr

namespace Vector

/-- `Size()`. -/
def Size (v : Vector T) : Nat := v.sz

/-- `Capacity()`. -/
def Capacity (v : Vector T) : Nat := v.alloc.cap

/-- `Swap(rhs)`: the pair is `(*this, rhs)` after the call. -/
def Swap (self rhs : Vector T) : Vector T × Vector T :=
  let p := MyAllocator.Swap self.alloc rhs.alloc
  ({ alloc := p.1, sz := rhs.sz }, { alloc := p.2, sz := self.sz })

/-- `Reserve(n)`. -/
def Reserve (mem : Nat → Bool) (n : Nat) (v : Vector T) : Run (Vector T) (Vector T) :=
  if n > v.alloc.cap then
    match MyAllocator.sized mem n with
    | none => Except.error (Fault.bad_alloc v)
    | some alloc2 => do
      let arr2 ← inBlock (uninitialized_move_n v.alloc.arr 0 v.sz alloc2.arr 0)
      let arr1 ← inBlock (destroy_n v.alloc.arr 0 v.sz)
      let p := MyAllocator.Swap { alloc2 with arr := arr2 } { v.alloc with arr := arr1 }
      pure { alloc := { p.2 with cap := n }, sz := v.sz }
  else pure v

/-- `Resize(n)`. -/
def Resize [Inhabited T] (mem : Nat → Bool) (n : Nat) (v : Vector T) :
    Run (Vector T) (Vector T) := do
  let v1 ← Reserve mem n v
  if n < v1.sz then
    let b ← inBlock (destroy_n v1.alloc.arr n (v1.sz - n))
    pure { alloc := { v1.alloc with arr := b }, sz := n }
  else if n > v1.sz then
    let b ← inBlock (uninitialized_value_construct_n v1.alloc.arr v1.sz (n - v1.sz))
    pure { alloc := { v1.alloc with arr := b }, sz := n }
  else
    pure { v1 with sz := n }

/-- `PushBack(const T&)` for an argument that designates an object outside
the storage of the vector, `elem` being its value.  `PushBackRef` takes the
argument as the reference it is. -/
def PushBack (mem : Nat → Bool) (elem : T) (v : Vector T) : Run (Vector T) (Vector T) := do
  let v1 ← if v.sz = v.alloc.cap then Reserve mem (if v.sz = 0 then 1 else v.sz * 2) v else pure v
  let b ← inBlock (Construct v1.alloc.arr v1.sz elem)
  pure { alloc := { v1.alloc with arr := b }, sz := v1.sz + 1 }

/-- `PushBack(T&&)` for an argument that designates an object outside the
storage of the vector, `elem` being its value.  `PushBackMoveRef` takes the
argument as the reference it is. -/
def PushBackMove (mem : Nat → Bool) (elem : T) (v : Vector T) : Run (Vector T) (Vector T) := do
  let v1 ← if v.sz = v.alloc.cap then Reserve mem (if v.sz = 0 then 1 else v.sz * 2) v else pure v
  let b ← inBlock (ConstructMove v1.alloc.arr v1.sz elem)
  pure { alloc := { v1.alloc with arr := b }, sz := v1.sz + 1 }

/-- `EmplaceBack(args...)` for arguments that designate objects outside the
storage of the vector, where `elem` is the value `T(args...)` builds; the
result carries the slot the returned reference designates.
`EmplaceBackRef` takes an argument as the reference it is. -/
def EmplaceBack (mem : Nat → Bool) (elem : T) (v : Vector T) :
    Run (Vector T) (Nat × Vector T) := do
  let v1 ← Reserve mem (v.sz + 1) v
  let b ← inBlock (store v1.alloc.arr v1.sz (some elem))
  pure (v1.sz, { alloc := { v1.alloc with arr := b }, sz := v1.sz + 1 })

/-- `PopBack()`. -/
def PopBack (v : Vector T) : Run (Vector T) (Vector T) := do
  let i ← inBlock (slotOf ((v.sz : Int) - 1))
  let b ← inBlock (Destroy v.alloc.arr i)
  pure { alloc := { v.alloc with arr := b }, sz := v.sz - 1 }

/-- The loop of `slideOneRight`: `it` runs from `arr + sz` down to `arr + pos`. -/
def slideRightLoop (pos : Int) : Nat → Block T → Option (Block T)
  | 0, b => if ((0 : Nat) : Int) = pos then some b else none
  | it + 1, b =>
    if ((it + 1 : Nat) : Int) = pos then some b
    else
      (uninitialized_move_n b it 1 b (it + 1)).bind fun b1 =>
        (Destroy b1 it).bind fun b2 => slideRightLoop pos it b2

/-- `slideOneRight(int pos)`. -/
def slideOneRight (mem : Nat → Bool) (pos : Int) (v : Vector T) :
    Run (Vector T) (Vector T) := do
  let v1 ← Reserve mem (v.sz + 1) v
  let b ← inBlock (slideRightLoop pos v1.sz v1.alloc.arr)
  let i ← inBlock (slotOf pos)
  let b1 ← inBlock (Destroy b i)
  pure { alloc := { v1.alloc with arr := b1 }, sz := v1.sz }

/-- `std::swap(*it, *std::next(it))` on two slots of one block. -/
def swapSlots (b : Block T) (i j : Nat) : Option (Block T) :=
  (b[i]?).bind fun x =>
    (b[j]?).bind fun y =>
      (store b i y).bind fun b1 => store b1 j x

/-- The loop of `slideOneLeft`: `it` runs from `arr + pos` up to
`arr + sz - 1`.  Each round needs `it + 1` inside the block and advances
`it`, so a budget of one round per slot is never the reason for `none`. -/
def slideLeftLoop (stop : Int) : Nat → Int → Block T → Option (Block T)
  | 0, it, b => if it = stop then some b else none
  | fuel + 1, it, b =>
    if it = stop then some b
    else
      (slotOf it).bind fun i =>
        (swapSlots b i (i + 1)).bind fun b1 => slideLeftLoop stop fuel (it + 1) b1

/-- `slideOneLeft(int pos)`. -/
def slideOneLeft (pos : Int) (v : Vector T) : Run (Vector T) (Vector T) := do
  let b ← inBlock (slideLeftLoop ((v.sz : Int) - 1) v.alloc.arr.length pos v.alloc.arr)
  PopBack { alloc := { v.alloc with arr := b }, sz := v.sz }

/-- `Insert(pos, const T&)` at the iterator `begin() + pos`, for an argument
that designates an object outside the storage of the vector, `elem` being
its value (a reference to an element of the vector itself is read only
after the shift); the result carries the offset of the returned iterator. -/
def Insert (mem : Nat → Bool) (pos : Nat) (elem : T) (v : Vector T) :
    Run (Vector T) (Nat × Vector T) := do
  let ind := toInt pos
  let v1 ← slideOneRight mem ind v
  let i ← inBlock (slotOf ind)
  let b ← inBlock (Construct v1.alloc.arr i elem)
  pure (i, { alloc := { v1.alloc with arr := b }, sz := v1.sz + 1 })

/-- `Insert(pos, T&&)`, for an argument that designates an object outside
the storage of the vector. -/
def InsertMove (mem : Nat → Bool) (pos : Nat) (elem : T) (v : Vector T) :
    Run (Vector T) (Nat × Vector T) := do
  let ind := toInt pos
  let v1 ← slideOneRight mem ind v
  let i ← inBlock (slotOf ind)
  let b ← inBlock (ConstructMove v1.alloc.arr i elem)
  pure (i, { alloc := { v1.alloc with arr := b }, sz := v1.sz + 1 })

/-- `Emplace(pos, args...)`, for arguments that designate objects outside
the storage of the vector, where `elem` is the value `T(args...)` builds. -/
def Emplace (mem : Nat → Bool) (pos : Nat) (elem : T) (v : Vector T) :
    Run (Vector T) (Nat × Vector T) := do
  let ind := toInt pos
  let v1 ← slideOneRight mem ind v
  let i ← inBlock (slotOf ind)
  let b ← inBlock (store v1.alloc.arr i (some elem))
  pure (i, { alloc := { v1.alloc with arr := b }, sz := v1.sz + 1 })

/-- `Erase(pos)` at the iterator `begin() + pos`; the result carries the
offset of the returned iterator. -/
def Erase (pos : Nat) (v : Vector T) : Run (Vector T) (Nat × Vector T) := do
  let ind := toInt pos
  let v1 ← slideOneLeft ind v
  let i ← inBlock (slotOf ind)
  pure (i, v1)

/-- `Vector()`. -/
def empty : Vector T := {}

/-- `Vector(size_t n)`; no object exists when the constructor throws. -/
def sized [Inhabited T] (mem : Nat → Bool) (n : Nat) : Run Unit (Vector T) :=
  match MyAllocator.sized mem n with
  | none => Except.error (Fault.bad_alloc ())
  | some a => do
    let b ← inBlock (uninitialized_value_construct_n a.arr 0 n)
    pure { alloc := { a with arr := b }, sz := n }

/-- `Vector(const Vector& other)`. -/
def copy (mem : Nat → Bool) (other : Vector T) : Run Unit (Vector T) :=
  match MyAllocator.sized mem other.sz with
  | none => Except.error (Fault.bad_alloc ())
  | some a => do
    let b ← inBlock (uninitialized_copy_n other.alloc.arr 0 other.sz a.arr 0)
    pure { alloc := { a with arr := b }, sz := other.sz }

/-- `Vector(Vector&& other)`: the pair is `(*this, other)` after the call. -/
def move (other : Vector T) : Vector T × Vector T :=
  Swap {} other

/-- `~Vector()`: destroys the live elements; the allocator then releases the block. -/
def destruct (v : Vector T) : Option Unit :=
  (destroy_n v.alloc.arr 0 v.sz).map fun _ => ()

/-- The prefix loop of copy assignment, `for (int i = 0; i < min; ++i)`;
`++i` at `INT_MAX` is a signed overflow.  The budget is `m` rounds. -/
def assignLoop (src : Block T) (m : Nat) : Nat → Nat → Block T → Option (Block T)
  | 0, i, b => if i < m then none else some b
  | fuel + 1, i, b =>
    if i < m then
      (src[i]?).bind fun x =>
        (store b i x).bind fun b1 =>
          if (i : Int) = INT_MAX then none else assignLoop src m fuel (i + 1) b1
    else some b

/-- `operator=(const Vector& other)` on the states of the two operands;
`aliased` tells that `other` is `*this` (`copyAssignAt` decides it from the
addresses of the operands).  The pair is `(*this, other)` after the call. -/
def copyAssign (mem : Nat → Bool) (aliased : Bool) (self other : Vector T) :
    Run (Vector T) (Vector T × Vector T) :=
  if aliased then pure (self, self)
  else if other.sz > self.alloc.cap then
    match copy mem other with
    | Except.error (Fault.bad_alloc _) => Except.error (Fault.bad_alloc self)
    | Except.error Fault.undefined => Except.error Fault.undefined
    | Except.ok tmp => do
      let p := Swap tmp self
      let _ ← inBlock (destruct p.1)
      pure (p.2, other)
  else do
    let m := min other.sz self.sz
    let b ← inBlock (assignLoop other.alloc.arr m m 0 self.alloc.arr)
    let b1 ←
      if self.sz < other.sz then
        inBlock (uninitialized_copy_n other.alloc.arr self.sz (other.sz - self.sz) b self.sz)
      else if self.sz > other.sz then
        inBlock (destroy_n b other.sz (self.sz - other.sz))
      else pure b
    pure ({ alloc := { self.alloc with arr := b1 }, sz := other.sz }, other)

/-- `operator=(Vector&& other)` on the states of the two operands;
`aliased` tells that `other` is `*this` (`moveAssignAt` decides it from the
addresses of the operands).  The pair is `(*this, other)` after the call. -/
def moveAssign (aliased : Bool) (self other : Vector T) : Vector T × Vector T :=
  if aliased then (self, self)
  else
    let p := Swap other self
    (p.2, p.1)

/-- The element sequence: the states of the slots `[0, sz)`. -/
def elems (v : Vector T) : Block T := v.alloc.arr.take v.sz

end Vector

open Vector

/-- Closed form of a run of slot writes: `vals` replaces the slots from `d` on. -/
def fill (b : Block T) (d : Nat) (vals : Block T) : Block T :=
  b.take d ++ vals ++ b.drop (d + vals.length)

/-- A memory source that grants every request. -/
def grantAll : Nat → Bool := fun _ => true

/-- A sample vector: elements `1, 2, 3` in a block of five slots. -/
def demo : Vector Nat :=
  { alloc := { arr := [some 1, some 2, some 3, none, none], cap := 5 }, sz := 3 }

/-- A vector of `2 ^ 31 + 1` elements in a block of `2 ^ 31 + 2` slots. -/
def big : Vector Nat :=
  { alloc := { arr := List.replicate 2147483649 (some 0) ++ [none], cap := 2147483650 },
    sz := 2147483649 }

/-- `Erase(Insert(begin() + pos, elem))`: insert, then erase at the
iterator `Insert` returned. -/
def insertErase (mem : Nat → Bool) (pos : Nat) (elem : T) (v : Vector T) :
    Run (Vector T) (Nat × Vector T) := do
  let r ← Insert mem pos elem v
  Erase r.1 r.2

/-- A full vector: elements `1, 2` in a block of two slots. -/
def full2 : Vector Nat :=
  { alloc := { arr := [some 1, some 2], cap := 2 }, sz := 2 }

/-- Addressed storage: the blocks handed out so far, in the order of their
addresses.  `Allocate` hands out the next address. -/
abbrev Heap (T : Type) := List (Block T)

/-- A `Vector<T>` object as it lies in memory: the block address held in
`alloc.arr` (`none` for `nullptr`), `alloc.cap` and `sz`. -/
structure Obj where
  arr : Option Nat
  cap : Nat
  sz : Nat
  deriving DecidableEq, Repr

/-- The block an address designates. -/
def blockAt (h : Heap T) : Option Nat → Block T
  | none => []
  | some a => (h[a]?).getD []

/-- The vector an object denotes in a heap. -/
def view (h : Heap T) (o : Obj) : Vector T :=
  { alloc := { arr := blockAt h o.arr, cap := o.cap }, sz := o.sz }

/-- `Vector(const Vector& other)` on addressed storage: `alloc(other.sz)`
takes a fresh block, `uninitialized_copy_n` fills it from the block of
`other`. -/
def copyAt (mem : Nat → Bool) (h : Heap T) (other : Obj) : Run Unit (Heap T × Obj) :=
  match MyAllocator.sized (T := T) mem other.sz with
  | none => Except.error (Fault.bad_alloc ())
  | some a => do
    let b ← inBlock (uninitialized_copy_n (blockAt h other.arr) 0 other.sz a.arr 0)
    pure (h ++ [b], { arr := some h.length, cap := a.cap, sz := other.sz })

/-- Any later mutation of the object `o`: its state becomes `v`, written
in place, or into a freshly allocated block when `fresh` is set or the
object holds `nullptr`. -/
def mutate (h : Heap T) (o : Obj) (v : Vector T) (fresh : Bool) : Heap T × Obj :=
  match fresh, o.arr with
  | false, some a => (h.set a v.alloc.arr, { arr := some a, cap := v.alloc.cap, sz := v.sz })
  | _, _ => (h ++ [v.alloc.arr], { arr := some h.length, cap := v.alloc.cap, sz := v.sz })

/-- A sample heap with one block of three slots holding `1, 2`. -/
def demoHeap : Heap Nat := [[some 1, some 2, none]]

/-- The vector object owning the block of `demoHeap`: size 2, capacity 3. -/
def demoObj : Obj := { arr := some 0, cap := 3, sz := 2 }

/-- A memory source that refuses every request. -/
def grantNone : Nat → Bool := fun _ => false

/-- A slot primitive applied against its precondition. -/
inductive Misuse where
  | destroy_raw (slot : Nat)
  | construct_live (slot : Nat)
  deriving DecidableEq, Repr

/-- `Destroy(ptr)` with its precondition observed: the slot must hold a
live element at that moment. -/
def DestroyChecked (b : Block T) (i : Nat) : Option (Block T × List Misuse) :=
  (b[i]?).bind fun s =>
    some (b.set i none, if s.isSome then [] else [Misuse.destroy_raw i])

/-- A construction into `arr + i` (placement new, `Construct`, or the
target of an uninitialized move) with its precondition observed: the slot
must be uninitialized at that moment. -/
def ConstructChecked (b : Block T) (i : Nat) (x : Option T) :
    Option (Block T × List Misuse) :=
  (b[i]?).bind fun s =>
    some (b.set i x, if s.isSome then [Misuse.construct_live i] else [])

/-- `std::uninitialized_move_n` with each construction observed. -/
def move_n_checked (src : Block T) :
    Nat → Nat → Block T → Nat → Option (Block T × List Misuse)
  | _, 0, dst, _ => some (dst, [])
  | first, n + 1, dst, d =>
    (src[first]?).bind fun x =>
      (ConstructChecked dst d x).bind fun r1 =>
        (move_n_checked src (first + 1) n r1.1 (d + 1)).map fun r2 => (r2.1, r1.2 ++ r2.2)

/-- `std::destroy_n` with each destruction observed. -/
def destroy_n_checked : Block T → Nat → Nat → Option (Block T × List Misuse)
  | b, _, 0 => some (b, [])
  | b, first, n + 1 =>
    (DestroyChecked b first).bind fun r1 =>
      (destroy_n_checked r1.1 (first + 1) n).map fun r2 => (r2.1, r1.2 ++ r2.2)

/-- `Reserve(n)` with its slot primitives observed. -/
def ReserveChecked (mem : Nat → Bool) (n : Nat) (v : Vector T) :
    Run (Vector T) (Vector T × List Misuse) :=
  if n > v.alloc.cap then
    match MyAllocator.sized mem n with
    | none => Except.error (Fault.bad_alloc v)
    | some alloc2 => do
      let r2 ← inBlock (move_n_checked v.alloc.arr 0 v.sz alloc2.arr 0)
      let r1 ← inBlock (destroy_n_checked v.alloc.arr 0 v.sz)
      let p := MyAllocator.Swap { alloc2 with arr := r2.1 } { v.alloc with arr := r1.1 }
      pure ({ alloc := { p.2 with cap := n }, sz := v.sz }, r2.2 ++ r1.2)
  else pure (v, [])

/-- The loop of `slideOneRight` with its slot primitives observed. -/
def slideRightLoopChecked (pos : Int) : Nat → Block T → Option (Block T × List Misuse)
  | 0, b => if ((0 : Nat) : Int) = pos then some (b, []) else none
  | it + 1, b =>
    if ((it + 1 : Nat) : Int) = pos then some (b, [])
    else
      (move_n_checked b it 1 b (it + 1)).bind fun r1 =>
        (DestroyChecked r1.1 it).bind fun r2 =>
          (slideRightLoopChecked pos it r2.1).map fun r3 => (r3.1, r1.2 ++ r2.2 ++ r3.2)

/-- `slideOneRight(int pos)` with its slot primitives observed. -/
def slideOneRightChecked (mem : Nat → Bool) (pos : Int) (v : Vector T) :
    Run (Vector T) (Vector T × List Misuse) := do
  let r1 ← ReserveChecked mem (v.sz + 1) v
  let r2 ← inBlock (slideRightLoopChecked pos r1.1.sz r1.1.alloc.arr)
  let i ← inBlock (slotOf pos)
  let r3 ← inBlock (DestroyChecked r2.1 i)
  pure ({ alloc := { r1.1.alloc with arr := r3.1 }, sz := r1.1.sz }, r1.2 ++ r2.2 ++ r3.2)

/-- `Insert(pos, elem)` and `Emplace(pos, args...)` with their slot
primitives observed; the result carries the misuses in the order they
happen. -/
def InsertChecked (mem : Nat → Bool) (pos : Nat) (elem : T) (v : Vector T) :
    Run (Vector T) ((Nat × Vector T) × List Misuse) := do
  let ind := toInt pos
  let r1 ← slideOneRightChecked mem ind v
  let i ← inBlock (slotOf ind)
  let r2 ← inBlock (ConstructChecked r1.1.alloc.arr i (some elem))
  pure ((i, { alloc := { r1.1.alloc with arr := r2.1 }, sz := r1.1.sz + 1 }), r1.2 ++ r2.2)

/-- A vector holding `1, 2, 3` with one free slot, each slot in the state
the layout invariant asks for. -/
def demo3 : Vector Nat :=
  { alloc := { arr := [some 1, some 2, some 3, none], cap := 4 }, sz := 3 }

/-- A full vector holding `1, 2, 3`. -/
def full3 : Vector Nat :=
  { alloc := { arr := [some 1, some 2, some 3], cap := 3 }, sz := 3 }

/-- The size/capacity invariant `size <= capacity`, on a block of exactly
`cap` slots. -/
def SizeInv (v : Vector T) : Prop :=
  v.alloc.arr.length = v.alloc.cap ∧ v.sz ≤ v.alloc.cap

/-- The liveness layout: the slots `[0, sz)` hold live elements, the slots
`[sz, cap)` are uninitialized, and the block has no further slot. -/
def Layout (v : Vector T) : Prop :=
  SizeInv v ∧ (∀ j, j < v.sz → ∃ a, v.alloc.arr[j]? = some (some a)) ∧
    (∀ j, v.sz ≤ j → j < v.alloc.cap → v.alloc.arr[j]? = some none)

/-- `Keeps P st r`: every state the outcome `r` leaves satisfies `P`: the
state `st a` of the result when the call returned, the state of the object
when it threw.  An undefined outcome leaves no state. -/
def Keeps {α : Type} (P : Vector T → Prop) (st : α → Vector T) :
    Run (Vector T) α → Prop
  | Except.ok a => P (st a)
  | Except.error (Fault.bad_alloc s) => P s
  | Except.error Fault.undefined => True

/-- State after a reallocation to `n` slots. -/
def grown (n : Nat) (x : Vector T) : Vector T :=
  { alloc := { arr := x.alloc.arr.take x.sz ++ List.replicate (n - x.sz) none, cap := n },
    sz := x.sz }

/-- State after a construction at the end. -/
def pushed (v : T) (w : Vector T) : Vector T :=
  { alloc := { arr := w.alloc.arr.set w.sz (some v), cap := w.alloc.cap }, sz := w.sz + 1 }

/-- State after the destruction of the last element. -/
def popped (x : Vector T) : Vector T :=
  { alloc := { arr := x.alloc.arr.set (x.sz - 1) none, cap := x.alloc.cap }, sz := x.sz - 1 }

/-- State after the second phase of `Resize(n)`. -/
def resized [Inhabited T] (n : Nat) (w : Vector T) : Vector T :=
  if n < w.sz then
    { alloc := { arr := fill w.alloc.arr n (List.replicate (w.sz - n) none), cap := w.alloc.cap },
      sz := n }
  else if n > w.sz then
    { alloc := { arr := fill w.alloc.arr w.sz (List.replicate (n - w.sz) (some default)),
                 cap := w.alloc.cap },
      sz := n }
  else { w with sz := n }

/-- State after `Insert` of `v` at offset `q` when a slot is free. -/
def inserted (q : Nat) (v : T) (w : Vector T) : Vector T :=
  { alloc := { arr := fill w.alloc.arr q (some v :: (w.alloc.arr.drop q).take (w.sz - q)),
               cap := w.alloc.cap },
    sz := w.sz + 1 }

/-- State after `Erase` at offset `p`. -/
def erased (p : Nat) (x : Vector T) : Vector T :=
  { alloc :=
      { arr := (fill x.alloc.arr p ((x.alloc.arr.drop (p + 1)).take (x.sz - 1 - p)
          ++ (x.alloc.arr.drop p).take 1)).set (x.sz - 1) none,
        cap := x.alloc.cap },
    sz := x.sz - 1 }

/-- State a copy of `s` is constructed in. -/
def copied (s : Vector T) : Vector T :=
  { alloc := { arr := s.alloc.arr.take s.sz, cap := s.sz }, sz := s.sz }

/-- `Left st r y`: `y` is a state the outcome `r` leaves, the state
`st a` of its result or the state of the object at the throw. -/
def Left {α : Type} (st : α → Vector T) (r : Run (Vector T) α) (y : Vector T) : Prop :=
  (∃ a, r = Except.ok a ∧ st a = y) ∨ r = Except.error (Fault.bad_alloc y)

/-- Every public operation on `x` leaves only states that satisfy `P`
(the second operand of an assignment satisfying `P` too). -/
def OpsKeep [Inhabited T] (P : Vector T → Prop) (mem : Nat → Bool) (x : Vector T) : Prop :=
  (∀ n, Keeps P id (Reserve mem n x)) ∧
  (∀ n, Keeps P id (Resize mem n x)) ∧
  (∀ v, Keeps P id (PushBack mem v x)) ∧
  (∀ v, Keeps P id (PushBackMove mem v x)) ∧
  (∀ v, Keeps P Prod.snd (EmplaceBack mem v x)) ∧
  Keeps P id (PopBack x) ∧
  (∀ p v, Keeps P Prod.snd (Insert mem p v x)) ∧
  (∀ p v, Keeps P Prod.snd (InsertMove mem p v x)) ∧
  (∀ p v, Keeps P Prod.snd (Emplace mem p v x)) ∧
  (∀ p, Keeps P Prod.snd (Erase p x)) ∧
  (∀ aliased s, P s → Keeps P Prod.fst (copyAssign mem aliased x s)) ∧
  (∀ aliased s, P s → P (moveAssign aliased x s).1 ∧ P (moveAssign aliased x s).2)

/-- Every public operation on `x` returns when it is called within its
precondition, with offsets below `2 ^ 31`. -/
def OpsReturn [Inhabited T] (mem : Nat → Bool) (x : Vector T) : Prop :=
  (∀ n, ∃ y, Reserve mem n x = Except.ok y) ∧
  (∀ n, ∃ y, Resize mem n x = Except.ok y) ∧
  (∀ v, ∃ y, PushBack mem v x = Except.ok y) ∧
  (∀ v, ∃ y, PushBackMove mem v x = Except.ok y) ∧
  (∀ v, ∃ y, EmplaceBack mem v x = Except.ok (x.sz, y)) ∧
  (0 < x.sz → ∃ y, PopBack x = Except.ok y) ∧
  (∀ p v, p ≤ x.sz → p < 2147483648 → ∃ y, Insert mem p v x = Except.ok (p, y)) ∧
  (∀ p v, p ≤ x.sz → p < 2147483648 → ∃ y, InsertMove mem p v x = Except.ok (p, y)) ∧
  (∀ p v, p ≤ x.sz → p < 2147483648 → ∃ y, Emplace mem p v x = Except.ok (p, y)) ∧
  (∀ p, p < x.sz → p < 2147483648 → ∃ y, Erase p x = Except.ok (p, y)) ∧
  (∀ s, SizeInv s → min s.sz x.sz < 2147483648 →
    ∃ y, copyAssign mem false x s = Except.ok (y, s))

/-- The states reachable from construction by public operations: what a
constructor yields, and what an operation on reachable states leaves. -/
inductive Reachable [Inhabited T] : Vector T → Prop
  | empty : Reachable Vector.empty
  | sized (mem : Nat → Bool) (n : Nat) (y : Vector T) :
      Vector.sized mem n = Except.ok y → Reachable y
  | copy (mem : Nat → Bool) (s c : Vector T) :
      Reachable s → Vector.copy mem s = Except.ok c → Reachable c
  | move_target (s : Vector T) : Reachable s → Reachable (Vector.move s).1
  | move_source (s : Vector T) : Reachable s → Reachable (Vector.move s).2
  | Reserve (mem : Nat → Bool) (n : Nat) (x y : Vector T) :
      Reachable x → Left id (Vector.Reserve mem n x) y → Reachable y
  | Resize (mem : Nat → Bool) (n : Nat) (x y : Vector T) :
      Reachable x → Left id (Vector.Resize mem n x) y → Reachable y
  | PushBack (mem : Nat → Bool) (v : T) (x y : Vector T) :
      Reachable x → Left id (Vector.PushBack mem v x) y → Reachable y
  | PushBackMove (mem : Nat → Bool) (v : T) (x y : Vector T) :
      Reachable x → Left id (Vector.PushBackMove mem v x) y → Reachable y
  | EmplaceBack (mem : Nat → Bool) (v : T) (x y : Vector T) :
      Reachable x → Left Prod.snd (Vector.EmplaceBack mem v x) y → Reachable y
  | PopBack (x y : Vector T) :
      Reachable x → Left id (Vector.PopBack x) y → Reachable y
  | Insert (mem : Nat → Bool) (p : Nat) (v : T) (x y : Vector T) :
      Reachable x → Left Prod.snd (Vector.Insert mem p v x) y → Reachable y
  | InsertMove (mem : Nat → Bool) (p : Nat) (v : T) (x y : Vector T) :
      Reachable x → Left Prod.snd (Vector.InsertMove mem p v x) y → Reachable y
  | Emplace (mem : Nat → Bool) (p : Nat) (v : T) (x y : Vector T) :
      Reachable x → Left Prod.snd (Vector.Emplace mem p v x) y → Reachable y
  | Erase (p : Nat) (x y : Vector T) :
      Reachable x → Left Prod.snd (Vector.Erase p x) y → Reachable y
  | copyAssign (mem : Nat → Bool) (aliased : Bool) (x s y : Vector T) :
      Reachable x → Reachable s → Left Prod.fst (Vector.copyAssign mem aliased x s) y →
      Reachable y
  | moveAssign_target (aliased : Bool) (x s : Vector T) :
      Reachable x → Reachable s → Reachable (Vector.moveAssign aliased x s).1
  | moveAssign_source (aliased : Bool) (x s : Vector T) :
      Reachable x → Reachable s → Reachable (Vector.moveAssign aliased x s).2

/-- The vector `Vector<T> v(2 ^ 31 + 1)` constructs: `2 ^ 31 + 1`
value-initialised elements in a block of as many slots. -/
def bigFull : Vector Nat :=
  { alloc := { arr := List.replicate 2147483649 (some 0), cap := 2147483649 },
    sz := 2147483649 }

/-- The number of `T` slots in the block that `::operator new(n * sizeof(T))`
hands out, `w` being `sizeof(T)`: the byte count is a product of `size_t`
values and wraps at `2 ^ 64`. -/
def slotsGranted (w n : Nat) : Nat := n * w % 18446744073709551616 / w

/-- `Allocate(n)` with the byte count computed as the source computes it,
for an element type of `w` bytes: the memory source is asked for
`n * w mod 2 ^ 64` bytes and the block holds the slots that fit in them.
`Allocate` is the case in which the product does not wrap. -/
def MyAllocator.AllocateBytes (w : Nat) (mem : Nat → Bool) (n : Nat) : Option (Block T) :=
  if mem (n * w % 18446744073709551616) then some (List.replicate (slotsGranted w n) none)
  else none

/-- `MyAllocator(size_t n)` over `AllocateBytes`: `cap` is `n` whatever
the block holds. -/
def MyAllocator.sizedBytes (w : Nat) (mem : Nat → Bool) (n : Nat) : Option (MyAllocator T) :=
  (AllocateBytes w mem n).map fun a => { arr := a, cap := n }

/-- `Reserve(n)` over `AllocateBytes`. -/
def Vector.ReserveBytes (w : Nat) (mem : Nat → Bool) (n : Nat) (v : Vector T) :
    Run (Vector T) (Vector T) :=
  if n > v.alloc.cap then
    match MyAllocator.sizedBytes w mem n with
    | none => Except.error (Fault.bad_alloc v)
    | some alloc2 => do
      let arr2 ← inBlock (uninitialized_move_n v.alloc.arr 0 v.sz alloc2.arr 0)
      let arr1 ← inBlock (destroy_n v.alloc.arr 0 v.sz)
      let p := MyAllocator.Swap { alloc2 with arr := arr2 } { v.alloc with arr := arr1 }
      pure { alloc := { p.2 with cap := n }, sz := v.sz }
  else pure v

/-- `Resize(n)` over `AllocateBytes`. -/
def Vector.ResizeBytes [Inhabited T] (w : Nat) (mem : Nat → Bool) (n : Nat) (v : Vector T) :
    Run (Vector T) (Vector T) := do
  let v1 ← Vector.ReserveBytes w mem n v
  if n < v1.sz then
    let b ← inBlock (destroy_n v1.alloc.arr n (v1.sz - n))
    pure { alloc := { v1.alloc with arr := b }, sz := n }
  else if n > v1.sz then
    let b ← inBlock (uninitialized_value_construct_n v1.alloc.arr v1.sz (n - v1.sz))
    pure { alloc := { v1.alloc with arr := b }, sz := n }
  else
    pure { v1 with sz := n }

/-- `Vector(size_t n)` over `AllocateBytes`. -/
def Vector.sizedBytes [Inhabited T] (w : Nat) (mem : Nat → Bool) (n : Nat) :
    Run Unit (Vector T) :=
  match MyAllocator.sizedBytes w mem n with
  | none => Except.error (Fault.bad_alloc ())
  | some a => do
    let b ← inBlock (uninitialized_value_construct_n a.arr 0 n)
    pure { alloc := { a with arr := b }, sz := n }

/-- What a reference parameter of a member function (`const T&`, `T&&`, a
forwarded argument) designates at the call: an object outside the storage
of the vector, with value `v`, or the element of the vector itself at an
offset of its block. -/
inductive Arg (T : Type) where
  | outside (v : T)
  | element (i : Nat)
  deriving DecidableEq, Repr

/-- Reading through a reference argument.  `b` is the block the vector
owns at the read; `freed` tells that the block it owned at the call has
been destroyed and released in between, in which case a reference to an
element dangles.  Reading a slot that holds no live element is undefined. -/
def Arg.read (a : Arg T) (b : Block T) (freed : Bool) : Option T :=
  match a with
  | Arg.outside v => some v
  | Arg.element i => if freed then none else (b[i]?).bind id

/-- `Reserve(n)` takes its reallocating branch: it destroys the elements
of the block the vector owns and releases that block. -/
def Vector.reallocates (n : Nat) (v : Vector T) : Bool := decide (n > v.alloc.cap)

/-- `PushBack(const T& elem)` with the parameter as a reference: `elem` is
read by `Construct` after `Reserve` has run. -/
def Vector.PushBackRef (mem : Nat → Bool) (elem : Arg T) (v : Vector T) :
    Run (Vector T) (Vector T) := do
  let v1 ← if v.sz = v.alloc.cap then Reserve mem (if v.sz = 0 then 1 else v.sz * 2) v else pure v
  let x ← inBlock (elem.read v1.alloc.arr
    (decide (v.sz = v.alloc.cap) && Vector.reallocates (if v.sz = 0 then 1 else v.sz * 2) v))
  let b ← inBlock (Construct v1.alloc.arr v1.sz x)
  pure { alloc := { v1.alloc with arr := b }, sz := v1.sz + 1 }

/-- `PushBack(T&& elem)` with the parameter as a reference. -/
def Vector.PushBackMoveRef (mem : Nat → Bool) (elem : Arg T) (v : Vector T) :
    Run (Vector T) (Vector T) := do
  let v1 ← if v.sz = v.alloc.cap then Reserve mem (if v.sz = 0 then 1 else v.sz * 2) v else pure v
  let x ← inBlock (elem.read v1.alloc.arr
    (decide (v.sz = v.alloc.cap) && Vector.reallocates (if v.sz = 0 then 1 else v.sz * 2) v))
  let b ← inBlock (ConstructMove v1.alloc.arr v1.sz x)
  pure { alloc := { v1.alloc with arr := b }, sz := v1.sz + 1 }

/-- `EmplaceBack(args...)` for one forwarded argument from which `T` is
copy-constructed: the argument is read by the placement new after
`Reserve(sz + 1)` has run. -/
def Vector.EmplaceBackRef (mem : Nat → Bool) (arg : Arg T) (v : Vector T) :
    Run (Vector T) (Nat × Vector T) := do
  let v1 ← Reserve mem (v.sz + 1) v
  let x ← inBlock (arg.read v1.alloc.arr (Vector.reallocates (v.sz + 1) v))
  let b ← inBlock (store v1.alloc.arr v1.sz (some x))
  pure (v1.sz, { alloc := { v1.alloc with arr := b }, sz := v1.sz + 1 })

/-- What an assignment does to an element slot: a constructor runs on it,
a destructor runs on it, or `T::operator=` assigns to it. -/
inductive Event where
  | construct (slot : Nat)
  | destroy (slot : Nat)
  | assign (slot : Nat)
  deriving DecidableEq, Repr

/-- `std::uninitialized_copy_n` with its constructions recorded. -/
def copy_n_traced (src : Block T) :
    Nat → Nat → Block T → Nat → Option (Block T × List Event)
  | _, 0, dst, _ => some (dst, [])
  | first, n + 1, dst, d =>
    (src[first]?).bind fun x =>
      (store dst d x).bind fun dst1 =>
        (copy_n_traced src (first + 1) n dst1 (d + 1)).map fun r =>
          (r.1, Event.construct d :: r.2)

/-- `std::destroy_n` with its destructions recorded. -/
def destroy_n_traced : Block T → Nat → Nat → Option (Block T × List Event)
  | b, _, 0 => some (b, [])
  | b, first, n + 1 =>
    (Destroy b first).bind fun b1 =>
      (destroy_n_traced b1 (first + 1) n).map fun r => (r.1, Event.destroy first :: r.2)

/-- The prefix loop of copy assignment with its element assignments
recorded. -/
def assignLoop_traced (src : Block T) (m : Nat) :
    Nat → Nat → Block T → Option (Block T × List Event)
  | 0, i, b => if i < m then none else some (b, [])
  | fuel + 1, i, b =>
    if i < m then
      (src[i]?).bind fun x =>
        (store b i x).bind fun b1 =>
          if (i : Int) = INT_MAX then none
          else (assignLoop_traced src m fuel (i + 1) b1).map fun r =>
            (r.1, Event.assign i :: r.2)
    else some (b, [])

/-- `Vector(const Vector& other)` with its constructions recorded. -/
def Vector.copyTraced (mem : Nat → Bool) (other : Vector T) :
    Run Unit (Vector T × List Event) :=
  match MyAllocator.sized mem other.sz with
  | none => Except.error (Fault.bad_alloc ())
  | some a => do
    let r ← inBlock (copy_n_traced other.alloc.arr 0 other.sz a.arr 0)
    pure ({ alloc := { a with arr := r.1 }, sz := other.sz }, r.2)

/-- `~Vector()` with its destructions recorded. -/
def Vector.destructTraced (v : Vector T) : Option (List Event) :=
  (destroy_n_traced v.alloc.arr 0 v.sz).map fun r => r.2

/-- The guarded body of `operator=(const Vector& other)`, for `other` an
object distinct from `*this`, with what it does to elements recorded in
order.  The pair is `(*this, other)` after the call. -/
def Vector.copyAssignTraced (mem : Nat → Bool) (self other : Vector T) :
    Run (Vector T) ((Vector T × Vector T) × List Event) :=
  if other.sz > self.alloc.cap then
    match Vector.copyTraced mem other with
    | Except.error (Fault.bad_alloc _) => Except.error (Fault.bad_alloc self)
    | Except.error Fault.undefined => Except.error Fault.undefined
    | Except.ok tmp => do
      let p := Vector.Swap tmp.1 self
      let ev ← inBlock (Vector.destructTraced p.1)
      pure ((p.2, other), tmp.2 ++ ev)
  else do
    let m := min other.sz self.sz
    let r ← inBlock (assignLoop_traced other.alloc.arr m m 0 self.alloc.arr)
    let r1 ←
      if self.sz < other.sz then
        inBlock (copy_n_traced other.alloc.arr self.sz (other.sz - self.sz) r.1 self.sz)
      else if self.sz > other.sz then
        inBlock (destroy_n_traced r.1 other.sz (self.sz - other.sz))
      else pure (r.1, [])
    pure (({ alloc := { self.alloc with arr := r1.1 }, sz := other.sz }, other), r.2 ++ r1.2)

/-- The `Vector<T>` objects of a program; the address of an object is its
position. -/
abbrev Objects (T : Type) := List (Vector T)

/-- `operator=(const Vector& other)` called on the object at the address
`self` with the parameter bound to the object at the address `other`.  The
guard `&other != this` compares the two addresses.  The result carries the
objects after the call and what was done to elements. -/
def copyAssignAt (mem : Nat → Bool) (os : Objects T) (self other : Nat) :
    Run (Objects T) (Objects T × List Event) :=
  match os[self]?, os[other]? with
  | some d, some s =>
    if other ≠ self then
      match Vector.copyAssignTraced mem d s with
      | Except.ok r => Except.ok (os.set self r.1.1, r.2)
      | Except.error (Fault.bad_alloc x) => Except.error (Fault.bad_alloc (os.set self x))
      | Except.error Fault.undefined => Except.error Fault.undefined
    else pure (os, [])
  | _, _ => Except.error Fault.undefined

/-- `operator=(Vector&& other)` called on the object at the address `self`
with the parameter bound to the object at the address `other`.  The guard
`this != &other` compares the two addresses; `other.Swap(*this)` exchanges
block pointers and counters and touches no element. -/
def moveAssignAt (os : Objects T) (self other : Nat) : Option (Objects T × List Event) :=
  match os[self]?, os[other]? with
  | some d, some s =>
    if self ≠ other then
      let p := Vector.Swap s d
      some ((os.set other p.1).set self p.2, [])
    else some (os, [])
  | _, _ => none

/-! ## Slot primitives in closed form -/

theorem store_of_lt {b : Block T} {i : Nat} (s : Option T) (h : i < b.length) :
    store b i s = some (b.set i s) := by
  simp [store, h]

theorem fill_nil (b : Block T) (d : Nat) : fill b d [] = b := by
  simp [fill]

theorem length_fill (b : Block T) (d : Nat) (vals : Block T) (h : d + vals.length ≤ b.length) :
    (fill b d vals).length = b.length := by
  simp [fill]; omega

theorem fill_cons_succ (y : Option T) (c : Block T) (d : Nat) (vals : Block T) :
    fill (y :: c) (d + 1) vals = y :: fill c d vals := by
  simp [fill, Nat.add_right_comm d 1]

theorem fill_set (b : Block T) (d : Nat) (x : Option T) (vals : Block T) (h : d < b.length) :
    fill (b.set d x) (d + 1) vals = fill b d (x :: vals) := by
  induction d generalizing b with
  | zero =>
    cases b with
    | nil => simp at h
    | cons y c => simp [fill, Nat.add_comm 1]
  | succ d ih =>
    cases b with
    | nil => simp at h
    | cons y c =>
      have hc : d < c.length := by simpa using h
      simp [fill_cons_succ, ih c hc]

theorem copy_n_eq (src : Block T) (n : Nat) : ∀ (first : Nat) (dst : Block T) (d : Nat),
    first + n ≤ src.length → d + n ≤ dst.length →
    uninitialized_copy_n src first n dst d = some (fill dst d ((src.drop first).take n)) := by
  induction n with
  | zero => intro first dst d _ _; simp [uninitialized_copy_n, fill_nil]
  | succ n ih =>
    intro first dst d h1 h2
    have hf : first < src.length := by omega
    have hd : d < dst.length := by omega
    have hx : (src.drop first).take (n + 1) = src[first] :: (src.drop (first + 1)).take n := by
      rw [List.drop_eq_getElem_cons hf, List.take_succ_cons]
    rw [uninitialized_copy_n, List.getElem?_eq_getElem hf, Option.some_bind, store_of_lt _ hd,
      Option.some_bind, ih (first + 1) _ (d + 1) (by omega) (by simp; omega), fill_set _ _ _ _ hd, hx]

theorem move_n_eq_copy_n (src : Block T) (n : Nat) : ∀ (first : Nat) (dst : Block T) (d : Nat),
    uninitialized_move_n src first n dst d = uninitialized_copy_n src first n dst d := by
  induction n with
  | zero => intro first dst d; rfl
  | succ n ih =>
    intro first dst d
    simp only [uninitialized_move_n, uninitialized_copy_n, ih]

theorem destroy_n_eq (n : Nat) : ∀ (b : Block T) (first : Nat), first + n ≤ b.length →
    destroy_n b first n = some (fill b first (List.replicate n none)) := by
  induction n with
  | zero => intro b first _; simp [destroy_n, fill_nil]
  | succ n ih =>
    intro b first h
    have hf : first < b.length := by omega
    rw [destroy_n, Destroy, store_of_lt _ hf, Option.some_bind,
      ih _ (first + 1) (by simp; omega), fill_set _ _ _ _ hf, List.replicate_succ]

theorem value_construct_n_eq [Inhabited T] (n : Nat) : ∀ (b : Block T) (first : Nat),
    first + n ≤ b.length →
    uninitialized_value_construct_n b first n
      = some (fill b first (List.replicate n (some default))) := by
  induction n with
  | zero => intro b first _; simp [uninitialized_value_construct_n, fill_nil]
  | succ n ih =>
    intro b first h
    have hf : first < b.length := by omega
    rw [uninitialized_value_construct_n, Construct, store_of_lt _ hf, Option.some_bind,
      ih _ (first + 1) (by simp; omega), fill_set _ _ _ _ hf, List.replicate_succ]


theorem Reserve_grow (mem : Nat → Bool) (n : Nat) (v : Vector T)
    (hblk : v.alloc.arr.length = v.alloc.cap) (hle : v.sz ≤ v.alloc.cap)
    (hn : v.alloc.cap < n) (hmem : mem n = true) :
    Reserve mem n v = Except.ok
      { alloc := { arr := v.alloc.arr.take v.sz ++ List.replicate (n - v.sz) none, cap := n },
        sz := v.sz } := by
  have h1 : uninitialized_move_n v.alloc.arr 0 v.sz (List.replicate n none) 0
      = some (v.alloc.arr.take v.sz ++ List.replicate (n - v.sz) none) := by
    rw [move_n_eq_copy_n, copy_n_eq _ _ _ _ _ (by omega) (by simp; omega)]
    simp [fill]
    omega
  have h2 : destroy_n v.alloc.arr 0 v.sz
      = some (fill v.alloc.arr 0 (List.replicate v.sz none)) :=
    destroy_n_eq _ _ _ (by omega)
  simp [Reserve, hn, MyAllocator.sized, Allocate, hmem, h1, h2, inBlock, MyAllocator.Swap,
    bind, Except.bind, pure, Except.pure]

theorem Reserve_keep (mem : Nat → Bool) (n : Nat) (v : Vector T) (hn : n ≤ v.alloc.cap) :
    Reserve mem n v = Except.ok v := by
  simp [Reserve, Nat.not_lt.mpr hn, pure, Except.pure]

/-! ## End insertion -/

theorem take_succ_set (b : Block T) (i : Nat) (s : Option T) (h : i < b.length) :
    (b.set i s).take (i + 1) = b.take i ++ [s] := by
  rw [List.take_succ, List.getElem?_set_self h, List.set_take,
    List.set_eq_of_length_le (by simp)]
  rfl

theorem PushBack_grow (mem : Nat → Bool) (x : Vector T) (v : T)
    (hblk : x.alloc.arr.length = x.alloc.cap) (h : x.sz = x.alloc.cap)
    (hmem : mem (if x.sz = 0 then 1 else x.sz * 2) = true) :
    PushBack mem v x = Except.ok
      { alloc :=
          { arr := (x.alloc.arr.take x.sz
              ++ List.replicate ((if x.sz = 0 then 1 else x.sz * 2) - x.sz) none).set x.sz (some v),
            cap := if x.sz = 0 then 1 else x.sz * 2 },
        sz := x.sz + 1 } := by
  have hn : x.alloc.cap < (if x.sz = 0 then 1 else x.sz * 2) := by
    split <;> omega
  have hlen : x.sz < (x.alloc.arr.take x.sz
      ++ List.replicate ((if x.sz = 0 then 1 else x.sz * 2) - x.sz) none).length := by
    simp; omega
  simp only [PushBack, if_pos h, Reserve_grow mem _ x hblk (by omega) hn hmem, Construct,
    store_of_lt _ hlen, inBlock, bind, Except.bind, pure, Except.pure]

theorem PushBack_keep (mem : Nat → Bool) (x : Vector T) (v : T)
    (hblk : x.alloc.arr.length = x.alloc.cap) (h : x.sz < x.alloc.cap) :
    PushBack mem v x = Except.ok
      { alloc := { arr := x.alloc.arr.set x.sz (some v), cap := x.alloc.cap },
        sz := x.sz + 1 } := by
  have hlen : x.sz < x.alloc.arr.length := by omega
  simp only [PushBack, if_neg (Nat.ne_of_lt h), Construct, store_of_lt _ hlen, inBlock, bind,
    Except.bind, pure, Except.pure]

theorem PushBack_step (mem : Nat → Bool) (hmem : ∀ n, mem n = true) (x : Vector T) (v : T)
    (hblk : x.alloc.arr.length = x.alloc.cap) (hle : x.sz ≤ x.alloc.cap) :
    ∃ y, PushBack mem v x = Except.ok y ∧ y.sz = x.sz + 1 ∧
      y.elems = x.elems ++ [some v] ∧ y.alloc.arr.length = y.alloc.cap ∧
      y.alloc.cap = (if x.sz = x.alloc.cap then (if x.sz = 0 then 1 else x.sz * 2)
        else x.alloc.cap) := by
  by_cases h : x.sz = x.alloc.cap
  · have hlen : x.sz < (x.alloc.arr.take x.sz
        ++ List.replicate ((if x.sz = 0 then 1 else x.sz * 2) - x.sz) none).length := by
      simp; split <;> omega
    refine ⟨_, PushBack_grow mem x v hblk h (hmem _), rfl, ?_, ?_, ?_⟩
    · simp only [Vector.elems]
      rw [take_succ_set _ _ _ hlen, List.take_append_of_le_length (by simp; omega)]
      simp
    · simp; split <;> omega
    · simp [h]
  · have hlen : x.sz < x.alloc.arr.length := by omega
    refine ⟨_, PushBack_keep mem x v hblk (by omega), rfl, ?_, ?_, ?_⟩
    · simp only [Vector.elems]
      rw [take_succ_set _ _ _ hlen]
    · simpa using hblk
    · simp [h]

theorem PushBackMove_eq (mem : Nat → Bool) (v : T) (x : Vector T) :
    PushBackMove mem v x = PushBack mem v x := rfl

theorem EmplaceBack_grow (mem : Nat → Bool) (x : Vector T) (v : T)
    (hblk : x.alloc.arr.length = x.alloc.cap) (h : x.sz = x.alloc.cap)
    (hmem : mem (x.sz + 1) = true) :
    EmplaceBack mem v x = Except.ok (x.sz,
      { alloc :=
          { arr := (x.alloc.arr.take x.sz ++ List.replicate (x.sz + 1 - x.sz) none).set x.sz (some v),
            cap := x.sz + 1 },
        sz := x.sz + 1 }) := by
  have hlen : x.sz < (x.alloc.arr.take x.sz
      ++ List.replicate (x.sz + 1 - x.sz) none).length := by
    simp; omega
  simp only [EmplaceBack, Reserve_grow mem _ x hblk (by omega) (by omega) hmem,
    store_of_lt _ hlen, inBlock, bind, Except.bind, pure, Except.pure]

theorem EmplaceBack_keep (mem : Nat → Bool) (x : Vector T) (v : T)
    (hblk : x.alloc.arr.length = x.alloc.cap) (h : x.sz < x.alloc.cap) :
    EmplaceBack mem v x = Except.ok (x.sz,
      { alloc := { arr := x.alloc.arr.set x.sz (some v), cap := x.alloc.cap },
        sz := x.sz + 1 }) := by
  have hlen : x.sz < x.alloc.arr.length := by omega
  simp only [EmplaceBack, Reserve_keep mem _ x h, store_of_lt _ hlen, inBlock, bind,
    Except.bind, pure, Except.pure]

theorem EmplaceBack_step (mem : Nat → Bool) (hmem : ∀ n, mem n = true) (x : Vector T) (v : T)
    (hblk : x.alloc.arr.length = x.alloc.cap) (hle : x.sz ≤ x.alloc.cap) :
    ∃ y, EmplaceBack mem v x = Except.ok (x.sz, y) ∧ y.sz = x.sz + 1 ∧
      y.elems = x.elems ++ [some v] ∧ y.alloc.arr.length = y.alloc.cap ∧
      y.alloc.cap = (if x.sz = x.alloc.cap then x.sz + 1 else x.alloc.cap) := by
  by_cases h : x.sz = x.alloc.cap
  · have hlen : x.sz < (x.alloc.arr.take x.sz
        ++ List.replicate (x.sz + 1 - x.sz) none).length := by
      simp; omega
    refine ⟨_, EmplaceBack_grow mem x v hblk h (hmem _), rfl, ?_, ?_, ?_⟩
    · simp only [Vector.elems]
      rw [take_succ_set _ _ _ hlen, List.take_append_of_le_length (by simp; omega)]
      simp
    · simp; omega
    · simp [h]
  · have hlen : x.sz < x.alloc.arr.length := by omega
    refine ⟨_, EmplaceBack_keep mem x v hblk (by omega), rfl, ?_, ?_, ?_⟩
    · simp only [Vector.elems]
      rw [take_succ_set _ _ _ hlen]
    · simpa using hblk
    · simp [h]

theorem elems_length (x : Vector T) (hblk : x.alloc.arr.length = x.alloc.cap)
    (hle : x.sz ≤ x.alloc.cap) : x.elems.length = x.sz := by
  simp [Vector.elems]; omega

/-- For an argument that designates an object outside the storage of the
vector, of value `v`: on a vector with `size <= capacity`, `PushBack(v)`
(either overload) and `EmplaceBack(v)` return, the size grows by one, the
first old-size elements are the old ones in order and the last element is
`v`; the reference `EmplaceBack` returns designates that last slot. -/
theorem PushBack_EmplaceBack_append (mem : Nat → Bool) (hmem : ∀ n, mem n = true)
    (x : Vector T) (v : T)
    (hblk : x.alloc.arr.length = x.alloc.cap) (hle : x.sz ≤ x.alloc.cap) :
    (∃ y, PushBack mem v x = Except.ok y ∧ y.Size = x.Size + 1 ∧
      y.elems.take x.Size = x.elems ∧ y.elems[x.Size]? = some (some v) ∧
      y.elems.length = x.Size + 1) ∧
    (∃ y, PushBackMove mem v x = Except.ok y ∧ y.Size = x.Size + 1 ∧
      y.elems.take x.Size = x.elems ∧ y.elems[x.Size]? = some (some v) ∧
      y.elems.length = x.Size + 1) ∧
    (∃ r y, EmplaceBack mem v x = Except.ok (r, y) ∧ y.Size = x.Size + 1 ∧
      y.elems.take x.Size = x.elems ∧ y.elems[x.Size]? = some (some v) ∧
      y.elems.length = x.Size + 1 ∧ r = y.Size - 1 ∧ y.alloc.arr[r]? = some (some v)) := by
  have hl := elems_length x hblk hle
  have key : ∀ y : Vector T, y.elems = x.elems ++ [some v] →
      y.elems.take x.Size = x.elems ∧ y.elems[x.Size]? = some (some v) ∧
      y.elems.length = x.Size + 1 := by
    intro y hy
    simp only [Vector.Size]
    refine ⟨?_, ?_, ?_⟩
    · rw [hy, List.take_left' hl]
    · rw [hy, List.getElem?_append_right (by omega), hl]; simp
    · rw [hy]; simp [hl]
  obtain ⟨y, h1, h2, h3, _, _⟩ := PushBack_step mem hmem x v hblk hle
  obtain ⟨z, g1, g2, g3, _, _⟩ := EmplaceBack_step mem hmem x v hblk hle
  refine ⟨⟨y, h1, h2, key y h3⟩, ⟨y, h1, h2, key y h3⟩, ⟨x.sz, z, g1, g2, ?_⟩⟩
  obtain ⟨k1, k2, k3⟩ := key z g3
  refine ⟨k1, k2, k3, ?_, ?_⟩
  · simp [Vector.Size, g2]
  · have := k2
    simp only [Vector.elems, Vector.Size, g2] at this
    rw [List.getElem?_take_of_lt (by omega)] at this
    exact this

theorem PushBack_EmplaceBack_append_witness :
    (∀ n, grantAll n = true) ∧ demo.alloc.arr.length = demo.alloc.cap ∧
    demo.sz ≤ demo.alloc.cap ∧
    ∃ r y, EmplaceBack grantAll 5 demo = Except.ok (r, y) ∧ y.Size = demo.Size + 1 ∧
      r = y.Size - 1 :=
  ⟨fun _ => rfl, rfl, by decide,
    (PushBack_EmplaceBack_append grantAll (fun _ => rfl) demo 5 rfl (by decide)).2.2.imp
      fun _ h => h.imp fun _ h => ⟨h.1, h.2.1, h.2.2.2.2.2.1⟩⟩

/-! ## Runs of PushBack -/

theorem getElem?_fill (b : Block T) (d : Nat) (vals : Block T) (h : d + vals.length ≤ b.length)
    (j : Nat) :
    (fill b d vals)[j]? =
      if j < d then b[j]? else if j < d + vals.length then vals[j - d]? else b[j]? := by
  have hd : (b.take d).length = d := by simp; omega
  unfold fill
  by_cases h1 : j < d
  · rw [if_pos h1, List.append_assoc, List.getElem?_append_left (by omega),
      List.getElem?_take_of_lt h1]
  · rw [if_neg h1, List.append_assoc, List.getElem?_append_right (by omega), hd]
    by_cases h2 : j < d + vals.length
    · rw [if_pos h2, List.getElem?_append_left (by omega)]
    · rw [if_neg h2, List.getElem?_append_right (by omega), List.getElem?_drop]
      congr 1
      omega

theorem set_eq_fill (b : Block T) (i : Nat) (s : Option T) (h : i < b.length) :
    b.set i s = fill b i [s] := by
  rw [← fill_set b i s [] h, fill_nil]


theorem getElem?_set_two (b : Block T) (k : Nat) (h : k + 1 < b.length) (j : Nat) :
    ((b.set (k + 1) b[k]).set k none)[j]? =
      if j = k then some none else if j = k + 1 then b[k]? else b[j]? := by
  rw [List.getElem?_set, List.getElem?_set]
  have hk : k < b.length := by omega
  by_cases h1 : j = k
  · subst h1; simp [hk]
  · by_cases h2 : j = k + 1
    · subst h2; simp [h]
    · rw [if_neg (Ne.symm h1), if_neg (Ne.symm h2), if_neg h1, if_neg h2]

theorem getElem?_gap (b : Block T) (p it : Nat) (hp : p ≤ it) (h : it < b.length) (j : Nat) :
    (fill b p (none :: (b.drop p).take (it - p)))[j]? =
      if j < p then b[j]? else if j = p then some none
        else if j ≤ it then b[j - 1]? else b[j]? := by
  have hl : (none :: (b.drop p).take (it - p)).length = it - p + 1 := by
    simp; omega
  rw [getElem?_fill _ _ _ (by rw [hl]; omega), hl]
  by_cases h1 : j < p
  · simp [h1]
  · rw [if_neg h1, if_neg h1]
    by_cases h2 : j = p
    · subst h2; simp
    · rw [if_neg h2]
      by_cases h3 : j ≤ it
      · rw [if_pos (by omega), if_pos h3]
        obtain ⟨m, hm⟩ : ∃ m, j - p = m + 1 := ⟨j - p - 1, by omega⟩
        rw [hm, List.getElem?_cons_succ, List.getElem?_take_of_lt (by omega), List.getElem?_drop]
        congr 1
        omega
      · rw [if_neg (by omega), if_neg h3]

/-- The right-shift loop from `it` down to `p`: slot `p` is vacated and the
slots `p .. it - 1` move up by one. -/
theorem slideRightLoop_eq (p : Nat) : ∀ (it : Nat) (b : Block T), p ≤ it → it < b.length →
    slideRightLoop (p : Int) it b
      = some (if it = p then b else fill b p (none :: (b.drop p).take (it - p))) := by
  intro it
  induction it with
  | zero =>
    intro b hp _
    have : p = 0 := by omega
    subst this
    simp [slideRightLoop]
  | succ k ih =>
    intro b hp hlen
    by_cases hk : k + 1 = p
    · subst hk; simp [slideRightLoop]
    · have hpk : p ≤ k := by omega
      have hk0 : k < b.length := by omega
      have hne : ¬ ((k + 1 : Nat) : Int) = (p : Int) := by exact_mod_cast hk
      have hmove : uninitialized_move_n b k 1 b (k + 1) = some (b.set (k + 1) b[k]) := by
        simp [uninitialized_move_n, hk0, store_of_lt _ hlen]
      have hdes : Destroy (b.set (k + 1) b[k]) k = some ((b.set (k + 1) b[k]).set k none) :=
        store_of_lt _ (by simpa using hk0)
      rw [slideRightLoop, if_neg hne, hmove, Option.some_bind, hdes, Option.some_bind,
        ih _ hpk (by simpa using hk0), if_neg hk]
      congr 1
      apply List.ext_getElem?
      intro j
      rw [getElem?_gap b p (k + 1) hp hlen]
      by_cases hkp : k = p
      · subst hkp
        rw [if_pos rfl, getElem?_set_two b k hlen]
        split_ifs <;> first | rfl | (exfalso; omega) | (congr 1; omega)
      · rw [if_neg hkp, getElem?_gap _ p k hpk (by simpa using hk0)]
        simp only [getElem?_set_two b k hlen]
        split_ifs <;> first | rfl | (exfalso; omega) | (congr 1; omega)


theorem toInt_of_lt (p : Nat) (h : p < 2147483648) : toInt (p : Int) = (p : Int) := by
  unfold toInt
  omega

theorem slotOf_natCast (p : Nat) : slotOf (p : Int) = some p := by
  simp [slotOf]

/-- `Reserve(n)` on a vector that satisfies the storage invariant. -/
theorem Reserve_ok (mem : Nat → Bool) (n : Nat) (x : Vector T)
    (hblk : x.alloc.arr.length = x.alloc.cap) (hle : x.sz ≤ x.alloc.cap)
    (hmem : x.alloc.cap < n → mem n = true) :
    ∃ w, Reserve mem n x = Except.ok w ∧ w.sz = x.sz ∧ w.elems = x.elems ∧
      w.alloc.arr.length = w.alloc.cap ∧ w.alloc.cap = max x.alloc.cap n := by
  by_cases hn : x.alloc.cap < n
  · refine ⟨_, Reserve_grow mem n x hblk hle hn (hmem hn), rfl, ?_, ?_, ?_⟩
    · simp only [Vector.elems]
      rw [List.take_append_of_le_length (by simp; omega), List.take_take, Nat.min_self]
    · simp; omega
    · simp; omega
  · exact ⟨x, Reserve_keep mem n x (by omega), rfl, rfl, hblk, by simp; omega⟩

theorem set_fill_head (b : Block T) (p : Nat) (a c : Option T) (r : Block T)
    (h : p + (r.length + 1) ≤ b.length) :
    (fill b p (a :: r)).set p c = fill b p (c :: r) := by
  have hd : (b.take p).length = p := by simp; omega
  unfold fill
  rw [List.append_assoc, List.set_append_right _ _ (by omega), hd, Nat.sub_self]
  simp

theorem take_fill_all (b : Block T) (p : Nat) (r : Block T) (h : p + r.length ≤ b.length) :
    (fill b p r).take (p + r.length) = b.take p ++ r := by
  have hd : (b.take p).length = p := by simp; omega
  unfold fill
  rw [List.take_left' (by simp [hd])]


theorem slideOneRight_eq (mem : Nat → Bool) (x : Vector T) (p : Nat)
    (hblk : x.alloc.arr.length = x.alloc.cap) (hfree : x.sz < x.alloc.cap) (hp : p ≤ x.sz) :
    slideOneRight mem (p : Int) x = Except.ok
      { alloc := { arr := fill x.alloc.arr p (none :: (x.alloc.arr.drop p).take (x.sz - p)),
                   cap := x.alloc.cap },
        sz := x.sz } := by
  have hlen : x.sz < x.alloc.arr.length := by omega
  have hfit : p + ((List.take (x.sz - p) (List.drop p x.alloc.arr)).length + 1)
      ≤ x.alloc.arr.length := by
    simp; omega
  have hdes : Destroy (if x.sz = p then x.alloc.arr
      else fill x.alloc.arr p (none :: (x.alloc.arr.drop p).take (x.sz - p))) p
      = some (fill x.alloc.arr p (none :: (x.alloc.arr.drop p).take (x.sz - p))) := by
    by_cases h : x.sz = p
    · rw [if_pos h, Destroy, store_of_lt _ (by omega), set_eq_fill _ _ _ (by omega), h]
      simp
    · rw [if_neg h, Destroy, store_of_lt _ (by rw [length_fill _ _ _ (by simpa using hfit)]; omega),
        set_fill_head _ _ _ _ _ hfit]
  simp only [slideOneRight, Reserve_keep mem _ x hfree, slideRightLoop_eq p x.sz _ hp hlen,
    slotOf_natCast, hdes, inBlock, bind, Except.bind, pure, Except.pure]

theorem slideOneRight_reserved (mem : Nat → Bool) (pos : Int) (x w : Vector T)
    (hw : Reserve mem (x.sz + 1) x = Except.ok w) (hsz : w.sz = x.sz)
    (hcap : x.sz + 1 ≤ w.alloc.cap) :
    slideOneRight mem pos x = slideOneRight mem pos w := by
  simp only [slideOneRight, hw, hsz, Reserve_keep mem (x.sz + 1) w hcap, bind, Except.bind]

theorem Insert_eq (mem : Nat → Bool) (x : Vector T) (p : Nat) (v : T)
    (hblk : x.alloc.arr.length = x.alloc.cap) (hfree : x.sz < x.alloc.cap) (hp : p ≤ x.sz)
    (hint : p < 2147483648) :
    Insert mem p v x = Except.ok (p,
      { alloc := { arr := fill x.alloc.arr p (some v :: (x.alloc.arr.drop p).take (x.sz - p)),
                   cap := x.alloc.cap },
        sz := x.sz + 1 }) := by
  have hfit : p + ((List.take (x.sz - p) (List.drop p x.alloc.arr)).length + 1)
      ≤ x.alloc.arr.length := by
    simp; omega
  have hcon : Construct (fill x.alloc.arr p (none :: (x.alloc.arr.drop p).take (x.sz - p))) p v
      = some (fill x.alloc.arr p (some v :: (x.alloc.arr.drop p).take (x.sz - p))) := by
    rw [Construct, store_of_lt _ (by rw [length_fill _ _ _ (by simpa using hfit)]; omega),
      set_fill_head _ _ _ _ _ hfit]
  unfold Vector.Insert
  rw [toInt_of_lt p hint]
  simp only [slideOneRight_eq mem x p hblk hfree hp, slotOf_natCast, hcon, inBlock, bind,
    Except.bind, pure, Except.pure]

theorem Insert_reserved (mem : Nat → Bool) (pos : Nat) (v : T) (x w : Vector T)
    (hw : Reserve mem (x.sz + 1) x = Except.ok w) (hsz : w.sz = x.sz)
    (hcap : x.sz + 1 ≤ w.alloc.cap) :
    Insert mem pos v x = Insert mem pos v w := by
  unfold Vector.Insert
  simp only [slideOneRight_reserved mem _ x w hw hsz hcap]

theorem InsertMove_eq (mem : Nat → Bool) (pos : Nat) (v : T) (x : Vector T) :
    InsertMove mem pos v x = Insert mem pos v x := rfl

theorem Emplace_eq (mem : Nat → Bool) (pos : Nat) (v : T) (x : Vector T) :
    Emplace mem pos v x = Insert mem pos v x := rfl

/-- At a position whose offset fits `int`, `Insert` returns the iterator
at offset `p`, the size grows by one and the elements are the first `p` old
ones, `v`, then the remaining old ones. -/
theorem Insert_ok (mem : Nat → Bool) (hmem : ∀ n, mem n = true) (x : Vector T) (p : Nat) (v : T)
    (hblk : x.alloc.arr.length = x.alloc.cap) (hle : x.sz ≤ x.alloc.cap) (hp : p ≤ x.sz)
    (hint : p < 2147483648) :
    ∃ y, Insert mem p v x = Except.ok (p, y) ∧ y.sz = x.sz + 1 ∧
      y.elems = x.elems.take p ++ some v :: x.elems.drop p ∧
      y.alloc.arr.length = y.alloc.cap ∧ y.alloc.cap = max x.alloc.cap (x.sz + 1) := by
  obtain ⟨w, hw, hsz, hel, hwblk, hwcap⟩ :=
    Reserve_ok mem (x.sz + 1) x hblk hle (fun _ => hmem _)
  have hfree : w.sz < w.alloc.cap := by rw [hwcap, hsz]; omega
  have hfit : p + ((List.take (w.sz - p) (List.drop p w.alloc.arr)).length + 1)
      ≤ w.alloc.arr.length := by
    simp; omega
  rw [Insert_reserved mem p v x w hw hsz (by omega),
    Insert_eq mem w p v hwblk hfree (by omega) hint]
  refine ⟨_, rfl, by simp [hsz], ?_, ?_, hwcap⟩
  · have hlen : (some v :: (w.alloc.arr.drop p).take (w.sz - p)).length = w.sz + 1 - p := by
      simp; omega
    have h1 : w.sz + 1 = p + (some v :: (w.alloc.arr.drop p).take (w.sz - p)).length := by
      rw [hlen]; omega
    rw [← hel]
    simp only [Vector.elems]
    rw [h1, take_fill_all _ _ _ (by simpa using hfit), List.take_take, List.drop_take,
      Nat.min_eq_left (by omega)]
  · rw [length_fill _ _ _ (by simpa using hfit)]; exact hwblk

/-! ## Insert beyond the range of int -/

/-- The sample vector `big` satisfies the storage invariant: its block has
`cap` slots and `sz <= cap`. -/
theorem big_wellformed : big.alloc.arr.length = big.alloc.cap ∧ big.sz ≤ big.alloc.cap := by
  refine ⟨?_, ?_⟩
  · show (List.replicate 2147483649 (some 0) ++ [none]).length = 2147483650
    rw [List.length_append, List.length_replicate]
    rfl
  · show (2147483649 : Nat) ≤ 2147483650
    omega

theorem toInt_two_pow_31 : toInt ((2147483648 : Nat) : Int) = -2147483648 := by
  unfold toInt
  omega

/-- With a negative target offset the right-shift loop never meets
`arr + pos` and leaves the block. -/
theorem slideRightLoop_neg (pos : Int) (hpos : pos < 0) :
    ∀ (it : Nat) (b : Block T), slideRightLoop pos it b = none := by
  intro it
  induction it with
  | zero =>
    intro b
    have h : ¬ ((0 : Nat) : Int) = pos := by omega
    rw [slideRightLoop, if_neg h]
  | succ k ih =>
    intro b
    have h : ¬ ((k + 1 : Nat) : Int) = pos := by omega
    rw [slideRightLoop, if_neg h]
    simp [ih]

theorem Insert_neg (mem : Nat → Bool) (x : Vector T) (p : Nat) (v : T)
    (hfree : x.sz < x.alloc.cap) (hneg : toInt (p : Int) < 0) :
    Insert mem p v x = Except.error Fault.undefined := by
  unfold Vector.Insert
  simp only [slideOneRight, Reserve_keep mem _ x hfree, slideRightLoop_neg _ hneg, inBlock, bind,
    Except.bind]

/-- C4 at a failing input: on a vector of `2 ^ 31 + 1` elements with a
free slot, `Insert(begin() + 2 ^ 31, 7)` narrows the offset to the `int`
`-2 ^ 31` and the shifting loop runs below the block, for each of `Insert`
(both overloads) and `Emplace`. -/
theorem Insert_big_undefined :
    big.sz ≤ big.alloc.cap ∧ 2147483648 ≤ big.sz ∧
    Insert grantAll 2147483648 7 big = Except.error Fault.undefined ∧
    InsertMove grantAll 2147483648 7 big = Except.error Fault.undefined ∧
    Emplace grantAll 2147483648 7 big = Except.error Fault.undefined :=
  have h : Insert grantAll 2147483648 7 big = Except.error Fault.undefined :=
    Insert_neg grantAll big 2147483648 7 (by show (2147483649 : Nat) < 2147483650; omega)
      (by rw [toInt_two_pow_31]; omega)
  ⟨by show (2147483649 : Nat) ≤ 2147483650; omega,
    by show (2147483648 : Nat) ≤ 2147483649; omega, h, h, h⟩

/-! ## Closing a gap: slideOneLeft and Erase -/

theorem getElem?_swapped (b : Block T) (i : Nat) (h : i + 1 < b.length) (j : Nat) :
    ((b.set i b[i + 1]).set (i + 1) (b[i]))[j]? =
      if j = i then b[i + 1]? else if j = i + 1 then b[i]? else b[j]? := by
  rw [List.getElem?_set, List.getElem?_set]
  have hi : i < b.length := by omega
  by_cases h1 : j = i
  · subst h1; simp [h, hi]
  · by_cases h2 : j = i + 1
    · subst h2; simp [hi, h]
    · rw [if_neg (Ne.symm h2), if_neg (Ne.symm h1), if_neg h1, if_neg h2]

theorem swapSlots_eq (b : Block T) (i : Nat) (h : i + 1 < b.length) :
    swapSlots b i (i + 1) = some ((b.set i b[i + 1]).set (i + 1) (b[i])) := by
  have hi : i < b.length := by omega
  simp [swapSlots, hi, h, store_of_lt]

theorem getElem?_rot (b : Block T) (i s : Nat) (hi : i ≤ s) (hs : s < b.length) (j : Nat) :
    (fill b i ((b.drop (i + 1)).take (s - i) ++ (b.drop i).take 1))[j]? =
      if j < i then b[j]? else if j < s then b[j + 1]? else if j = s then b[i]? else b[j]? := by
  have hl : ((b.drop (i + 1)).take (s - i) ++ (b.drop i).take 1).length = s - i + 1 := by
    simp; omega
  have hl1 : ((b.drop (i + 1)).take (s - i)).length = s - i := by
    simp; omega
  rw [getElem?_fill _ _ _ (by rw [hl]; omega), hl]
  by_cases h1 : j < i
  · simp [h1]
  · rw [if_neg h1, if_neg h1]
    by_cases h2 : j < s
    · rw [if_pos (by omega), if_pos h2, List.getElem?_append_left (by omega),
        List.getElem?_take_of_lt (by omega), List.getElem?_drop]
      congr 1
      omega
    · rw [if_neg h2]
      by_cases h3 : j = s
      · rw [if_pos (by omega), if_pos h3, List.getElem?_append_right (by omega), hl1,
          List.getElem?_take_of_lt (by omega), List.getElem?_drop]
        congr 1
        omega
      · rw [if_neg (by omega), if_neg h3]

/-- The left-shift loop from `i` up to `s`: the slots `i + 1 .. s` move
down by one and the old slot `i` ends at `s`. -/
theorem slideLeftLoop_eq (s : Nat) : ∀ (fuel i : Nat) (b : Block T), i ≤ s → s < b.length →
    s - i ≤ fuel →
    slideLeftLoop (s : Int) fuel (i : Int) b
      = some (fill b i ((b.drop (i + 1)).take (s - i) ++ (b.drop i).take 1)) := by
  have hsame : ∀ (b : Block T), s < b.length →
      fill b s ((b.drop (s + 1)).take (s - s) ++ (b.drop s).take 1) = b := by
    intro b hs
    apply List.ext_getElem?
    intro j
    rw [getElem?_rot b s s (Nat.le_refl _) hs]
    split_ifs <;> first | rfl | (congr 1; omega)
  intro fuel
  induction fuel with
  | zero =>
    intro i b hi hs hf
    have : i = s := by omega
    subst this
    rw [slideLeftLoop, if_pos rfl, hsame b hs]
  | succ f ih =>
    intro i b hi hs hf
    by_cases h : i = s
    · subst h
      rw [slideLeftLoop, if_pos rfl, hsame b hs]
    · have hne : ¬ (i : Int) = (s : Int) := by exact_mod_cast h
      have hlt : i + 1 < b.length := by omega
      have hcast : (i : Int) + 1 = ((i + 1 : Nat) : Int) := by push_cast; rfl
      rw [slideLeftLoop, if_neg hne, slotOf_natCast, Option.some_bind, swapSlots_eq b i hlt,
        Option.some_bind, hcast, ih (i + 1) _ (by omega) (by simpa using hs) (by omega)]
      congr 1
      apply List.ext_getElem?
      intro j
      rw [getElem?_rot b i s hi hs, getElem?_rot _ (i + 1) s (by omega) (by simpa using hs)]
      simp only [getElem?_swapped b i hlt]
      split_ifs <;> first | rfl | (exfalso; omega) | (congr 1; omega)


theorem slotOf_pred (n : Nat) (h : 1 ≤ n) : slotOf ((n : Int) - 1) = some (n - 1) := by
  have h0 : (0 : Int) ≤ (n : Int) - 1 := by omega
  have h1 : ((n : Int) - 1).toNat = n - 1 := by omega
  rw [slotOf, if_pos h0, h1]

theorem PopBack_eq (x : Vector T) (h1 : 1 ≤ x.sz) (h2 : x.sz ≤ x.alloc.arr.length) :
    PopBack x = Except.ok
      { alloc := { arr := x.alloc.arr.set (x.sz - 1) none, cap := x.alloc.cap },
        sz := x.sz - 1 } := by
  have hlt : x.sz - 1 < x.alloc.arr.length := by omega
  simp only [PopBack, slotOf_pred x.sz h1, Destroy, store_of_lt _ hlt, inBlock, bind,
    Except.bind, pure, Except.pure]

theorem slideOneLeft_eq (x : Vector T) (p : Nat)
    (hblk : x.alloc.arr.length = x.alloc.cap) (hle : x.sz ≤ x.alloc.cap) (hp : p < x.sz) :
    slideOneLeft (p : Int) x = Except.ok
      { alloc :=
          { arr := (fill x.alloc.arr p ((x.alloc.arr.drop (p + 1)).take (x.sz - 1 - p)
              ++ (x.alloc.arr.drop p).take 1)).set (x.sz - 1) none,
            cap := x.alloc.cap },
        sz := x.sz - 1 } := by
  have hstop : (x.sz : Int) - 1 = ((x.sz - 1 : Nat) : Int) := by omega
  have hs : x.sz - 1 < x.alloc.arr.length := by omega
  have hlen : (fill x.alloc.arr p ((x.alloc.arr.drop (p + 1)).take (x.sz - 1 - p)
      ++ (x.alloc.arr.drop p).take 1)).length = x.alloc.arr.length :=
    length_fill _ _ _ (by simp; omega)
  unfold slideOneLeft
  rw [hstop, slideLeftLoop_eq (x.sz - 1) _ p _ (by omega) hs (by omega)]
  simp only [inBlock, bind, Except.bind]
  rw [PopBack_eq _ (by show 1 ≤ x.sz; omega) (by show x.sz ≤ _; rw [hlen]; omega)]

theorem Erase_eq (x : Vector T) (p : Nat)
    (hblk : x.alloc.arr.length = x.alloc.cap) (hle : x.sz ≤ x.alloc.cap) (hp : p < x.sz)
    (hint : p < 2147483648) :
    Erase p x = Except.ok (p,
      { alloc :=
          { arr := (fill x.alloc.arr p ((x.alloc.arr.drop (p + 1)).take (x.sz - 1 - p)
              ++ (x.alloc.arr.drop p).take 1)).set (x.sz - 1) none,
            cap := x.alloc.cap },
        sz := x.sz - 1 }) := by
  unfold Erase
  rw [toInt_of_lt p hint]
  simp only [slideOneLeft_eq x p hblk hle hp, slotOf_natCast, inBlock, bind, Except.bind, pure,
    Except.pure]

/-- At a position whose offset fits `int`, `Erase` returns the iterator at
offset `p`, the size drops by one, the element at `p` is removed with the
order of the others kept, and the capacity is unchanged. -/
theorem Erase_ok (x : Vector T) (p : Nat)
    (hblk : x.alloc.arr.length = x.alloc.cap) (hle : x.sz ≤ x.alloc.cap) (hp : p < x.sz)
    (hint : p < 2147483648) :
    ∃ y, Erase p x = Except.ok (p, y) ∧ y.sz = x.sz - 1 ∧ y.elems = x.elems.eraseIdx p ∧
      y.alloc.arr.length = y.alloc.cap ∧ y.alloc.cap = x.alloc.cap := by
  have hs : x.sz - 1 < x.alloc.arr.length := by omega
  have hlen : (fill x.alloc.arr p ((x.alloc.arr.drop (p + 1)).take (x.sz - 1 - p)
      ++ (x.alloc.arr.drop p).take 1)).length = x.alloc.arr.length :=
    length_fill _ _ _ (by simp; omega)
  refine ⟨_, Erase_eq x p hblk hle hp hint, rfl, ?_, ?_, rfl⟩
  · simp only [Vector.elems]
    apply List.ext_getElem?
    intro j
    rw [List.getElem?_eraseIdx, List.getElem?_take, List.getElem?_take, List.getElem?_take,
      List.getElem?_set, getElem?_rot _ p (x.sz - 1) (by omega) hs]
    split_ifs <;> first | rfl | (exfalso; omega)
  · simp only [List.length_set, hlen, hblk]

/-! ## Erase beyond the range of int, and the round trip -/

theorem slotOf_neg (ind : Int) (h : ind < 0) : slotOf ind = none := by
  have h0 : ¬ (0 : Int) ≤ ind := by omega
  rw [slotOf, if_neg h0]

theorem slideOneLeft_neg (x : Vector T) (pos : Int) (hpos : pos < 0) :
    slideOneLeft pos x = Except.error Fault.undefined := by
  unfold slideOneLeft
  by_cases h : pos = (x.sz : Int) - 1
  · have h0 : (x.sz : Int) - 1 < 0 := by omega
    have hloop : slideLeftLoop ((x.sz : Int) - 1) x.alloc.arr.length pos x.alloc.arr
        = some x.alloc.arr := by
      cases x.alloc.arr.length <;> simp [slideLeftLoop, h]
    simp only [hloop, PopBack, slotOf_neg _ h0, inBlock, bind, Except.bind]
  · have hloop : slideLeftLoop ((x.sz : Int) - 1) x.alloc.arr.length pos x.alloc.arr = none := by
      cases x.alloc.arr.length <;> simp [slideLeftLoop, h, slotOf_neg _ hpos]
    simp only [hloop, inBlock, bind, Except.bind]

theorem Erase_neg (x : Vector T) (p : Nat) (hneg : toInt (p : Int) < 0) :
    Erase p x = Except.error Fault.undefined := by
  unfold Erase
  simp only [slideOneLeft_neg x _ hneg, bind, Except.bind]

/-- C5 at a failing input: on a vector of `2 ^ 31 + 1` elements,
`Erase(begin() + 2 ^ 31)` narrows the offset of a valid position to the
`int` `-2 ^ 31` and the first exchange is outside the block. -/
theorem Erase_big_undefined :
    2147483648 < big.sz ∧ big.sz ≤ big.alloc.cap ∧
    Erase 2147483648 big = Except.error Fault.undefined :=
  ⟨by show (2147483648 : Nat) < 2147483649; omega,
    by show (2147483649 : Nat) ≤ 2147483650; omega,
    Erase_neg big 2147483648 (by rw [toInt_two_pow_31]; omega)⟩

/-- At a position whose offset fits `int`, `Insert` followed by `Erase` at
the returned iterator restores the size and the element sequence. -/
theorem insertErase_ok (mem : Nat → Bool) (hmem : ∀ n, mem n = true) (x : Vector T) (p : Nat)
    (v : T) (hblk : x.alloc.arr.length = x.alloc.cap) (hle : x.sz ≤ x.alloc.cap)
    (hp : p ≤ x.sz) (hint : p < 2147483648) :
    ∃ y, insertErase mem p v x = Except.ok (p, y) ∧ y.sz = x.sz ∧ y.elems = x.elems := by
  obtain ⟨w, h1, h2, h3, h4, h5⟩ := Insert_ok mem hmem x p v hblk hle hp hint
  obtain ⟨y, g1, g2, g3, _, _⟩ := Erase_ok w p h4 (by omega) (by omega) hint
  refine ⟨y, ?_, by omega, ?_⟩
  · simp only [insertErase, h1, bind, Except.bind]
    exact g1
  · have hl : (x.elems.take p).length = p := by
      rw [List.length_take, elems_length x hblk hle]; omega
    rw [g3, h3, List.eraseIdx_append_of_length_le (by omega), hl, Nat.sub_self]
    simp

theorem insertErase_error (mem : Nat → Bool) (p : Nat) (v : T) (x : Vector T)
    (e : Fault (Vector T)) (h : Insert mem p v x = Except.error e) :
    insertErase mem p v x = Except.error e := by
  simp only [insertErase, h, bind, Except.bind]

/-- C6 at a failing input: on a vector of `2 ^ 31 + 1` elements the round
trip through `Insert(begin() + 2 ^ 31, 7)` does not return. -/
theorem insertErase_big_undefined :
    2147483648 ≤ big.sz ∧ big.sz ≤ big.alloc.cap ∧
    insertErase grantAll 2147483648 7 big = Except.error Fault.undefined :=
  ⟨by show (2147483648 : Nat) ≤ 2147483649; omega,
    by show (2147483649 : Nat) ≤ 2147483650; omega,
    insertErase_error grantAll 2147483648 7 big Fault.undefined
      (Insert_neg grantAll big 2147483648 7 (by show (2147483649 : Nat) < 2147483650; omega)
        (by rw [toInt_two_pow_31]; omega))⟩

/-! ## Reserve and Resize -/

/-- For a request whose byte count does not wrap (`ReserveBytes_eq`):
`Reserve(n)` returns (for `n > capacity`, when the memory source grants
`n` slots); the size and the element sequence are unchanged, the
capacity is unchanged for `n <= capacity` and exactly `n` otherwise, hence
at least `n` afterwards. -/
theorem Reserve_spec (mem : Nat → Bool) (n : Nat) (x : Vector T)
    (hblk : x.alloc.arr.length = x.alloc.cap) (hle : x.sz ≤ x.alloc.cap)
    (hmem : x.Capacity < n → mem n = true) :
    ∃ w, Reserve mem n x = Except.ok w ∧ w.Size = x.Size ∧ w.elems = x.elems ∧
      (∀ i, i < x.Size → w.alloc.arr[i]? = x.alloc.arr[i]?) ∧
      (n ≤ x.Capacity → w.Capacity = x.Capacity) ∧
      (x.Capacity < n → w.Capacity = n) ∧ n ≤ w.Capacity := by
  obtain ⟨w, h1, h2, h3, _, h5⟩ := Reserve_ok mem n x hblk hle hmem
  refine ⟨w, h1, h2, h3, ?_, ?_, ?_, ?_⟩
  · intro i hi
    have h := congrArg (fun l => l[i]?) h3
    simp only [Vector.elems, Vector.Size] at h hi
    rwa [h2, List.getElem?_take_of_lt hi, List.getElem?_take_of_lt hi] at h
  · intro h; simp only [Vector.Capacity] at *; omega
  · intro h; simp only [Vector.Capacity] at *; omega
  · simp only [Vector.Capacity]; omega

theorem Reserve_spec_witness :
    demo.alloc.arr.length = demo.alloc.cap ∧ demo.sz ≤ demo.alloc.cap ∧ grantAll 8 = true ∧
    ∃ w, Reserve grantAll 8 demo = Except.ok w ∧ w.Size = demo.Size ∧ w.elems = demo.elems :=
  ⟨rfl, by decide, rfl,
    (Reserve_spec grantAll 8 demo rfl (by decide) (fun _ => rfl)).imp
      fun _ h => ⟨h.1, h.2.1, h.2.2.1⟩⟩

theorem take_fill_left (b : Block T) (d : Nat) (vals : Block T) (h : d ≤ b.length) :
    (fill b d vals).take d = b.take d := by
  unfold fill
  rw [List.append_assoc, List.take_left' (by simp; omega)]

theorem take_fill_of_eq (b : Block T) (d m : Nat) (vals : Block T)
    (h : d + vals.length ≤ b.length) (hm : m = d + vals.length) :
    (fill b d vals).take m = b.take d ++ vals := by
  subst hm
  exact take_fill_all b d vals h

/-- For a request whose byte count does not wrap (`ResizeBytes_eq`):
`Resize(n)` returns (for `n > capacity`, when the memory source grants `n`
slots); the size is `n`, the elements are the first `n` old ones when
shrinking and the old ones followed by `n - size` default values when growing, and the
capacity is `max(capacity, n)`. -/
theorem Resize_spec [Inhabited T] (mem : Nat → Bool) (n : Nat) (x : Vector T)
    (hblk : x.alloc.arr.length = x.alloc.cap) (hle : x.sz ≤ x.alloc.cap)
    (hmem : x.Capacity < n → mem n = true) :
    ∃ y, Resize mem n x = Except.ok y ∧ y.Size = n ∧
      (n ≤ x.Size → y.elems = x.elems.take n) ∧
      (x.Size < n → y.elems = x.elems ++ List.replicate (n - x.Size) (some default)) ∧
      y.Capacity = max x.Capacity n := by
  obtain ⟨w, h1, h2, h3, h4, h5⟩ := Reserve_ok mem n x hblk hle hmem
  have hn : n ≤ w.alloc.arr.length := by omega
  simp only [Vector.Size, Vector.Capacity]
  rcases Nat.lt_trichotomy n w.sz with hlt | heq | hgt
  · have hd := destroy_n_eq (w.sz - n) w.alloc.arr n (by omega)
    refine ⟨{ alloc := { arr := fill w.alloc.arr n (List.replicate (w.sz - n) none),
                         cap := w.alloc.cap }, sz := n }, ?_, rfl, ?_, ?_, h5⟩
    · simp only [Resize, h1, if_pos hlt, hd, inBlock, bind, Except.bind, pure, Except.pure]
    · intro _
      rw [← h3]
      simp only [Vector.elems]
      rw [take_fill_left _ _ _ hn, List.take_take, Nat.min_eq_left (by omega)]
    · intro h; omega
  · refine ⟨{ w with sz := n }, ?_, rfl, ?_, ?_, h5⟩
    · simp only [Resize, h1, if_neg (show ¬ n < w.sz by omega),
        if_neg (show ¬ n > w.sz by omega), bind, Except.bind, pure, Except.pure]
    · intro _
      rw [← h3]
      simp only [Vector.elems]
      rw [List.take_take, heq, Nat.min_self]
    · intro h; omega
  · have hc := value_construct_n_eq (n - w.sz) w.alloc.arr w.sz (by omega)
    refine ⟨{ alloc := { arr := fill w.alloc.arr w.sz (List.replicate (n - w.sz) (some default)),
                         cap := w.alloc.cap }, sz := n }, ?_, rfl, ?_, ?_, h5⟩
    · simp only [Resize, h1, if_neg (show ¬ n < w.sz by omega), if_pos hgt, hc, inBlock, bind,
        Except.bind, pure, Except.pure]
    · intro h; omega
    · intro _
      rw [← h3, ← h2]
      simp only [Vector.elems]
      exact take_fill_of_eq _ _ _ _ (by simp; omega) (by simp; omega)

theorem Resize_spec_witness :
    demo.alloc.arr.length = demo.alloc.cap ∧ demo.sz ≤ demo.alloc.cap ∧ grantAll 7 = true ∧
    ∃ y, Resize grantAll 7 demo = Except.ok y ∧ y.Size = 7 ∧ y.Capacity = max demo.Capacity 7 :=
  ⟨rfl, by decide, rfl,
    (Resize_spec grantAll 7 demo rfl (by decide) (fun _ => rfl)).imp
      fun _ h => ⟨h.1, h.2.1, h.2.2.2.2⟩⟩

/-! ## EmplaceBack on a full vector -/

/-- C3 at a failing input: on the full vector `[1, 2]` (size = capacity =
2) `EmplaceBack(7)` reserves `sz + 1 = 3` slots, where the doubling rule
`max(1, 2 * size)` that `PushBack` follows gives 4. -/
theorem EmplaceBack_full_not_doubled :
    full2.sz = full2.alloc.cap ∧
    EmplaceBack grantAll 7 full2 = Except.ok
      (2, { alloc := { arr := [some 1, some 2, some 7], cap := 3 }, sz := 3 }) ∧
    PushBack grantAll 7 full2 = Except.ok
      { alloc := { arr := [some 1, some 2, some 7, none], cap := 4 }, sz := 3 } ∧
    max 1 (2 * full2.sz) = 4 :=
  ⟨rfl, rfl, rfl, rfl⟩

/-! ## Copy construction and copy assignment -/

theorem copy_eq (mem : Nat → Bool) (s : Vector T) (hs : s.sz ≤ s.alloc.arr.length)
    (hmem : mem s.sz = true) :
    copy mem s = Except.ok { alloc := { arr := s.alloc.arr.take s.sz, cap := s.sz }, sz := s.sz } := by
  have h1 : uninitialized_copy_n s.alloc.arr 0 s.sz (List.replicate s.sz none) 0
      = some (s.alloc.arr.take s.sz) := by
    rw [copy_n_eq _ _ _ _ _ (by omega) (by simp)]
    simp [fill]
    omega
  simp only [copy, MyAllocator.sized, Allocate, hmem, if_true, Option.map_some', h1, inBlock,
    bind, Except.bind, pure, Except.pure]

theorem assignLoop_eq (src : Block T) (m : Nat) (hsrc : m ≤ src.length)
    (hint : m < 2147483648) :
    ∀ (fuel i : Nat) (b : Block T), m ≤ b.length → i ≤ m → m - i ≤ fuel →
    assignLoop src m fuel i b = some (fill b i ((src.drop i).take (m - i))) := by
  intro fuel
  induction fuel with
  | zero =>
    intro i b _ hi hf
    have h : i = m := by omega
    subst h
    simp [assignLoop, fill_nil]
  | succ f ih =>
    intro i b hb hi hf
    by_cases h : i < m
    · have hfi : i < src.length := by omega
      have hbi : i < b.length := by omega
      have hmax : ¬ (i : Int) = INT_MAX := by
        unfold INT_MAX
        omega
      have hx : (src.drop i).take (m - i) = src[i] :: (src.drop (i + 1)).take (m - (i + 1)) := by
        obtain ⟨k, hk⟩ : ∃ k, m - i = k + 1 := ⟨m - i - 1, by omega⟩
        have hk2 : m - (i + 1) = k := by omega
        rw [hk, hk2, List.drop_eq_getElem_cons hfi, List.take_succ_cons]
      rw [assignLoop, if_pos h, List.getElem?_eq_getElem hfi, Option.some_bind,
        store_of_lt _ hbi, Option.some_bind, if_neg hmax,
        ih (i + 1) _ (by simpa using hb) (by omega) (by omega), fill_set _ _ _ _ hbi, hx]
    · have h2 : i = m := by omega
      subst h2
      simp [assignLoop, fill_nil]

/-- With `2 ^ 31` or more rounds the prefix loop of copy assignment
increments `i` at `INT_MAX`. -/
theorem assignLoop_overflow (src : Block T) (m : Nat) (hm : 2147483648 ≤ m) :
    ∀ (fuel i : Nat) (b : Block T), i ≤ 2147483647 → assignLoop src m fuel i b = none := by
  intro fuel
  induction fuel with
  | zero =>
    intro i b hi
    rw [assignLoop, if_pos (by omega)]
  | succ f ih =>
    intro i b hi
    rw [assignLoop, if_pos (by omega)]
    by_cases h : (i : Int) = INT_MAX
    · simp [h]
    · have h2 : i + 1 ≤ 2147483647 := by
        unfold INT_MAX at h
        omega
      simp [h, ih _ _ h2]


theorem copyAssign_realloc (mem : Nat → Bool) (d s : Vector T)
    (hd : d.sz ≤ d.alloc.arr.length) (hs : s.sz ≤ s.alloc.arr.length)
    (hgt : d.alloc.cap < s.sz) (hmem : mem s.sz = true) :
    copyAssign mem false d s = Except.ok
      ({ alloc := { arr := s.alloc.arr.take s.sz, cap := s.sz }, sz := s.sz }, s) := by
  have hdes : destroy_n d.alloc.arr 0 d.sz = some (fill d.alloc.arr 0 (List.replicate d.sz none)) :=
    destroy_n_eq _ _ _ (by omega)
  simp only [copyAssign, Bool.false_eq_true, if_false, gt_iff_lt, if_pos hgt,
    copy_eq mem s hs hmem, Vector.Swap, MyAllocator.Swap, destruct, hdes, Option.map_some',
    inBlock, bind, Except.bind, pure, Except.pure]

theorem copyAssign_inplace (mem : Nat → Bool) (d s : Vector T)
    (hblk : d.alloc.arr.length = d.alloc.cap) (hle : d.sz ≤ d.alloc.cap)
    (hs : s.sz ≤ s.alloc.arr.length) (hfit : s.sz ≤ d.alloc.cap)
    (hint : min s.sz d.sz < 2147483648) :
    ∃ b, copyAssign mem false d s = Except.ok
      ({ alloc := { arr := b, cap := d.alloc.cap }, sz := s.sz }, s) ∧
      b.length = d.alloc.cap ∧ b.take s.sz = s.alloc.arr.take s.sz ∧
      (∀ j, s.sz ≤ j → j < d.sz → b[j]? = some none) ∧
      (∀ j, s.sz ≤ j → d.sz ≤ j → b[j]? = d.alloc.arr[j]?) := by
  have hm1 : min s.sz d.sz ≤ s.alloc.arr.length := by omega
  have hm2 : min s.sz d.sz ≤ d.alloc.arr.length := by omega
  have hl0 : ((s.alloc.arr.drop 0).take (min s.sz d.sz - 0)).length = min s.sz d.sz := by
    simp; omega
  obtain ⟨b0, hloop, hbl, hpt⟩ : ∃ b0 : Block T,
      assignLoop s.alloc.arr (min s.sz d.sz) (min s.sz d.sz) 0 d.alloc.arr = some b0 ∧
      b0.length = d.alloc.arr.length ∧
      ∀ j, b0[j]? = if j < min s.sz d.sz then s.alloc.arr[j]? else d.alloc.arr[j]? := by
    refine ⟨_, assignLoop_eq s.alloc.arr (min s.sz d.sz) hm1 hint (min s.sz d.sz) 0
      d.alloc.arr hm2 (Nat.zero_le _) (by omega), length_fill _ _ _ (by rw [hl0]; omega), ?_⟩
    intro j
    rw [getElem?_fill _ _ _ (by rw [hl0]; omega), hl0]
    simp only [Nat.not_lt_zero, if_false, Nat.zero_add, Nat.sub_zero, List.drop_zero]
    split_ifs with h
    · rw [List.getElem?_take_of_lt h]
    · rfl
  rcases Nat.lt_trichotomy d.sz s.sz with hlt | heq | hgt
  · have hl1 : ((s.alloc.arr.drop d.sz).take (s.sz - d.sz)).length = s.sz - d.sz := by
      simp; omega
    have hcp := copy_n_eq s.alloc.arr (s.sz - d.sz) d.sz b0 d.sz (by omega) (by rw [hbl]; omega)
    refine ⟨fill b0 d.sz ((s.alloc.arr.drop d.sz).take (s.sz - d.sz)), ?_, ?_, ?_,
      fun j h1 h2 => absurd h2 (by omega), ?_⟩
    · simp only [copyAssign, Bool.false_eq_true, if_false, gt_iff_lt,
        if_neg (show ¬ d.alloc.cap < s.sz by omega), hloop, if_pos hlt, hcp, inBlock, bind,
        Except.bind, pure, Except.pure]
    · rw [length_fill _ _ _ (by rw [hl1, hbl]; omega), hbl, hblk]
    · apply List.ext_getElem?
      intro j
      rw [List.getElem?_take, List.getElem?_take,
        getElem?_fill _ _ _ (by rw [hl1, hbl]; omega), hl1, hpt]
      split_ifs <;> first
        | rfl
        | (exfalso; omega)
        | (rw [List.getElem?_take_of_lt (by omega), List.getElem?_drop]; congr 1; omega)
    · intro j h1 h2
      rw [getElem?_fill _ _ _ (by rw [hl1, hbl]; omega), hl1, hpt, if_neg (by omega),
        if_neg (by omega), if_neg (by omega)]
  · refine ⟨b0, ?_, hbl.trans hblk, ?_, fun j h1 h2 => absurd h2 (by omega), ?_⟩
    · simp only [copyAssign, Bool.false_eq_true, if_false, gt_iff_lt,
        if_neg (show ¬ d.alloc.cap < s.sz by omega), hloop,
        if_neg (show ¬ d.sz < s.sz by omega), if_neg (show ¬ s.sz < d.sz by omega), inBlock,
        bind, Except.bind, pure, Except.pure]
    · apply List.ext_getElem?
      intro j
      rw [List.getElem?_take, List.getElem?_take, hpt]
      split_ifs <;> first | rfl | (exfalso; omega)
    · intro j h1 h2
      rw [hpt, if_neg (by omega)]
  · have hds := destroy_n_eq (d.sz - s.sz) b0 s.sz (by rw [hbl]; omega)
    have hfitr : s.sz + (List.replicate (d.sz - s.sz) (none : Option T)).length ≤ b0.length := by
      rw [List.length_replicate, hbl]; omega
    refine ⟨fill b0 s.sz (List.replicate (d.sz - s.sz) none), ?_, ?_, ?_, ?_, ?_⟩
    · simp only [copyAssign, Bool.false_eq_true, if_false, gt_iff_lt,
        if_neg (show ¬ d.alloc.cap < s.sz by omega), hloop,
        if_neg (show ¬ d.sz < s.sz by omega), if_pos hgt, hds, inBlock, bind, Except.bind,
        pure, Except.pure]
    · rw [length_fill _ _ _ (by rw [List.length_replicate, hbl]; omega), hbl, hblk]
    · rw [take_fill_left _ _ _ (by rw [hbl]; omega)]
      apply List.ext_getElem?
      intro j
      rw [List.getElem?_take, List.getElem?_take, hpt]
      split_ifs <;> first | rfl | (exfalso; omega)
    · intro j h1 h2
      rw [getElem?_fill _ _ _ hfitr, List.length_replicate, if_neg (by omega),
        if_pos (by omega), List.getElem?_replicate, if_pos (by omega)]
    · intro j h1 h2
      rw [getElem?_fill _ _ _ hfitr, List.length_replicate, if_neg (by omega),
        if_neg (by omega), hpt, if_neg (by omega)]


/-- Copy assignment between distinct objects, when the in-place loop stays
within `int`: the destination gets the size and elements of the source,
the source is unchanged, and the capacity is the source's size after a
reallocation and unchanged otherwise. -/
theorem copyAssign_ok (mem : Nat → Bool) (hmem : ∀ n, mem n = true) (d s : Vector T)
    (hblk : d.alloc.arr.length = d.alloc.cap) (hle : d.sz ≤ d.alloc.cap)
    (hs : s.sz ≤ s.alloc.arr.length)
    (hint : s.sz ≤ d.alloc.cap → min s.sz d.sz < 2147483648) :
    ∃ y, copyAssign mem false d s = Except.ok (y, s) ∧ y.sz = s.sz ∧ y.elems = s.elems ∧
      s.sz ≤ y.alloc.cap ∧ (d.alloc.cap < s.sz → y.alloc.cap = s.sz) ∧
      (s.sz ≤ d.alloc.cap → y.alloc.cap = d.alloc.cap) := by
  by_cases h : d.alloc.cap < s.sz
  · refine ⟨_, copyAssign_realloc mem d s (by omega) hs h (hmem _), rfl, ?_, Nat.le_refl _,
      fun _ => rfl, fun h2 => absurd h2 (by omega)⟩
    simp only [Vector.elems]
    rw [List.take_take, Nat.min_self]
  · obtain ⟨b, h1, h2, h3, _, _⟩ :=
      copyAssign_inplace mem d s hblk hle hs (by omega) (hint (by omega))
    exact ⟨_, h1, rfl, h3, by show s.sz ≤ d.alloc.cap; omega, fun h2 => absurd h2 h,
      fun _ => rfl⟩

theorem copyAssign_overflow (mem : Nat → Bool) (d s : Vector T) (hfit : s.sz ≤ d.alloc.cap)
    (hbig : 2147483648 ≤ min s.sz d.sz) :
    copyAssign mem false d s = Except.error Fault.undefined := by
  simp only [copyAssign, Bool.false_eq_true, if_false, gt_iff_lt,
    if_neg (show ¬ d.alloc.cap < s.sz by omega),
    assignLoop_overflow s.alloc.arr _ hbig _ 0 d.alloc.arr (by omega), inBlock, bind,
    Except.bind]

/-- C9 at a failing input: with destination and source both holding
`2 ^ 31 + 1` elements and the source fitting the destination's capacity,
the in-place loop `for (int i = 0; i < min; ++i)` increments `i` at
`INT_MAX`, a signed overflow. -/
theorem copyAssign_big_undefined :
    big.sz ≤ big.alloc.cap ∧
    copyAssign grantAll false big big = Except.error Fault.undefined :=
  ⟨by show (2147483649 : Nat) ≤ 2147483650; omega,
    copyAssign_overflow grantAll big big (by show (2147483649 : Nat) ≤ 2147483650; omega)
      (by show (2147483648 : Nat) ≤ min 2147483649 2147483649; omega)⟩

/-! ## The copy constructor on addressed storage -/

theorem blockAt_mutate_other (h : Heap T) (o : Obj) (v : Vector T) (fresh : Bool)
    (p : Option Nat) (hp : ∀ a, p = some a → a < h.length) (hne : p ≠ o.arr) :
    blockAt (mutate h o v fresh).1 p = blockAt h p := by
  cases p with
  | none => rfl
  | some a =>
    have ha : a < h.length := hp a rfl
    cases fresh <;> cases ho : o.arr with
    | none => simp [mutate, ho, blockAt, List.getElem?_append_left ha]
    | some a2 =>
      have hne2 : a2 ≠ a := by
        intro h2
        apply hne
        rw [ho, h2]
      simp [mutate, ho, blockAt, List.getElem?_append_left ha, List.getElem?_set_ne hne2]

/-- C10: the copy constructor returns when the memory source grants
`s.size` slots; the copy has size `s.size`, capacity exactly `s.size` and
the elements of `s`.  On addressed storage the copy lives in a fresh
block: `s` denotes the same vector after the call, and any later
mutation of either object leaves the vector the other denotes unchanged. -/
theorem copy_spec (mem : Nat → Bool) (h : Heap T) (s : Obj)
    (haddr : ∀ a, s.arr = some a → a < h.length)
    (hs : s.sz ≤ (blockAt h s.arr).length) (hmem : mem s.sz = true) :
    ∃ c, copy mem (view h s) = Except.ok c ∧ c.Size = (view h s).Size ∧
      c.Capacity = (view h s).Size ∧ c.elems = (view h s).elems ∧
      ∃ h1 o, copyAt mem h s = Except.ok (h1, o) ∧ view h1 o = c ∧ view h1 s = view h s ∧
        o.arr ≠ s.arr ∧
        (∀ v fresh, view (mutate h1 o v fresh).1 s = view h s) ∧
        (∀ v fresh, view (mutate h1 s v fresh).1 o = c) := by
  have hc := copy_eq mem (view h s) hs hmem
  have hcp : uninitialized_copy_n (blockAt h s.arr) 0 s.sz (List.replicate s.sz none) 0
      = some ((blockAt h s.arr).take s.sz) := by
    rw [copy_n_eq _ _ _ _ _ (by omega) (by simp)]
    simp [fill]
    omega
  have hat : copyAt mem h s = Except.ok
      (h ++ [(blockAt h s.arr).take s.sz], { arr := some h.length, cap := s.sz, sz := s.sz }) := by
    simp only [copyAt, MyAllocator.sized, Allocate, hmem, if_true, Option.map_some', hcp,
      inBlock, bind, Except.bind, pure, Except.pure]
  have hsame : ∀ p : Option Nat, (∀ a, p = some a → a < h.length) →
      blockAt (h ++ [(blockAt h s.arr).take s.sz]) p = blockAt h p := by
    intro p hp
    cases p with
    | none => rfl
    | some a => simp [blockAt, List.getElem?_append_left (hp a rfl)]
  have hnew : blockAt (h ++ [(blockAt h s.arr).take s.sz]) (some h.length)
      = (blockAt h s.arr).take s.sz := by
    simp [blockAt]
  have hne : (some h.length : Option Nat) ≠ s.arr := by
    intro h2
    exact Nat.lt_irrefl _ (haddr _ h2.symm)
  refine ⟨_, hc, rfl, rfl, ?_, _, _, hat, ?_, ?_, hne, ?_, ?_⟩
  · simp only [Vector.elems, view]
    rw [List.take_take, Nat.min_self]
  · simp only [view, hnew]
  · simp only [view, hsame _ haddr]
  · intro v fresh
    simp only [view]
    rw [blockAt_mutate_other _ _ v fresh s.arr
      (fun a ha => by rw [List.length_append]; exact Nat.lt_add_right _ (haddr a ha))
      (fun h2 => hne h2.symm), hsame _ haddr]
  · intro v fresh
    simp only [view]
    rw [blockAt_mutate_other _ s v fresh (some h.length)
      (fun a ha => by cases ha; simp) hne, hnew]

theorem copy_spec_witness :
    (∀ a, demoObj.arr = some a → a < demoHeap.length) ∧
    demoObj.sz ≤ (blockAt demoHeap demoObj.arr).length ∧ grantAll demoObj.sz = true ∧
    ∃ c, copy grantAll (view demoHeap demoObj) = Except.ok c ∧ c.Size = 2 ∧ c.Capacity = 2 :=
  have ha : ∀ a, demoObj.arr = some a → a < demoHeap.length := fun a h => by
    cases h; decide
  ⟨ha, by decide, rfl,
    (copy_spec grantAll demoHeap demoObj ha (by decide) rfl).imp
      fun _ h => ⟨h.1, h.2.1, h.2.2.1⟩⟩

/-! ## Move, self assignment, allocation failure, sized construction, PopBack -/

/-- C11: move construction gives the target the size, capacity, block and
element sequence the source had, and leaves the source with size 0,
capacity 0 and no block; that state satisfies the storage invariant and
`PushBack` on it returns (when one slot is granted) with the pushed value
as the only element. -/
theorem move_spec (s : Vector T) :
    (Vector.move s).1.Size = s.Size ∧ (Vector.move s).1.Capacity = s.Capacity ∧
    (Vector.move s).1.alloc.arr = s.alloc.arr ∧ (Vector.move s).1.elems = s.elems ∧
    (Vector.move s).2.Size = 0 ∧ (Vector.move s).2.Capacity = 0 ∧
    (Vector.move s).2.alloc.arr = [] ∧
    (Vector.move s).2.alloc.arr.length = (Vector.move s).2.alloc.cap ∧
    (Vector.move s).2.sz ≤ (Vector.move s).2.alloc.cap ∧
    ∀ (mem : Nat → Bool) (v : T), mem 1 = true →
      PushBack mem v (Vector.move s).2 = Except.ok
        { alloc := { arr := [some v], cap := 1 }, sz := 1 } := by
  refine ⟨rfl, rfl, rfl, rfl, rfl, rfl, rfl, rfl, Nat.le_refl _, ?_⟩
  intro mem v hmem
  have h : PushBack mem v (Vector.move s).2 = PushBack mem v Vector.empty := rfl
  rw [h, PushBack_grow mem Vector.empty v rfl rfl hmem]
  rfl

theorem move_spec_witness :
    grantAll 1 = true ∧
    (Vector.move demo).1 = demo ∧ (Vector.move demo).2.Size = 0 ∧
    PushBack grantAll 9 (Vector.move demo).2 = Except.ok
      { alloc := { arr := [some 9], cap := 1 }, sz := 1 } :=
  ⟨rfl, rfl, (move_spec demo).2.2.2.2.1, (move_spec demo).2.2.2.2.2.2.2.2.2 grantAll 9 rfl⟩

/-- C12: move assignment between distinct objects exchanges the two
states: the target gets the size, capacity, block and elements of the
source, the source gets those of the target, slot for slot. -/
theorem moveAssign_exchange (a b : Vector T) :
    moveAssign false a b = (b, a) ∧
    (moveAssign false a b).1.Size = b.Size ∧ (moveAssign false a b).1.Capacity = b.Capacity ∧
    (moveAssign false a b).1.elems = b.elems ∧
    (moveAssign false a b).1.alloc.arr = b.alloc.arr ∧
    (moveAssign false a b).2.Size = a.Size ∧ (moveAssign false a b).2.Capacity = a.Capacity ∧
    (moveAssign false a b).2.elems = a.elems ∧
    (moveAssign false a b).2.alloc.arr = a.alloc.arr :=
  ⟨rfl, rfl, rfl, rfl, rfl, rfl, rfl, rfl, rfl⟩

/-- C13 refuted at an input: in `demo = std::move(full2)` the target
`demo` holds three elements in five slots before the call; afterwards the
source `full2` has size 3 and capacity 5, not 0 and 0. -/
theorem moveAssign_source_not_empty :
    (moveAssign false demo full2).2.Size = 3 ∧ (moveAssign false demo full2).2.Capacity = 5 ∧
    ¬ ((moveAssign false demo full2).2.Size = 0 ∧
       (moveAssign false demo full2).2.Capacity = 0) :=
  ⟨rfl, rfl, fun h => absurd h.1 (by decide)⟩

/-- C13 as amended: after move assignment between distinct objects the
source has the size and capacity the target had before, so it has size 0
and capacity 0 exactly when the target had. -/
theorem moveAssign_source (a b : Vector T) :
    (moveAssign false a b).2.Size = a.Size ∧ (moveAssign false a b).2.Capacity = a.Capacity ∧
    (((moveAssign false a b).2.Size = 0 ∧ (moveAssign false a b).2.Capacity = 0) ↔
      (a.Size = 0 ∧ a.Capacity = 0)) :=
  ⟨rfl, rfl, Iff.rfl⟩

theorem Reserve_refuse (mem : Nat → Bool) (n : Nat) (x : Vector T) (hn : x.alloc.cap < n)
    (hmem : mem n = false) : Reserve mem n x = Except.error (Fault.bad_alloc x) := by
  simp [Reserve, hn, MyAllocator.sized, Allocate, hmem]

theorem copy_refuse (mem : Nat → Bool) (s : Vector T) (hmem : mem s.sz = false) :
    copy mem s = Except.error (Fault.bad_alloc ()) := by
  simp [copy, MyAllocator.sized, Allocate, hmem]

/-- C14: when the memory source refuses the block an operation asks for,
the operation ends in `bad_alloc` and the state it leaves is the state
before the call, for `Reserve`, `Resize`, `PushBack` (both overloads),
`EmplaceBack`, `Insert` (both overloads), `Emplace` and the reallocating
path of copy assignment. -/
theorem alloc_failure_atomic (mem : Nat → Bool) (x : Vector T) :
    (∀ n, x.Capacity < n → mem n = false →
      Reserve mem n x = Except.error (Fault.bad_alloc x)) ∧
    (∀ [Inhabited T] (n : Nat), x.Capacity < n → mem n = false →
      Resize mem n x = Except.error (Fault.bad_alloc x)) ∧
    (∀ v, x.Size = x.Capacity → mem (if x.Size = 0 then 1 else x.Size * 2) = false →
      PushBack mem v x = Except.error (Fault.bad_alloc x) ∧
      PushBackMove mem v x = Except.error (Fault.bad_alloc x)) ∧
    (∀ v, x.Capacity < x.Size + 1 → mem (x.Size + 1) = false →
      EmplaceBack mem v x = Except.error (Fault.bad_alloc x)) ∧
    (∀ p v, x.Capacity < x.Size + 1 → mem (x.Size + 1) = false →
      Insert mem p v x = Except.error (Fault.bad_alloc x) ∧
      InsertMove mem p v x = Except.error (Fault.bad_alloc x) ∧
      Emplace mem p v x = Except.error (Fault.bad_alloc x)) ∧
    (∀ s : Vector T, x.Capacity < s.Size → mem s.Size = false →
      copyAssign mem false x s = Except.error (Fault.bad_alloc x)) := by
  simp only [Vector.Size, Vector.Capacity]
  refine ⟨?_, ?_, ?_, ?_, ?_, ?_⟩
  · intro n hn hmem
    exact Reserve_refuse mem n x hn hmem
  · intro _ n hn hmem
    simp only [Resize, Reserve_refuse mem n x hn hmem, bind, Except.bind]
  · intro v hf hmem
    have hn : x.alloc.cap < (if x.sz = 0 then 1 else x.sz * 2) := by
      split <;> omega
    have h : PushBack mem v x = Except.error (Fault.bad_alloc x) := by
      simp only [PushBack, if_pos hf, Reserve_refuse mem _ x hn hmem, bind, Except.bind]
    exact ⟨h, h⟩
  · intro v hn hmem
    simp only [EmplaceBack, Reserve_refuse mem _ x hn hmem, bind, Except.bind]
  · intro p v hn hmem
    have h : Insert mem p v x = Except.error (Fault.bad_alloc x) := by
      unfold Vector.Insert
      simp only [slideOneRight, Reserve_refuse mem _ x hn hmem, bind, Except.bind]
    exact ⟨h, h, h⟩
  · intro s hn hmem
    simp only [copyAssign, Bool.false_eq_true, if_false, gt_iff_lt, if_pos hn,
      copy_refuse mem s hmem]

theorem alloc_failure_atomic_witness :
    full2.Capacity < 8 ∧ grantNone 8 = false ∧
    Reserve grantNone 8 full2 = Except.error (Fault.bad_alloc full2) ∧
    Insert grantNone 1 7 full2 = Except.error (Fault.bad_alloc full2) :=
  ⟨by decide, rfl, (alloc_failure_atomic grantNone full2).1 8 (by decide) rfl,
    ((alloc_failure_atomic grantNone full2).2.2.2.2.1 1 7 (by decide) rfl).1⟩

theorem sized_eq [Inhabited T] (mem : Nat → Bool) (n : Nat) (hmem : mem n = true) :
    (Vector.sized mem n : Run Unit (Vector T)) = Except.ok
      { alloc := { arr := List.replicate n (some default), cap := n }, sz := n } := by
  have h := value_construct_n_eq n (List.replicate n (none : Option T)) 0 (by simp)
  have hf : fill (List.replicate n (none : Option T)) 0 (List.replicate n (some default))
      = List.replicate n (some default) := by
    simp [fill]
  rw [hf] at h
  simp only [Vector.sized, MyAllocator.sized, Allocate, hmem, if_true, Option.map_some', h,
    inBlock, bind, Except.bind, pure, Except.pure]

/-- For a request whose byte count does not wrap (`sizedBytes_eq`): the
sized constructor returns when the memory source grants `n` slots, with size `n`, capacity `n` and each of the `n` elements the
default value; the default constructor gives size 0 and capacity 0. -/
theorem sized_spec [Inhabited T] (mem : Nat → Bool) (n : Nat) (hmem : mem n = true) :
    (∃ y : Vector T, Vector.sized mem n = Except.ok y ∧ y.Size = n ∧ y.Capacity = n ∧
      y.elems = List.replicate n (some default) ∧
      ∀ i, i < n → y.alloc.arr[i]? = some (some default)) ∧
    (Vector.empty : Vector T).Size = 0 ∧ (Vector.empty : Vector T).Capacity = 0 := by
  refine ⟨⟨_, sized_eq mem n hmem, rfl, rfl, ?_, ?_⟩, rfl, rfl⟩
  · simp [Vector.elems]
  · intro i hi
    simp [hi]

theorem sized_spec_witness :
    grantAll 3 = true ∧
    (Vector.sized grantAll 3 : Run Unit (Vector Nat)) = Except.ok
      { alloc := { arr := [some 0, some 0, some 0], cap := 3 }, sz := 3 } ∧
    (Vector.empty : Vector Nat).Size = 0 :=
  ⟨rfl, rfl, (sized_spec grantAll 3 rfl).2.1⟩

/-- C17: on a vector with `size > 0`, `PopBack()` returns with size
`size - 1`, the first `size - 1` elements as they were and the capacity
unchanged; the slot `size - 1` is destroyed and every other slot of the
block is untouched. -/
theorem PopBack_spec (x : Vector T) (hblk : x.alloc.arr.length = x.alloc.cap)
    (hle : x.sz ≤ x.alloc.cap) (hpos : 0 < x.sz) :
    ∃ y, PopBack x = Except.ok y ∧ y.Size = x.Size - 1 ∧ y.elems = x.elems.dropLast ∧
      y.elems = x.elems.take (x.Size - 1) ∧ y.Capacity = x.Capacity ∧
      y.alloc.arr[x.Size - 1]? = some none ∧
      ∀ j, j ≠ x.Size - 1 → y.alloc.arr[j]? = x.alloc.arr[j]? := by
  have hlt : x.sz - 1 < x.alloc.arr.length := by omega
  have htake : (x.alloc.arr.set (x.sz - 1) none).take (x.sz - 1) = x.alloc.arr.take (x.sz - 1) := by
    rw [List.set_take, List.set_eq_of_length_le (by simp)]
  refine ⟨_, PopBack_eq x hpos (by omega), rfl, ?_, ?_, rfl, ?_, ?_⟩
  · simp only [Vector.elems]
    rw [htake, List.dropLast_eq_take, List.take_take, List.length_take]
    congr 1
    omega
  · simp only [Vector.elems, Vector.Size]
    rw [htake, List.take_take, Nat.min_eq_left (by omega)]
  · simp only [Vector.Size]
    rw [List.getElem?_set_self hlt]
  · intro j hj
    simp only [Vector.Size] at hj
    rw [List.getElem?_set_ne (Ne.symm hj)]

theorem PopBack_spec_witness :
    demo.alloc.arr.length = demo.alloc.cap ∧ demo.sz ≤ demo.alloc.cap ∧ 0 < demo.sz ∧
    ∃ y, PopBack demo = Except.ok y ∧ y.Size = demo.Size - 1 ∧
      y.elems = demo.elems.dropLast :=
  ⟨rfl, by decide, by decide,
    (PopBack_spec demo rfl (by decide) (by decide)).imp fun _ h => ⟨h.1, h.2.1, h.2.2.1⟩⟩

/-! ## Slot primitives observed: the misuses of Insert -/

theorem DestroyChecked_fst (b : Block T) (i : Nat) :
    (DestroyChecked b i).map Prod.fst = Destroy b i := by
  by_cases h : i < b.length
  · simp [DestroyChecked, Destroy, store, h]
  · simp [DestroyChecked, Destroy, store, h, List.getElem?_eq_none (Nat.le_of_not_lt h)]

theorem ConstructChecked_fst (b : Block T) (i : Nat) (x : Option T) :
    (ConstructChecked b i x).map Prod.fst = store b i x := by
  by_cases h : i < b.length
  · simp [ConstructChecked, store, h]
  · simp [ConstructChecked, store, h, List.getElem?_eq_none (Nat.le_of_not_lt h)]

theorem move_n_checked_fst (src : Block T) (n : Nat) : ∀ (first : Nat) (dst : Block T) (d : Nat),
    (move_n_checked src first n dst d).map Prod.fst = uninitialized_move_n src first n dst d := by
  induction n with
  | zero => intro first dst d; rfl
  | succ n ih =>
    intro first dst d
    simp only [move_n_checked, uninitialized_move_n]
    cases src[first]? with
    | none => rfl
    | some x =>
      simp only [Option.some_bind]
      rw [← ConstructChecked_fst dst d x]
      cases ConstructChecked dst d x with
      | none => rfl
      | some r1 =>
        simp only [Option.some_bind, Option.map_some', Option.map_map]
        rw [← ih (first + 1) r1.1 (d + 1)]
        cases move_n_checked src (first + 1) n r1.1 (d + 1) <;> rfl

theorem destroy_n_checked_fst (n : Nat) : ∀ (b : Block T) (first : Nat),
    (destroy_n_checked b first n).map Prod.fst = destroy_n b first n := by
  induction n with
  | zero => intro b first; rfl
  | succ n ih =>
    intro b first
    simp only [destroy_n_checked, destroy_n]
    rw [← DestroyChecked_fst b first]
    cases DestroyChecked b first with
    | none => rfl
    | some r1 =>
      simp only [Option.some_bind, Option.map_some', Option.map_map]
      rw [← ih r1.1 (first + 1)]
      cases destroy_n_checked r1.1 (first + 1) n <;> rfl

theorem slideRightLoopChecked_fst (pos : Int) : ∀ (it : Nat) (b : Block T),
    (slideRightLoopChecked pos it b).map Prod.fst = slideRightLoop pos it b := by
  intro it
  induction it with
  | zero =>
    intro b
    simp only [slideRightLoopChecked, slideRightLoop]
    split <;> rfl
  | succ k ih =>
    intro b
    simp only [slideRightLoopChecked, slideRightLoop]
    split
    · rfl
    · rw [← move_n_checked_fst b 1 k b (k + 1)]
      cases move_n_checked b k 1 b (k + 1) with
      | none => rfl
      | some r1 =>
        simp only [Option.some_bind, Option.map_some']
        rw [← DestroyChecked_fst r1.1 k]
        cases DestroyChecked r1.1 k with
        | none => rfl
        | some r2 =>
          simp only [Option.some_bind, Option.map_some', Option.map_map]
          rw [← ih r2.1]
          cases slideRightLoopChecked pos k r2.1 <;> rfl

theorem inBlock_map {σ α β : Type} (f : α → β) (o : Option α) :
    (inBlock (o.map f) : Run σ β) = (inBlock o : Run σ α).map f := by
  cases o <;> rfl

theorem ReserveChecked_fst (mem : Nat → Bool) (n : Nat) (v : Vector T) :
    (ReserveChecked mem n v).map Prod.fst = Reserve mem n v := by
  unfold ReserveChecked Reserve
  split
  · cases MyAllocator.sized (T := T) mem n with
    | none => rfl
    | some alloc2 =>
      simp only []
      rw [← move_n_checked_fst, ← destroy_n_checked_fst]
      cases move_n_checked v.alloc.arr 0 v.sz alloc2.arr 0 with
      | none => rfl
      | some r2 =>
        cases destroy_n_checked v.alloc.arr 0 v.sz with
        | none => rfl
        | some r1 => rfl
  · rfl

theorem slideOneRightChecked_fst (mem : Nat → Bool) (pos : Int) (v : Vector T) :
    (slideOneRightChecked mem pos v).map Prod.fst = slideOneRight mem pos v := by
  unfold slideOneRightChecked slideOneRight
  rw [← ReserveChecked_fst]
  cases ReserveChecked mem (v.sz + 1) v with
  | error e => rfl
  | ok r1 =>
    simp only [Except.map, bind, Except.bind]
    rw [← slideRightLoopChecked_fst]
    cases slideRightLoopChecked pos r1.1.sz r1.1.alloc.arr with
    | none => rfl
    | some r2 =>
      cases slotOf pos with
      | none => rfl
      | some i =>
        simp only [Option.map_some', inBlock]
        rw [← DestroyChecked_fst]
        cases DestroyChecked r2.1 i <;> rfl

/-- Dropping the observations of `InsertChecked` gives `Insert`. -/
theorem map_bind {σ α β γ : Type} (x : Run σ α) (f : α → Run σ β) (g : β → γ) :
    Except.map g (x >>= f) = x >>= fun a => Except.map g (f a) := by
  cases x <;> rfl

theorem bind_map {σ α β γ : Type} (x : Run σ α) (h : α → β) (f : β → Run σ γ) :
    (Except.map h x >>= f) = x >>= fun a => f (h a) := by
  cases x <;> rfl

theorem bind_congr_fun {σ α β : Type} (x : Run σ α) (f g : α → Run σ β) (h : ∀ a, f a = g a) :
    (x >>= f) = (x >>= g) := by
  have : f = g := funext h
  rw [this]

theorem InsertChecked_fst (mem : Nat → Bool) (pos : Nat) (elem : T) (v : Vector T) :
    (InsertChecked mem pos elem v).map Prod.fst = Vector.Insert mem pos elem v := by
  unfold InsertChecked Vector.Insert
  generalize toInt (pos : Int) = ind
  show Except.map Prod.fst (slideOneRightChecked mem ind v >>= _) = (slideOneRight mem ind v >>= _)
  rw [← slideOneRightChecked_fst, map_bind, bind_map]
  apply bind_congr_fun
  intro r1
  rw [map_bind]
  apply bind_congr_fun
  intro i
  rw [map_bind]
  show _ = (inBlock (store r1.1.alloc.arr i (some elem)) >>= _)
  rw [← ConstructChecked_fst, inBlock_map, bind_map]
  apply bind_congr_fun
  intro r2
  rfl

/-- C18 at failing inputs: `Insert` destroys a slot that holds no live
element.  On `[1, 2, 3]` with a free slot, `Insert(begin() + 1, 42)`: the
loop vacates slot 1, then `Destroy(arr + pos)` destroys slot 1 a second
time.  `Insert(end(), 42)`: no loop round runs and `Destroy(arr + pos)`
hits slot 3, which was never constructed.  The same on a full vector after
reallocation.  The values end up where they should. -/
theorem Insert_destroys_raw_slot :
    InsertChecked grantAll 1 42 demo3 = Except.ok
      ((1, { alloc := { arr := [some 1, some 42, some 2, some 3], cap := 4 }, sz := 4 }),
        [Misuse.destroy_raw 1]) ∧
    InsertChecked grantAll 3 42 demo3 = Except.ok
      ((3, { alloc := { arr := [some 1, some 2, some 3, some 42], cap := 4 }, sz := 4 }),
        [Misuse.destroy_raw 3]) ∧
    InsertChecked grantAll 0 42 full3 = Except.ok
      ((0, { alloc := { arr := [some 42, some 1, some 2, some 3], cap := 4 }, sz := 4 }),
        [Misuse.destroy_raw 0]) :=
  ⟨rfl, rfl, rfl⟩

/-! ## Invariants: size and capacity, liveness layout -/

theorem grown_SizeInv (n : Nat) (x : Vector T) (hx : SizeInv x) (hn : x.sz ≤ n) :
    SizeInv (grown n x) := by
  obtain ⟨h1, h2⟩ := hx
  refine ⟨?_, hn⟩
  simp only [grown, List.length_append, List.length_take, List.length_replicate]
  omega

theorem grown_Layout (n : Nat) (x : Vector T) (hx : Layout x) (hn : x.sz ≤ n) :
    Layout (grown n x) := by
  obtain ⟨hi, hl, _⟩ := hx
  have hlen : (x.alloc.arr.take x.sz).length = x.sz := by
    rw [List.length_take]; have := hi.1; have := hi.2; omega
  refine ⟨grown_SizeInv n x hi hn, ?_, ?_⟩
  · intro j hj
    have hj2 : j < x.sz := hj
    obtain ⟨a, ha⟩ := hl j hj2
    refine ⟨a, ?_⟩
    show (x.alloc.arr.take x.sz ++ List.replicate (n - x.sz) none)[j]? = _
    rw [List.getElem?_append_left (by omega), List.getElem?_take_of_lt hj2, ha]
  · intro j hj hjn
    have hj2 : x.sz ≤ j := hj
    have hjn2 : j < n := hjn
    show (x.alloc.arr.take x.sz ++ List.replicate (n - x.sz) none)[j]? = _
    rw [List.getElem?_append_right (by omega), hlen, List.getElem?_replicate,
      if_pos (by omega)]

theorem pushed_SizeInv (v : T) (w : Vector T) (hw : SizeInv w) (hfree : w.sz < w.alloc.cap) :
    SizeInv (pushed v w) := by
  obtain ⟨h1, _⟩ := hw
  refine ⟨?_, hfree⟩
  simp only [pushed, List.length_set]
  exact h1

theorem pushed_Layout (v : T) (w : Vector T) (hw : Layout w) (hfree : w.sz < w.alloc.cap) :
    Layout (pushed v w) := by
  obtain ⟨hi, hl, hr⟩ := hw
  have hlt : w.sz < w.alloc.arr.length := by rw [hi.1]; exact hfree
  refine ⟨pushed_SizeInv v w hi hfree, ?_, ?_⟩
  · intro j hj
    have hj2 : j < w.sz + 1 := hj
    show ∃ a, (w.alloc.arr.set w.sz (some v))[j]? = some (some a)
    by_cases h : j = w.sz
    · subst h
      exact ⟨v, List.getElem?_set_self hlt⟩
    · rw [List.getElem?_set_ne (Ne.symm h)]
      exact hl j (by omega)
  · intro j hj hjn
    have hj2 : w.sz + 1 ≤ j := hj
    have hjn2 : j < w.alloc.cap := hjn
    show (w.alloc.arr.set w.sz (some v))[j]? = some none
    rw [List.getElem?_set_ne (by omega)]
    exact hr j (by omega) hjn2

theorem popped_SizeInv (x : Vector T) (hx : SizeInv x) : SizeInv (popped x) := by
  obtain ⟨h1, h2⟩ := hx
  refine ⟨?_, ?_⟩
  · simp only [popped, List.length_set]
    exact h1
  · show x.sz - 1 ≤ x.alloc.cap
    omega

theorem popped_Layout (x : Vector T) (hx : Layout x) (hpos : 0 < x.sz) : Layout (popped x) := by
  obtain ⟨hi, hl, hr⟩ := hx
  have hlt : x.sz - 1 < x.alloc.arr.length := by have := hi.1; have := hi.2; omega
  refine ⟨popped_SizeInv x hi, ?_, ?_⟩
  · intro j hj
    have hj2 : j < x.sz - 1 := hj
    show ∃ a, (x.alloc.arr.set (x.sz - 1) none)[j]? = some (some a)
    rw [List.getElem?_set_ne (by omega)]
    exact hl j (by omega)
  · intro j hj hjn
    have hj2 : x.sz - 1 ≤ j := hj
    have hjn2 : j < x.alloc.cap := hjn
    show (x.alloc.arr.set (x.sz - 1) none)[j]? = some none
    by_cases h : j = x.sz - 1
    · subst h
      exact List.getElem?_set_self hlt
    · rw [List.getElem?_set_ne (Ne.symm h)]
      exact hr j (by omega) hjn2


theorem Layout_SizeInv (x : Vector T) (h : Layout x) : SizeInv x := h.1

theorem Keeps_mono {α : Type} (P Q : Vector T → Prop) (st : α → Vector T)
    (r : Run (Vector T) α) (h : ∀ s, P s → Q s) (hk : Keeps P st r) : Keeps Q st r := by
  cases r with
  | ok a => exact h _ hk
  | error e =>
    cases e with
    | bad_alloc s => exact h _ hk
    | undefined => trivial

theorem Reserve_cases (mem : Nat → Bool) (n : Nat) (x : Vector T) (hx : SizeInv x) :
    Reserve mem n x = Except.error (Fault.bad_alloc x) ∨
    (Reserve mem n x = Except.ok x ∧ n ≤ x.alloc.cap) ∨
    (Reserve mem n x = Except.ok (grown n x) ∧ x.alloc.cap < n) := by
  by_cases hn : x.alloc.cap < n
  · cases hm : mem n with
    | false => exact Or.inl (Reserve_refuse mem n x hn hm)
    | true => exact Or.inr (Or.inr ⟨Reserve_grow mem n x hx.1 hx.2 hn hm, hn⟩)
  · exact Or.inr (Or.inl ⟨Reserve_keep mem n x (by omega), by omega⟩)

theorem Reserve_keeps (mem : Nat → Bool) (n : Nat) (x : Vector T) (hx : SizeInv x) :
    Keeps (fun y => SizeInv y ∧ (Layout x → Layout y)) id (Reserve mem n x) := by
  rcases Reserve_cases mem n x hx with h | ⟨h, _⟩ | ⟨h, hn⟩
  · rw [h]; exact ⟨hx, id⟩
  · rw [h]; exact ⟨hx, id⟩
  · rw [h]
    have hsz : x.sz ≤ n := by have := hx.2; omega
    exact ⟨grown_SizeInv n x hx hsz, fun hl => grown_Layout n x hl hsz⟩

theorem PushBack_refuse (mem : Nat → Bool) (v : T) (x : Vector T) (hf : x.sz = x.alloc.cap)
    (hmem : mem (if x.sz = 0 then 1 else x.sz * 2) = false) :
    PushBack mem v x = Except.error (Fault.bad_alloc x) := by
  have hn : x.alloc.cap < (if x.sz = 0 then 1 else x.sz * 2) := by
    split <;> omega
  simp only [PushBack, if_pos hf, Reserve_refuse mem _ x hn hmem, bind, Except.bind]

theorem PushBack_keeps (mem : Nat → Bool) (v : T) (x : Vector T) (hx : SizeInv x) :
    Keeps (fun y => SizeInv y ∧ (Layout x → Layout y)) id (PushBack mem v x) := by
  by_cases hf : x.sz = x.alloc.cap
  · cases hm : mem (if x.sz = 0 then 1 else x.sz * 2) with
    | false =>
      rw [PushBack_refuse mem v x hf hm]
      exact ⟨hx, id⟩
    | true =>
      have hn : x.sz < (if x.sz = 0 then 1 else x.sz * 2) := by
        split <;> omega
      have h : PushBack mem v x
          = Except.ok (pushed v (grown (if x.sz = 0 then 1 else x.sz * 2) x)) :=
        PushBack_grow mem x v hx.1 hf hm
      rw [h]
      exact ⟨pushed_SizeInv v _ (grown_SizeInv _ x hx (by omega)) hn,
        fun hl => pushed_Layout v _ (grown_Layout _ x hl (by omega)) hn⟩
  · have hlt : x.sz < x.alloc.cap := by have := hx.2; omega
    have h : PushBack mem v x = Except.ok (pushed v x) := PushBack_keep mem x v hx.1 hlt
    rw [h]
    exact ⟨pushed_SizeInv v x hx hlt, fun hl => pushed_Layout v x hl hlt⟩

theorem EmplaceBack_refuse (mem : Nat → Bool) (v : T) (x : Vector T)
    (hn : x.alloc.cap < x.sz + 1) (hmem : mem (x.sz + 1) = false) :
    EmplaceBack mem v x = Except.error (Fault.bad_alloc x) := by
  simp only [EmplaceBack, Reserve_refuse mem _ x hn hmem, bind, Except.bind]

theorem EmplaceBack_keeps (mem : Nat → Bool) (v : T) (x : Vector T) (hx : SizeInv x) :
    Keeps (fun y => SizeInv y ∧ (Layout x → Layout y)) Prod.snd (EmplaceBack mem v x) := by
  by_cases hf : x.sz = x.alloc.cap
  · cases hm : mem (x.sz + 1) with
    | false =>
      rw [EmplaceBack_refuse mem v x (by omega) hm]
      exact ⟨hx, id⟩
    | true =>
      have h : EmplaceBack mem v x = Except.ok (x.sz, pushed v (grown (x.sz + 1) x)) :=
        EmplaceBack_grow mem x v hx.1 hf hm
      rw [h]
      exact ⟨pushed_SizeInv v _ (grown_SizeInv _ x hx (by omega)) (Nat.lt_succ_self _),
        fun hl => pushed_Layout v _ (grown_Layout _ x hl (by omega)) (Nat.lt_succ_self _)⟩
  · have hlt : x.sz < x.alloc.cap := by have := hx.2; omega
    have h : EmplaceBack mem v x = Except.ok (x.sz, pushed v x) :=
      EmplaceBack_keep mem x v hx.1 hlt
    rw [h]
    exact ⟨pushed_SizeInv v x hx hlt, fun hl => pushed_Layout v x hl hlt⟩

theorem PopBack_empty (x : Vector T) (h : x.sz = 0) :
    PopBack x = Except.error Fault.undefined := by
  have hneg : (x.sz : Int) - 1 < 0 := by omega
  simp only [PopBack, slotOf_neg _ hneg, inBlock, bind, Except.bind]

theorem PopBack_keeps (x : Vector T) (hx : SizeInv x) :
    Keeps (fun y => SizeInv y ∧ (Layout x → Layout y)) id (PopBack x) := by
  by_cases h0 : x.sz = 0
  · rw [PopBack_empty x h0]
    trivial
  · have hpos : 0 < x.sz := Nat.pos_of_ne_zero h0
    have h : PopBack x = Except.ok (popped x) :=
      PopBack_eq x hpos (by have := hx.1; have := hx.2; omega)
    rw [h]
    exact ⟨popped_SizeInv x hx, fun hl => popped_Layout x hl hpos⟩



theorem Resize_of_Reserve [Inhabited T] (mem : Nat → Bool) (n : Nat) (x w : Vector T)
    (h1 : Reserve mem n x = Except.ok w) (hw : SizeInv w) (hn : n ≤ w.alloc.cap) :
    Resize mem n x = Except.ok (resized n w) := by
  obtain ⟨hb, hs⟩ := hw
  rcases Nat.lt_trichotomy n w.sz with hlt | heq | hgt
  · have hd := destroy_n_eq (w.sz - n) w.alloc.arr n (by omega)
    simp only [Resize, h1, resized, if_pos hlt, hd, inBlock, bind, Except.bind, pure,
      Except.pure]
  · simp only [Resize, h1, resized, if_neg (show ¬ n < w.sz by omega),
      if_neg (show ¬ n > w.sz by omega), bind, Except.bind, pure, Except.pure]
  · have hc := value_construct_n_eq (n - w.sz) w.alloc.arr w.sz (by omega)
    simp only [Resize, h1, resized, if_neg (show ¬ n < w.sz by omega), if_pos hgt, hc, inBlock,
      bind, Except.bind, pure, Except.pure]

theorem resized_SizeInv [Inhabited T] (n : Nat) (w : Vector T) (hw : SizeInv w)
    (hn : n ≤ w.alloc.cap) : SizeInv (resized n w) := by
  obtain ⟨hb, hs⟩ := hw
  unfold resized
  split
  · refine ⟨?_, hn⟩
    show (fill w.alloc.arr n (List.replicate (w.sz - n) none)).length = w.alloc.cap
    rw [length_fill _ _ _ (by rw [List.length_replicate]; omega), hb]
  · split
    · refine ⟨?_, hn⟩
      show (fill w.alloc.arr w.sz (List.replicate (n - w.sz) (some default))).length
        = w.alloc.cap
      rw [length_fill _ _ _ (by rw [List.length_replicate]; omega), hb]
    · exact ⟨hb, hn⟩

theorem resized_Layout [Inhabited T] (n : Nat) (w : Vector T) (hw : Layout w)
    (hn : n ≤ w.alloc.cap) : Layout (resized n w) := by
  have hsi := resized_SizeInv n w hw.1 hn
  obtain ⟨⟨hb, hs⟩, hl, hr⟩ := hw
  refine ⟨hsi, ?_⟩
  unfold resized
  split
  · rename_i hlt
    have hfit : n + (List.replicate (w.sz - n) (none : Option T)).length ≤ w.alloc.arr.length := by
      rw [List.length_replicate]; omega
    refine ⟨?_, ?_⟩
    · intro j hj
      have hj2 : j < n := hj
      show ∃ a, (fill w.alloc.arr n (List.replicate (w.sz - n) none))[j]? = some (some a)
      rw [getElem?_fill _ _ _ hfit, if_pos hj2]
      exact hl j (by omega)
    · intro j hj hjc
      have hj2 : n ≤ j := hj
      have hjc2 : j < w.alloc.cap := hjc
      show (fill w.alloc.arr n (List.replicate (w.sz - n) none))[j]? = some none
      rw [getElem?_fill _ _ _ hfit, if_neg (by omega), List.length_replicate]
      by_cases h : j < n + (w.sz - n)
      · rw [if_pos h, List.getElem?_replicate, if_pos (by omega)]
      · rw [if_neg h]
        exact hr j (by omega) hjc2
  · split
    · rename_i hnl hgt
      have hfit : w.sz + (List.replicate (n - w.sz) (some (default : T))).length
          ≤ w.alloc.arr.length := by
        rw [List.length_replicate]; omega
      refine ⟨?_, ?_⟩
      · intro j hj
        have hj2 : j < n := hj
        show ∃ a, (fill w.alloc.arr w.sz (List.replicate (n - w.sz) (some default)))[j]?
          = some (some a)
        rw [getElem?_fill _ _ _ hfit, List.length_replicate]
        by_cases h : j < w.sz
        · rw [if_pos h]
          exact hl j h
        · rw [if_neg h, if_pos (by omega), List.getElem?_replicate, if_pos (by omega)]
          exact ⟨default, rfl⟩
      · intro j hj hjc
        have hj2 : n ≤ j := hj
        have hjc2 : j < w.alloc.cap := hjc
        show (fill w.alloc.arr w.sz (List.replicate (n - w.sz) (some default)))[j]? = some none
        rw [getElem?_fill _ _ _ hfit, List.length_replicate, if_neg (by omega),
          if_neg (by omega)]
        exact hr j (by omega) hjc2
    · rename_i hnl hng
      have heq : n = w.sz := by omega
      refine ⟨?_, ?_⟩
      · intro j hj
        have hj2 : j < n := hj
        exact hl j (by omega)
      · intro j hj hjc
        have hj2 : n ≤ j := hj
        exact hr j (by omega) hjc

theorem Resize_keeps [Inhabited T] (mem : Nat → Bool) (n : Nat) (x : Vector T)
    (hx : SizeInv x) :
    Keeps (fun y => SizeInv y ∧ (Layout x → Layout y)) id (Resize mem n x) := by
  rcases Reserve_cases mem n x hx with h | ⟨h, hn⟩ | ⟨h, hn⟩
  · have h2 : Resize mem n x = Except.error (Fault.bad_alloc x) := by
      simp only [Resize, h, bind, Except.bind]
    rw [h2]
    exact ⟨hx, id⟩
  · rw [Resize_of_Reserve mem n x x h hx hn]
    exact ⟨resized_SizeInv n x hx hn, fun hl => resized_Layout n x hl hn⟩
  · have hsz : x.sz ≤ n := by have := hx.2; omega
    have hg := grown_SizeInv n x hx hsz
    rw [Resize_of_Reserve mem n x _ h hg (Nat.le_refl n)]
    exact ⟨resized_SizeInv n _ hg (Nat.le_refl n),
      fun hl => resized_Layout n _ (grown_Layout n x hl hsz) (Nat.le_refl n)⟩

/-! ## Invariants across Insert and Erase -/

theorem toInt_range (d : Int) : -2147483648 ≤ toInt d ∧ toInt d < 2147483648 := by
  unfold toInt
  omega

theorem toInt_idem (d : Int) : toInt (toInt d) = toInt d := by
  unfold toInt
  omega

theorem toInt_toNat (d : Int) (h : 0 ≤ toInt d) :
    toInt (((toInt d).toNat : Nat) : Int) = toInt d := by
  rw [Int.toNat_of_nonneg h, toInt_idem]

theorem Insert_congr (mem : Nat → Bool) (p q : Nat) (v : T) (x : Vector T)
    (h : toInt (p : Int) = toInt (q : Int)) : Insert mem p v x = Insert mem q v x := by
  unfold Vector.Insert
  rw [h]

theorem slideRightLoop_gt (pos : Int) : ∀ (it : Nat) (b : Block T), (it : Int) < pos →
    slideRightLoop pos it b = none := by
  intro it
  induction it with
  | zero =>
    intro b h
    have hne : ¬ ((0 : Nat) : Int) = pos := by omega
    rw [slideRightLoop, if_neg hne]
  | succ k ih =>
    intro b h
    have hne : ¬ ((k + 1 : Nat) : Int) = pos := by omega
    have hk : (k : Int) < pos := by omega
    rw [slideRightLoop, if_neg hne]
    simp [ih _ hk]

theorem Insert_gt (mem : Nat → Bool) (x : Vector T) (q : Nat) (v : T)
    (hfree : x.sz < x.alloc.cap) (hq : x.sz < q) (hint : q < 2147483648) :
    Insert mem q v x = Except.error Fault.undefined := by
  have hlt : ((x.sz : Nat) : Int) < (q : Int) := by omega
  unfold Vector.Insert
  rw [toInt_of_lt q hint]
  simp only [slideOneRight, Reserve_keep mem _ x hfree, slideRightLoop_gt _ _ _ hlt, inBlock,
    bind, Except.bind]

theorem getElem?_ins (b : Block T) (p it : Nat) (a : Option T) (hp : p ≤ it)
    (h : it < b.length) (j : Nat) :
    (fill b p (a :: (b.drop p).take (it - p)))[j]? =
      if j < p then b[j]? else if j = p then some a
        else if j ≤ it then b[j - 1]? else b[j]? := by
  have hl : (a :: (b.drop p).take (it - p)).length = it - p + 1 := by
    simp; omega
  rw [getElem?_fill _ _ _ (by rw [hl]; omega), hl]
  by_cases h1 : j < p
  · simp [h1]
  · rw [if_neg h1, if_neg h1]
    by_cases h2 : j = p
    · subst h2; simp
    · rw [if_neg h2]
      by_cases h3 : j ≤ it
      · rw [if_pos (by omega), if_pos h3]
        obtain ⟨m, hm⟩ : ∃ m, j - p = m + 1 := ⟨j - p - 1, by omega⟩
        rw [hm, List.getElem?_cons_succ, List.getElem?_take_of_lt (by omega), List.getElem?_drop]
        congr 1
        omega
      · rw [if_neg (by omega), if_neg h3]

theorem inserted_SizeInv (q : Nat) (v : T) (w : Vector T) (hw : SizeInv w)
    (hfree : w.sz < w.alloc.cap) (hq : q ≤ w.sz) : SizeInv (inserted q v w) := by
  obtain ⟨hb, _⟩ := hw
  refine ⟨?_, hfree⟩
  show (fill w.alloc.arr q (some v :: (w.alloc.arr.drop q).take (w.sz - q))).length = w.alloc.cap
  rw [length_fill _ _ _ (by simp; omega), hb]

theorem inserted_Layout (q : Nat) (v : T) (w : Vector T) (hw : Layout w)
    (hfree : w.sz < w.alloc.cap) (hq : q ≤ w.sz) : Layout (inserted q v w) := by
  have hsi := inserted_SizeInv q v w hw.1 hfree hq
  obtain ⟨⟨hb, hs⟩, hl, hr⟩ := hw
  have hlen : w.sz < w.alloc.arr.length := by omega
  refine ⟨hsi, ?_, ?_⟩
  · intro j hj
    have hj2 : j < w.sz + 1 := hj
    show ∃ a, (fill w.alloc.arr q (some v :: (w.alloc.arr.drop q).take (w.sz - q)))[j]?
      = some (some a)
    rw [getElem?_ins _ q w.sz _ hq hlen]
    by_cases h1 : j < q
    · rw [if_pos h1]
      exact hl j (by omega)
    · rw [if_neg h1]
      by_cases h2 : j = q
      · rw [if_pos h2]
        exact ⟨v, rfl⟩
      · rw [if_neg h2, if_pos (by omega)]
        exact hl (j - 1) (by omega)
  · intro j hj hjc
    have hj2 : w.sz + 1 ≤ j := hj
    have hjc2 : j < w.alloc.cap := hjc
    show (fill w.alloc.arr q (some v :: (w.alloc.arr.drop q).take (w.sz - q)))[j]? = some none
    rw [getElem?_ins _ q w.sz _ hq hlen, if_neg (by omega), if_neg (by omega),
      if_neg (by omega)]
    exact hr j (by omega) hjc2

theorem Insert_free_keeps (mem : Nat → Bool) (p : Nat) (v : T) (w : Vector T)
    (hw : SizeInv w) (hfree : w.sz < w.alloc.cap) :
    Keeps (fun y => SizeInv y ∧ (Layout w → Layout y)) Prod.snd (Insert mem p v w) := by
  by_cases hneg : toInt (p : Int) < 0
  · rw [Insert_neg mem w p v hfree hneg]
    trivial
  · have h0 : 0 ≤ toInt (p : Int) := by omega
    have hq := toInt_toNat (p : Int) h0
    have hint : (toInt (p : Int)).toNat < 2147483648 := by
      have := (toInt_range (p : Int)).2
      omega
    rw [Insert_congr mem p (toInt (p : Int)).toNat v w hq.symm]
    by_cases hle : (toInt (p : Int)).toNat ≤ w.sz
    · have h : Insert mem (toInt (p : Int)).toNat v w
          = Except.ok ((toInt (p : Int)).toNat, inserted (toInt (p : Int)).toNat v w) :=
        Insert_eq mem w _ v hw.1 hfree hle hint
      rw [h]
      exact ⟨inserted_SizeInv _ v w hw hfree hle, fun hl => inserted_Layout _ v w hl hfree hle⟩
    · rw [Insert_gt mem w _ v hfree (by omega) hint]
      trivial

theorem Insert_refuse (mem : Nat → Bool) (p : Nat) (v : T) (x : Vector T)
    (hn : x.alloc.cap < x.sz + 1) (hmem : mem (x.sz + 1) = false) :
    Insert mem p v x = Except.error (Fault.bad_alloc x) := by
  unfold Vector.Insert
  simp only [slideOneRight, Reserve_refuse mem _ x hn hmem, bind, Except.bind]

theorem Insert_keeps (mem : Nat → Bool) (p : Nat) (v : T) (x : Vector T) (hx : SizeInv x) :
    Keeps (fun y => SizeInv y ∧ (Layout x → Layout y)) Prod.snd (Insert mem p v x) := by
  rcases Reserve_cases mem (x.sz + 1) x hx with h | ⟨_, hn⟩ | ⟨h, hn⟩
  · by_cases hc : x.alloc.cap < x.sz + 1
    · cases hm : mem (x.sz + 1) with
      | false =>
        rw [Insert_refuse mem p v x hc hm]
        exact ⟨hx, id⟩
      | true =>
        rw [Reserve_grow mem _ x hx.1 hx.2 hc hm] at h
        cases h
    · rw [Reserve_keep mem _ x (by omega)] at h
      cases h
  · exact Insert_free_keeps mem p v x hx (by omega)
  · have hg := grown_SizeInv (x.sz + 1) x hx (by omega)
    rw [Insert_reserved mem p v x (grown (x.sz + 1) x) h rfl (Nat.le_refl _)]
    refine Keeps_mono _ _ _ _ ?_
      (Insert_free_keeps mem p v (grown (x.sz + 1) x) hg (Nat.lt_succ_self _))
    intro s hs
    exact ⟨hs.1, fun hl => hs.2 (grown_Layout _ x hl (by omega))⟩


theorem Erase_congr (p q : Nat) (x : Vector T) (h : toInt (p : Int) = toInt (q : Int)) :
    Erase p x = Erase q x := by
  unfold Erase
  rw [h]

theorem slideLeftLoop_gt (stop : Int) : ∀ (fuel : Nat) (it : Int) (b : Block T), stop < it →
    slideLeftLoop stop fuel it b = none := by
  intro fuel
  induction fuel with
  | zero =>
    intro it b h
    have hne : ¬ it = stop := by omega
    rw [slideLeftLoop, if_neg hne]
  | succ f ih =>
    intro it b h
    have hne : ¬ it = stop := by omega
    have h2 : stop < it + 1 := by omega
    rw [slideLeftLoop, if_neg hne]
    simp [ih _ _ h2]

theorem Erase_ge (x : Vector T) (q : Nat) (hq : x.sz ≤ q) (hint : q < 2147483648) :
    Erase q x = Except.error Fault.undefined := by
  have hlt : (x.sz : Int) - 1 < (q : Int) := by omega
  unfold Erase
  rw [toInt_of_lt q hint]
  simp only [slideOneLeft, slideLeftLoop_gt _ _ _ _ hlt, inBlock, bind, Except.bind]

theorem erased_SizeInv (p : Nat) (x : Vector T) (hx : SizeInv x) (hp : p < x.sz) :
    SizeInv (erased p x) := by
  obtain ⟨hb, hs⟩ := hx
  refine ⟨?_, ?_⟩
  · show ((fill x.alloc.arr p ((x.alloc.arr.drop (p + 1)).take (x.sz - 1 - p)
        ++ (x.alloc.arr.drop p).take 1)).set (x.sz - 1) none).length = x.alloc.cap
    rw [List.length_set, length_fill _ _ _ (by simp; omega), hb]
  · show x.sz - 1 ≤ x.alloc.cap
    omega

theorem erased_Layout (p : Nat) (x : Vector T) (hx : Layout x) (hp : p < x.sz) :
    Layout (erased p x) := by
  have hsi := erased_SizeInv p x hx.1 hp
  obtain ⟨⟨hb, hs⟩, hl, hr⟩ := hx
  have hlast : x.sz - 1 < x.alloc.arr.length := by omega
  have hlen : (fill x.alloc.arr p ((x.alloc.arr.drop (p + 1)).take (x.sz - 1 - p)
      ++ (x.alloc.arr.drop p).take 1)).length = x.alloc.arr.length :=
    length_fill _ _ _ (by simp; omega)
  refine ⟨hsi, ?_, ?_⟩
  · intro j hj
    have hj2 : j < x.sz - 1 := hj
    show ∃ a, ((fill x.alloc.arr p ((x.alloc.arr.drop (p + 1)).take (x.sz - 1 - p)
        ++ (x.alloc.arr.drop p).take 1)).set (x.sz - 1) none)[j]? = some (some a)
    rw [List.getElem?_set_ne (by omega), getElem?_rot _ p (x.sz - 1) (by omega) hlast]
    by_cases h1 : j < p
    · rw [if_pos h1]
      exact hl j (by omega)
    · rw [if_neg h1, if_pos hj2]
      exact hl (j + 1) (by omega)
  · intro j hj hjc
    have hj2 : x.sz - 1 ≤ j := hj
    have hjc2 : j < x.alloc.cap := hjc
    show ((fill x.alloc.arr p ((x.alloc.arr.drop (p + 1)).take (x.sz - 1 - p)
        ++ (x.alloc.arr.drop p).take 1)).set (x.sz - 1) none)[j]? = some none
    by_cases h : j = x.sz - 1
    · subst h
      exact List.getElem?_set_self (by rw [hlen]; exact hlast)
    · rw [List.getElem?_set_ne (Ne.symm h), getElem?_rot _ p (x.sz - 1) (by omega) hlast,
        if_neg (by omega), if_neg (by omega), if_neg h]
      exact hr j (by omega) hjc2

theorem Erase_keeps (p : Nat) (x : Vector T) (hx : SizeInv x) :
    Keeps (fun y => SizeInv y ∧ (Layout x → Layout y)) Prod.snd (Erase p x) := by
  by_cases hneg : toInt (p : Int) < 0
  · rw [Erase_neg x p hneg]
    trivial
  · have h0 : 0 ≤ toInt (p : Int) := by omega
    have hq := toInt_toNat (p : Int) h0
    have hint : (toInt (p : Int)).toNat < 2147483648 := by
      have := (toInt_range (p : Int)).2
      omega
    rw [Erase_congr p (toInt (p : Int)).toNat x hq.symm]
    by_cases hlt : (toInt (p : Int)).toNat < x.sz
    · have h : Erase (toInt (p : Int)).toNat x
          = Except.ok ((toInt (p : Int)).toNat, erased (toInt (p : Int)).toNat x) :=
        Erase_eq x _ hx.1 hx.2 hlt hint
      rw [h]
      exact ⟨erased_SizeInv _ x hx hlt, fun hl => erased_Layout _ x hl hlt⟩
    · rw [Erase_ge x _ (by omega) hint]
      trivial

/-! ## Invariants across construction and assignment -/

theorem copied_SizeInv (s : Vector T) (hs : SizeInv s) : SizeInv (copied s) := by
  obtain ⟨hb, hle⟩ := hs
  refine ⟨?_, Nat.le_refl _⟩
  show (s.alloc.arr.take s.sz).length = s.sz
  rw [List.length_take]
  omega

theorem copied_Layout (s : Vector T) (hs : Layout s) : Layout (copied s) := by
  refine ⟨copied_SizeInv s hs.1, ?_, ?_⟩
  · intro j hj
    have hj2 : j < s.sz := hj
    show ∃ a, (s.alloc.arr.take s.sz)[j]? = some (some a)
    rw [List.getElem?_take_of_lt hj2]
    exact hs.2.1 j hj2
  · intro j hj hjc
    have hj2 : s.sz ≤ j := hj
    have hjc2 : j < s.sz := hjc
    omega

theorem empty_Layout : Layout (Vector.empty : Vector T) := by
  refine ⟨⟨rfl, Nat.le_refl _⟩, ?_, ?_⟩
  · intro j hj
    exact absurd hj (Nat.not_lt_zero j)
  · intro j _ hjc
    exact absurd hjc (Nat.not_lt_zero j)

theorem sized_Layout [Inhabited T] (mem : Nat → Bool) (n : Nat) (y : Vector T)
    (h : Vector.sized mem n = Except.ok y) : Layout y := by
  cases hm : mem n with
  | false =>
    have h2 : (Vector.sized mem n : Run Unit (Vector T)) = Except.error (Fault.bad_alloc ()) := by
      simp [Vector.sized, MyAllocator.sized, Allocate, hm]
    rw [h2] at h
    cases h
  | true =>
    rw [sized_eq mem n hm] at h
    injection h with h
    subst h
    refine ⟨⟨by simp, Nat.le_refl _⟩, ?_, ?_⟩
    · intro j hj
      have hj2 : j < n := hj
      exact ⟨default, by simp [hj2]⟩
    · intro j hj hjc
      have hj2 : n ≤ j := hj
      have hjc2 : j < n := hjc
      omega

theorem copy_keeps (mem : Nat → Bool) (s c : Vector T) (hs : SizeInv s)
    (h : copy mem s = Except.ok c) : SizeInv c ∧ (Layout s → Layout c) := by
  cases hm : mem s.sz with
  | false =>
    rw [copy_refuse mem s hm] at h
    cases h
  | true =>
    have h2 : copy mem s = Except.ok (copied s) :=
      copy_eq mem s (by have := hs.1; have := hs.2; omega) hm
    rw [h2] at h
    injection h with h
    subst h
    exact ⟨copied_SizeInv s hs, copied_Layout s⟩

theorem move_keeps (s : Vector T) :
    (Vector.move s).1 = s ∧ (Vector.move s).2 = Vector.empty := ⟨rfl, rfl⟩

theorem moveAssign_cases (aliased : Bool) (a b : Vector T) :
    ((moveAssign aliased a b).1 = a ∨ (moveAssign aliased a b).1 = b) ∧
    ((moveAssign aliased a b).2 = a ∨ (moveAssign aliased a b).2 = b) := by
  cases aliased
  · exact ⟨Or.inr rfl, Or.inl rfl⟩
  · exact ⟨Or.inl rfl, Or.inl rfl⟩

theorem copyAssign_refuse (mem : Nat → Bool) (d s : Vector T) (hn : d.alloc.cap < s.sz)
    (hmem : mem s.sz = false) :
    copyAssign mem false d s = Except.error (Fault.bad_alloc d) := by
  simp only [copyAssign, Bool.false_eq_true, if_false, gt_iff_lt, if_pos hn,
    copy_refuse mem s hmem]

theorem copyAssign_keeps (mem : Nat → Bool) (aliased : Bool) (d s : Vector T)
    (hd : SizeInv d) (hs : SizeInv s) :
    Keeps (fun y => SizeInv y ∧ (Layout d → Layout s → Layout y)) Prod.fst
      (copyAssign mem aliased d s) := by
  cases aliased with
  | true => exact ⟨hd, fun h _ => h⟩
  | false =>
    have hsl : s.sz ≤ s.alloc.arr.length := by have := hs.1; have := hs.2; omega
    by_cases hn : d.alloc.cap < s.sz
    · cases hm : mem s.sz with
      | false =>
        rw [copyAssign_refuse mem d s hn hm]
        exact ⟨hd, fun h _ => h⟩
      | true =>
        have h : copyAssign mem false d s = Except.ok (copied s, s) :=
          copyAssign_realloc mem d s (by have := hd.1; have := hd.2; omega) hsl hn hm
        rw [h]
        exact ⟨copied_SizeInv s hs, fun _ h => copied_Layout s h⟩
    · by_cases hint : min s.sz d.sz < 2147483648
      · obtain ⟨b, h1, h2, h3, h4, h5⟩ :=
          copyAssign_inplace mem d s hd.1 hd.2 hsl (by omega) hint
        rw [h1]
        refine ⟨⟨h2, by show s.sz ≤ d.alloc.cap; omega⟩, ?_⟩
        intro hld hls
        refine ⟨⟨h2, by show s.sz ≤ d.alloc.cap; omega⟩, ?_, ?_⟩
        · intro j hj
          have hj2 : j < s.sz := hj
          show ∃ a, b[j]? = some (some a)
          have hb : b[j]? = s.alloc.arr[j]? := by
            have := congrArg (fun l => l[j]?) h3
            simpa [List.getElem?_take_of_lt hj2] using this
          rw [hb]
          exact hls.2.1 j hj2
        · intro j hj hjc
          have hj2 : s.sz ≤ j := hj
          have hjc2 : j < d.alloc.cap := hjc
          show b[j]? = some none
          by_cases hjd : j < d.sz
          · exact h4 j hj2 hjd
          · rw [h5 j hj2 (by omega)]
            exact hld.2.2 j (by omega) hjc2
      · rw [copyAssign_overflow mem d s (by omega) (by omega)]
        trivial

/-! ## Invariants over all public operations -/

theorem Keeps_Left {α : Type} (P : Vector T → Prop) (st : α → Vector T)
    (r : Run (Vector T) α) (y : Vector T) (hk : Keeps P st r) (hl : Left st r y) : P y := by
  rcases hl with ⟨a, h, rfl⟩ | h
  · rw [h] at hk
    exact hk
  · rw [h] at hk
    exact hk

theorem OpsKeep_both [Inhabited T] (mem : Nat → Bool) (x : Vector T) (hx : SizeInv x) :
    OpsKeep SizeInv mem x ∧ (Layout x → OpsKeep Layout mem x) := by
  refine ⟨⟨?_, ?_, ?_, ?_, ?_, ?_, ?_, ?_, ?_, ?_, ?_, ?_⟩,
    fun hl => ⟨?_, ?_, ?_, ?_, ?_, ?_, ?_, ?_, ?_, ?_, ?_, ?_⟩⟩
  · exact fun n => Keeps_mono _ _ _ _ (fun _ h => h.1) (Reserve_keeps mem n x hx)
  · exact fun n => Keeps_mono _ _ _ _ (fun _ h => h.1) (Resize_keeps mem n x hx)
  · exact fun v => Keeps_mono _ _ _ _ (fun _ h => h.1) (PushBack_keeps mem v x hx)
  · exact fun v => Keeps_mono _ _ _ _ (fun _ h => h.1) (PushBack_keeps mem v x hx)
  · exact fun v => Keeps_mono _ _ _ _ (fun _ h => h.1) (EmplaceBack_keeps mem v x hx)
  · exact Keeps_mono _ _ _ _ (fun _ h => h.1) (PopBack_keeps x hx)
  · exact fun p v => Keeps_mono _ _ _ _ (fun _ h => h.1) (Insert_keeps mem p v x hx)
  · exact fun p v => Keeps_mono _ _ _ _ (fun _ h => h.1) (Insert_keeps mem p v x hx)
  · exact fun p v => Keeps_mono _ _ _ _ (fun _ h => h.1) (Insert_keeps mem p v x hx)
  · exact fun p => Keeps_mono _ _ _ _ (fun _ h => h.1) (Erase_keeps p x hx)
  · exact fun al s hs => Keeps_mono _ _ _ _ (fun _ h => h.1) (copyAssign_keeps mem al x s hx hs)
  · intro al s hs
    obtain ⟨h1, h2⟩ := moveAssign_cases al x s
    exact ⟨by rcases h1 with h | h <;> rw [h] <;> assumption,
      by rcases h2 with h | h <;> rw [h] <;> assumption⟩
  · exact fun n => Keeps_mono _ _ _ _ (fun _ h => h.2 hl) (Reserve_keeps mem n x hx)
  · exact fun n => Keeps_mono _ _ _ _ (fun _ h => h.2 hl) (Resize_keeps mem n x hx)
  · exact fun v => Keeps_mono _ _ _ _ (fun _ h => h.2 hl) (PushBack_keeps mem v x hx)
  · exact fun v => Keeps_mono _ _ _ _ (fun _ h => h.2 hl) (PushBack_keeps mem v x hx)
  · exact fun v => Keeps_mono _ _ _ _ (fun _ h => h.2 hl) (EmplaceBack_keeps mem v x hx)
  · exact Keeps_mono _ _ _ _ (fun _ h => h.2 hl) (PopBack_keeps x hx)
  · exact fun p v => Keeps_mono _ _ _ _ (fun _ h => h.2 hl) (Insert_keeps mem p v x hx)
  · exact fun p v => Keeps_mono _ _ _ _ (fun _ h => h.2 hl) (Insert_keeps mem p v x hx)
  · exact fun p v => Keeps_mono _ _ _ _ (fun _ h => h.2 hl) (Insert_keeps mem p v x hx)
  · exact fun p => Keeps_mono _ _ _ _ (fun _ h => h.2 hl) (Erase_keeps p x hx)
  · exact fun al s hs =>
      Keeps_mono _ _ _ _ (fun _ h => h.2 hl hs) (copyAssign_keeps mem al x s hx hs.1)
  · intro al s hs
    obtain ⟨h1, h2⟩ := moveAssign_cases al x s
    exact ⟨by rcases h1 with h | h <;> rw [h] <;> assumption,
      by rcases h2 with h | h <;> rw [h] <;> assumption⟩

theorem OpsReturn_of [Inhabited T] (mem : Nat → Bool) (hmem : ∀ n, mem n = true)
    (x : Vector T) (hx : SizeInv x) : OpsReturn mem x := by
  obtain ⟨hb, hs⟩ := hx
  refine ⟨?_, ?_, ?_, ?_, ?_, ?_, ?_, ?_, ?_, ?_, ?_⟩
  · intro n
    obtain ⟨w, hw, _⟩ := Reserve_ok mem n x hb hs (fun _ => hmem _)
    exact ⟨w, hw⟩
  · intro n
    obtain ⟨w, hw, hsz, _, hwb, hwc⟩ := Reserve_ok mem n x hb hs (fun _ => hmem _)
    exact ⟨_, Resize_of_Reserve mem n x w hw ⟨hwb, by omega⟩ (by omega)⟩
  · intro v
    obtain ⟨y, hy, _⟩ := PushBack_step mem hmem x v hb hs
    exact ⟨y, hy⟩
  · intro v
    obtain ⟨y, hy, _⟩ := PushBack_step mem hmem x v hb hs
    exact ⟨y, hy⟩
  · intro v
    obtain ⟨y, hy, _⟩ := EmplaceBack_step mem hmem x v hb hs
    exact ⟨y, hy⟩
  · intro h
    exact ⟨_, PopBack_eq x h (by omega)⟩
  · intro p v hp hint
    obtain ⟨y, hy, _⟩ := Insert_ok mem hmem x p v hb hs hp hint
    exact ⟨y, hy⟩
  · intro p v hp hint
    obtain ⟨y, hy, _⟩ := Insert_ok mem hmem x p v hb hs hp hint
    exact ⟨y, hy⟩
  · intro p v hp hint
    obtain ⟨y, hy, _⟩ := Insert_ok mem hmem x p v hb hs hp hint
    exact ⟨y, hy⟩
  · intro p hp hint
    obtain ⟨y, hy, _⟩ := Erase_ok x p hb hs hp hint
    exact ⟨y, hy⟩
  · intro s hsi hint
    obtain ⟨y, hy, _⟩ := copyAssign_ok mem hmem x s hb hs (by have := hsi.1; have := hsi.2; omega)
      (fun _ => hint)
    exact ⟨y, hy⟩

/-- Every state reachable from construction has the layout of the
invariant: a block of `capacity` slots, the slots below `size` live, the
slots from `size` on raw. -/
theorem Reachable_Layout [Inhabited T] (y : Vector T) (h : Reachable y) : Layout y := by
  induction h with
  | empty => exact empty_Layout
  | sized mem n y h => exact sized_Layout mem n y h
  | copy mem s c _ h ih => exact (copy_keeps mem s c ih.1 h).2 ih
  | move_target s _ ih =>
    rw [(move_keeps s).1]
    exact ih
  | move_source s _ _ =>
    rw [(move_keeps s).2]
    exact empty_Layout
  | Reserve mem n x y _ h ih =>
    exact Keeps_Left _ _ _ _ (((OpsKeep_both mem x ih.1).2 ih).1 n) h
  | Resize mem n x y _ h ih =>
    exact Keeps_Left _ _ _ _ (((OpsKeep_both mem x ih.1).2 ih).2.1 n) h
  | PushBack mem v x y _ h ih =>
    exact Keeps_Left _ _ _ _ (((OpsKeep_both mem x ih.1).2 ih).2.2.1 v) h
  | PushBackMove mem v x y _ h ih =>
    exact Keeps_Left _ _ _ _ (((OpsKeep_both mem x ih.1).2 ih).2.2.2.1 v) h
  | EmplaceBack mem v x y _ h ih =>
    exact Keeps_Left _ _ _ _ (((OpsKeep_both mem x ih.1).2 ih).2.2.2.2.1 v) h
  | PopBack x y _ h ih =>
    exact Keeps_Left _ _ _ _ ((OpsKeep_both grantAll x ih.1).2 ih).2.2.2.2.2.1 h
  | Insert mem p v x y _ h ih =>
    exact Keeps_Left _ _ _ _ (((OpsKeep_both mem x ih.1).2 ih).2.2.2.2.2.2.1 p v) h
  | InsertMove mem p v x y _ h ih =>
    exact Keeps_Left _ _ _ _ (((OpsKeep_both mem x ih.1).2 ih).2.2.2.2.2.2.2.1 p v) h
  | Emplace mem p v x y _ h ih =>
    exact Keeps_Left _ _ _ _ (((OpsKeep_both mem x ih.1).2 ih).2.2.2.2.2.2.2.2.1 p v) h
  | Erase p x y _ h ih =>
    exact Keeps_Left _ _ _ _ (((OpsKeep_both grantAll x ih.1).2 ih).2.2.2.2.2.2.2.2.2.1 p) h
  | copyAssign mem al x s y _ _ h ihx ihs =>
    exact Keeps_Left _ _ _ _
      (((OpsKeep_both mem x ihx.1).2 ihx).2.2.2.2.2.2.2.2.2.2.1 al s ihs) h
  | moveAssign_target al x s _ _ ihx ihs =>
    exact ((((OpsKeep_both grantAll x ihx.1).2 ihx).2.2.2.2.2.2.2.2.2.2.2) al s ihs).1
  | moveAssign_source al x s _ _ ihx ihs =>
    exact ((((OpsKeep_both grantAll x ihx.1).2 ihx).2.2.2.2.2.2.2.2.2.2.2) al s ihs).2

theorem big_Layout : Layout big := by
  refine ⟨⟨?_, ?_⟩, ?_, ?_⟩
  · show (List.replicate 2147483649 (some 0) ++ [none]).length = 2147483650
    rw [List.length_append, List.length_replicate, List.length_singleton]
  · show (2147483649 : Nat) ≤ 2147483650
    omega
  · intro j hj
    refine ⟨0, ?_⟩
    show (List.replicate 2147483649 (some 0) ++ [none])[j]? = some (some 0)
    have hj2 : j < 2147483649 := hj
    rw [List.getElem?_append_left (by rw [List.length_replicate]; exact hj2),
      List.getElem?_replicate, if_pos hj2]
  · intro j hj hjc
    have h1 : (2147483649 : Nat) ≤ j := hj
    have h2 : j < 2147483650 := hjc
    have h3 : j = 2147483649 := by omega
    subst h3
    show (List.replicate 2147483649 (some 0) ++ [none])[2147483649]? = some none
    rw [List.getElem?_append_right (by rw [List.length_replicate]), List.length_replicate,
      Nat.sub_self]
    rfl

theorem bigFull_Reachable : Reachable bigFull :=
  Reachable.sized grantAll 2147483649 bigFull (sized_eq grantAll 2147483649 rfl)

theorem bigFull_Reserve : Reserve grantAll 2147483650 bigFull = Except.ok big := by
  have hb : bigFull.alloc.arr.length = bigFull.alloc.cap := by
    show (List.replicate 2147483649 (some 0)).length = 2147483649
    rw [List.length_replicate]
  have h := Reserve_grow grantAll 2147483650 bigFull hb
    (by show (2147483649 : Nat) ≤ 2147483649; omega)
    (by show (2147483649 : Nat) < 2147483650; omega) rfl
  have ha : bigFull.alloc.arr.take bigFull.sz ++ List.replicate (2147483650 - bigFull.sz) none
      = List.replicate 2147483649 (some 0) ++ [none] := by
    show (List.replicate 2147483649 (some 0)).take 2147483649
      ++ List.replicate (2147483650 - 2147483649) none = _
    rw [List.take_replicate, Nat.min_self]
    rfl
  rw [ha] at h
  exact h

/-- The sample vector `big` is reachable from construction:
`Vector<T> v(2 ^ 31 + 1); v.Reserve(2 ^ 31 + 2)`. -/
theorem big_Reachable : Reachable big :=
  Reachable.Reserve grantAll 2147483650 bigFull big bigFull_Reachable
    (Or.inl ⟨big, bigFull_Reserve, rfl⟩)

/-! ## The invariants: where they are kept and where the calls are undefined -/

/-- Wherever a call leaves a state, the layout of the invariant is kept:
every constructor yields it; on a vector that has it every public operation
leaves it, in the result and in the state at a `bad_alloc`; the operations
return within their preconditions when the memory source grants every
request and the offsets are below `2 ^ 31`; every state reachable from
construction has it.  An undefined outcome leaves no state. -/
theorem Layout_kept [Inhabited T] :
    Layout (Vector.empty : Vector T) ∧
    (∀ (mem : Nat → Bool) (n : Nat) (y : Vector T),
      Vector.sized mem n = Except.ok y → Layout y) ∧
    (∀ (mem : Nat → Bool) (s c : Vector T),
      Layout s → Vector.copy mem s = Except.ok c → Layout c) ∧
    (∀ s : Vector T, Layout s → Layout (Vector.move s).1 ∧ Layout (Vector.move s).2) ∧
    (∀ (mem : Nat → Bool) (x : Vector T), Layout x → OpsKeep Layout mem x) ∧
    (∀ (mem : Nat → Bool) (x : Vector T), Layout x → (∀ n, mem n = true) →
      OpsReturn mem x) ∧
    (∀ y : Vector T, Reachable y → Layout y) := by
  refine ⟨empty_Layout, sized_Layout, ?_, ?_, ?_, ?_, Reachable_Layout⟩
  · exact fun mem s c hs h => (copy_keeps mem s c hs.1 h).2 hs
  · intro s hs
    rw [(move_keeps s).1, (move_keeps s).2]
    exact ⟨hs, empty_Layout⟩
  · exact fun mem x hx => (OpsKeep_both mem x hx.1).2 hx
  · exact fun mem x hx hmem => OpsReturn_of mem hmem x hx.1

/-- C19 at a failing input: the vector `big` is reachable from construction
(`Vector<T> v(2 ^ 31 + 1); v.Reserve(2 ^ 31 + 2)`) and has the layout of the
invariant, `2 ^ 31` is the offset of a valid position of it, yet `Insert`
(both overloads), `Emplace` and `Erase` at that position and the copy
assignment of a vector of the same shape are undefined: the call leaves no
state in which slots `[0, size)` are live and the rest raw. -/
theorem Layout_big_undefined :
    Reachable big ∧ Layout big ∧ 2147483648 < big.sz ∧
    Vector.Insert grantAll 2147483648 7 big = Except.error Fault.undefined ∧
    InsertMove grantAll 2147483648 7 big = Except.error Fault.undefined ∧
    Emplace grantAll 2147483648 7 big = Except.error Fault.undefined ∧
    Erase 2147483648 big = Except.error Fault.undefined ∧
    copyAssign grantAll false big big = Except.error Fault.undefined :=
  have h : Vector.Insert grantAll 2147483648 7 big = Except.error Fault.undefined :=
    Insert_neg grantAll big 2147483648 7 (by show (2147483649 : Nat) < 2147483650; omega)
      (by rw [toInt_two_pow_31]; omega)
  ⟨big_Reachable, big_Layout, by show (2147483648 : Nat) < 2147483649; omega, h, h, h,
    Erase_neg big 2147483648 (by rw [toInt_two_pow_31]; omega),
    copyAssign_overflow grantAll big big (by show (2147483649 : Nat) ≤ 2147483650; omega)
      (by show (2147483648 : Nat) ≤ min 2147483649 2147483649; omega)⟩

/-! ## Allocation with the byte count of the source -/

theorem slotsGranted_eq (w n : Nat) (hw : 0 < w) (h : n * w < 18446744073709551616) :
    slotsGranted w n = n := by
  unfold slotsGranted
  rw [Nat.mod_eq_of_lt h, Nat.mul_div_cancel n hw]

/-- While the byte count does not wrap, `AllocateBytes` is `Allocate` on
the memory source that is asked for slots. -/
theorem AllocateBytes_eq (w : Nat) (mem : Nat → Bool) (n : Nat) (hw : 0 < w)
    (h : n * w < 18446744073709551616) :
    (AllocateBytes w mem n : Option (Block T)) = Allocate (fun k => mem (k * w)) n := by
  unfold AllocateBytes Allocate
  rw [slotsGranted_eq w n hw h, Nat.mod_eq_of_lt h]

theorem sizedBytes_alloc_eq (w : Nat) (mem : Nat → Bool) (n : Nat) (hw : 0 < w)
    (h : n * w < 18446744073709551616) :
    (MyAllocator.sizedBytes w mem n : Option (MyAllocator T))
      = MyAllocator.sized (fun k => mem (k * w)) n := by
  unfold MyAllocator.sizedBytes MyAllocator.sized
  rw [AllocateBytes_eq w mem n hw h]

/-- While the byte count does not wrap, `ReserveBytes` is `Reserve`. -/
theorem ReserveBytes_eq (w : Nat) (mem : Nat → Bool) (n : Nat) (v : Vector T) (hw : 0 < w)
    (h : n * w < 18446744073709551616) :
    ReserveBytes w mem n v = Reserve (fun k => mem (k * w)) n v := by
  unfold ReserveBytes Reserve
  rw [sizedBytes_alloc_eq w mem n hw h]

/-- While the byte count does not wrap, `ResizeBytes` is `Resize`. -/
theorem ResizeBytes_eq [Inhabited T] (w : Nat) (mem : Nat → Bool) (n : Nat) (v : Vector T)
    (hw : 0 < w) (h : n * w < 18446744073709551616) :
    ResizeBytes w mem n v = Resize (fun k => mem (k * w)) n v := by
  unfold ResizeBytes Resize
  rw [ReserveBytes_eq w mem n v hw h]

/-- While the byte count does not wrap, `Vector.sizedBytes` is
`Vector.sized`. -/
theorem sizedBytes_eq [Inhabited T] (w : Nat) (mem : Nat → Bool) (n : Nat) (hw : 0 < w)
    (h : n * w < 18446744073709551616) :
    (Vector.sizedBytes w mem n : Run Unit (Vector T))
      = Vector.sized (fun k => mem (k * w)) n := by
  unfold Vector.sizedBytes Vector.sized
  rw [sizedBytes_alloc_eq w mem n hw h]

theorem value_construct_n_nil [Inhabited T] (first n : Nat) (h : 0 < n) :
    uninitialized_value_construct_n ([] : Block T) first n = none := by
  cases n with
  | zero => exact absurd h (Nat.lt_irrefl 0)
  | succ k => rfl

theorem ResizeBytes_lost [Inhabited T] (w : Nat) (mem : Nat → Bool) (n : Nat)
    (x v1 : Vector T) (h : ReserveBytes w mem n x = Except.ok v1) (h1 : ¬ n < v1.sz)
    (h2 : n > v1.sz)
    (h3 : uninitialized_value_construct_n v1.alloc.arr v1.sz (n - v1.sz) = none) :
    ResizeBytes w mem n x = Except.error Fault.undefined := by
  simp only [Vector.ResizeBytes, h, bind, Except.bind, if_neg h1, if_pos h2, h3, inBlock]

theorem sizedBytes_lost [Inhabited T] (w : Nat) (mem : Nat → Bool) (n : Nat)
    (a : MyAllocator T) (h : MyAllocator.sizedBytes w mem n = some a)
    (h3 : uninitialized_value_construct_n a.arr 0 n = none) :
    (Vector.sizedBytes w mem n : Run Unit (Vector T)) = Except.error Fault.undefined := by
  simp only [Vector.sizedBytes, h, bind, Except.bind, h3, inBlock]

/-- C7 at a failing input: for an element type of four bytes,
`Reserve(2 ^ 62)` asks `::operator new` for `2 ^ 62 * 4 mod 2 ^ 64 = 0`
bytes, the request is granted and the block has no slot.  On the vector
`[1, 2]` the move of the first element into the new block leaves it; on the
empty vector the call returns and reports the capacity `2 ^ 62` over a
block without a slot. -/
theorem Reserve_wrap_undefined :
    (4611686018427387904 : Nat) < 18446744073709551616 ∧
    4611686018427387904 * 4 % 18446744073709551616 = 0 ∧
    slotsGranted 4 4611686018427387904 = 0 ∧
    full2.sz ≤ full2.alloc.cap ∧
    ReserveBytes 4 grantAll 4611686018427387904 full2 = Except.error Fault.undefined ∧
    ReserveBytes 4 grantAll 4611686018427387904 (Vector.empty : Vector Nat) =
      Except.ok { alloc := { arr := [], cap := 4611686018427387904 }, sz := 0 } :=
  ⟨by omega, by omega, rfl, by decide, rfl, rfl⟩

/-- C8 at a failing input: for an element type of four bytes,
`Resize(2 ^ 62)` reserves through a request of `0` bytes; on the vector
`[1, 2]` the move into the new block leaves it, on the empty vector the
value construction of the first new element does. -/
theorem Resize_wrap_undefined :
    (4611686018427387904 : Nat) < 18446744073709551616 ∧
    4611686018427387904 * 4 % 18446744073709551616 = 0 ∧
    full2.sz ≤ full2.alloc.cap ∧
    ResizeBytes 4 grantAll 4611686018427387904 full2 = Except.error Fault.undefined ∧
    ResizeBytes 4 grantAll 4611686018427387904 (Vector.empty : Vector Nat) =
      Except.error Fault.undefined := by
  have h : ReserveBytes 4 grantAll 4611686018427387904 (Vector.empty : Vector Nat) =
      Except.ok { alloc := { arr := [], cap := 4611686018427387904 }, sz := 0 } := rfl
  exact ⟨by omega, by omega, by decide, rfl,
    ResizeBytes_lost 4 grantAll 4611686018427387904 Vector.empty _ h (by show ¬ _ < 0; omega)
      (by show _ > 0; omega)
      (value_construct_n_nil 0 (4611686018427387904 - 0) (by omega))⟩

/-- C16 at a failing input: for an element type of four bytes,
`Vector(2 ^ 62)` asks `::operator new` for `0` bytes, the request is
granted, no `bad_alloc` is thrown, and the value construction of the first
element leaves the block. -/
theorem sized_wrap_undefined :
    (4611686018427387904 : Nat) < 18446744073709551616 ∧
    4611686018427387904 * 4 % 18446744073709551616 = 0 ∧
    (Vector.sizedBytes 4 grantAll 4611686018427387904 : Run Unit (Vector Nat))
      = Except.error Fault.undefined := by
  have h : (MyAllocator.sizedBytes 4 grantAll 4611686018427387904 : Option (MyAllocator Nat))
      = some { arr := [], cap := 4611686018427387904 } := rfl
  exact ⟨by omega, by omega,
    sizedBytes_lost 4 grantAll 4611686018427387904 _ h
      (value_construct_n_nil 0 4611686018427387904 (by omega))⟩

/-! ## End insertion of an element of the vector itself -/

/-- With an argument outside the storage of the vector, `PushBackRef` is
`PushBack`. -/
theorem PushBackRef_outside (mem : Nat → Bool) (a : T) (v : Vector T) :
    PushBackRef mem (Arg.outside a) v = PushBack mem a v := rfl

theorem PushBackMoveRef_outside (mem : Nat → Bool) (a : T) (v : Vector T) :
    PushBackMoveRef mem (Arg.outside a) v = PushBackMove mem a v := rfl

theorem EmplaceBackRef_outside (mem : Nat → Bool) (a : T) (v : Vector T) :
    EmplaceBackRef mem (Arg.outside a) v = EmplaceBack mem a v := rfl

/-- On every full vector, `PushBack` of one of the vector's own elements
reads the element after its block has been released. -/
theorem PushBackRef_element_full (mem : Nat → Bool) (i : Nat) (v : Vector T)
    (hblk : v.alloc.arr.length = v.alloc.cap) (hfull : v.sz = v.alloc.cap)
    (hmem : mem (if v.sz = 0 then 1 else v.sz * 2) = true) :
    PushBackRef mem (Arg.element i) v = Except.error Fault.undefined := by
  have hn : v.alloc.cap < (if v.sz = 0 then 1 else v.sz * 2) := by
    split <;> omega
  have hr := Reserve_grow mem _ v hblk (by omega) hn hmem
  have hd : decide ((if v.sz = 0 then 1 else v.sz * 2) > v.alloc.cap) = true :=
    decide_eq_true hn
  simp only [Vector.PushBackRef, if_pos hfull, hr, Vector.reallocates, hd, decide_eq_true hfull,
    Bool.and_self, Arg.read, if_true, inBlock, bind, Except.bind]

/-- On a vector with a free slot, `PushBack` of the vector's own element
at offset `i` appends a copy of it. -/
theorem PushBackRef_element_free (mem : Nat → Bool) (i : Nat) (a : T) (v : Vector T)
    (hfree : v.sz < v.alloc.cap)
    (hi : v.alloc.arr[i]? = some (some a)) :
    PushBackRef mem (Arg.element i) v = PushBack mem a v := by
  have hne : ¬ v.sz = v.alloc.cap := by omega
  simp only [Vector.PushBackRef, Vector.PushBack, if_neg hne, Arg.read, decide_eq_false hne,
    Bool.false_and, hi, bind, Except.bind, pure, Except.pure, inBlock, Option.bind, id,
    Bool.false_eq_true, if_false]

/-- C1 at a failing input: on the full vector `[1, 2]`, `v.PushBack(v[0])`
(either overload) and `v.EmplaceBack(v[0])` read `v[0]` through the
reference after `Reserve` has destroyed the elements of the old block and
released it, where the claim has the value `1` appended.  With a free slot
(`demo`) no reallocation happens and the value is appended. -/
theorem PushBack_own_element_undefined :
    full2.sz ≤ full2.alloc.cap ∧ full2.alloc.arr[0]? = some (some 1) ∧
    PushBackRef grantAll (Arg.element 0) full2 = Except.error Fault.undefined ∧
    PushBackMoveRef grantAll (Arg.element 0) full2 = Except.error Fault.undefined ∧
    EmplaceBackRef grantAll (Arg.element 0) full2 = Except.error Fault.undefined ∧
    PushBackRef grantAll (Arg.element 0) demo = Except.ok
      { alloc := { arr := [some 1, some 2, some 3, some 1, none], cap := 5 }, sz := 4 } ∧
    PushBackRef grantAll (Arg.outside 1) full2 = Except.ok
      { alloc := { arr := [some 1, some 2, some 1, none], cap := 4 }, sz := 3 } :=
  ⟨by decide, rfl, rfl, rfl, rfl, rfl, rfl⟩

/-! ## Assignment with element events recorded -/

theorem copy_n_traced_fst (src : Block T) (n : Nat) : ∀ (first : Nat) (dst : Block T) (d : Nat),
    (copy_n_traced src first n dst d).map Prod.fst = uninitialized_copy_n src first n dst d := by
  induction n with
  | zero => intro first dst d; rfl
  | succ n ih =>
    intro first dst d
    simp only [copy_n_traced, uninitialized_copy_n]
    cases src[first]? with
    | none => rfl
    | some x =>
      simp only [Option.some_bind]
      cases store dst d x with
      | none => rfl
      | some r1 =>
        simp only [Option.some_bind, Option.map_some', Option.map_map]
        rw [← ih (first + 1) r1 (d + 1)]
        cases copy_n_traced src (first + 1) n r1 (d + 1) <;> rfl

theorem destroy_n_traced_fst (n : Nat) : ∀ (b : Block T) (first : Nat),
    (destroy_n_traced b first n).map Prod.fst = destroy_n b first n := by
  induction n with
  | zero => intro b first; rfl
  | succ n ih =>
    intro b first
    simp only [destroy_n_traced, destroy_n]
    cases Destroy b first with
    | none => rfl
    | some r1 =>
      simp only [Option.some_bind, Option.map_some', Option.map_map]
      rw [← ih r1 (first + 1)]
      cases destroy_n_traced r1 (first + 1) n <;> rfl

theorem assignLoop_traced_fst (src : Block T) (m : Nat) (fuel : Nat) :
    ∀ (i : Nat) (b : Block T),
    (assignLoop_traced src m fuel i b).map Prod.fst = assignLoop src m fuel i b := by
  induction fuel with
  | zero =>
    intro i b
    simp only [assignLoop_traced, assignLoop]
    split <;> rfl
  | succ fuel ih =>
    intro i b
    simp only [assignLoop_traced, assignLoop]
    split
    · cases src[i]? with
      | none => rfl
      | some x =>
        simp only [Option.some_bind]
        cases store b i x with
        | none => rfl
        | some b1 =>
          simp only [Option.some_bind]
          split
          · rfl
          · rw [← ih (i + 1) b1]
            cases assignLoop_traced src m fuel (i + 1) b1 <;> rfl
    · rfl

theorem copyTraced_fst (mem : Nat → Bool) (s : Vector T) :
    (Vector.copyTraced mem s).map Prod.fst = Vector.copy mem s := by
  unfold Vector.copyTraced Vector.copy
  cases MyAllocator.sized (T := T) mem s.sz with
  | none => rfl
  | some a =>
    simp only []
    rw [← copy_n_traced_fst]
    cases copy_n_traced s.alloc.arr 0 s.sz a.arr 0 <;> rfl

theorem destructTraced_fst (v : Vector T) :
    (Vector.destructTraced v).map (fun _ => ()) = Vector.destruct v := by
  unfold Vector.destructTraced Vector.destruct
  rw [← destroy_n_traced_fst]
  cases destroy_n_traced v.alloc.arr 0 v.sz <;> rfl

/-! ## Self assignment by address -/

/-- Without the record, `copyAssignTraced` is copy assignment between
distinct objects. -/
theorem copyAssignTraced_fst (mem : Nat → Bool) (d s : Vector T) :
    (Vector.copyAssignTraced mem d s).map Prod.fst = Vector.copyAssign mem false d s := by
  unfold Vector.copyAssignTraced Vector.copyAssign
  rw [if_neg (by decide : ¬ (false = true))]
  split
  · rw [← copyTraced_fst]
    cases Vector.copyTraced mem s with
    | error e => cases e <;> rfl
    | ok tmp =>
      simp only [Except.map]
      rw [← destructTraced_fst]
      cases Vector.destructTraced (Vector.Swap tmp.1 d).1 <;> rfl
  · simp only []
    rw [← assignLoop_traced_fst]
    cases assignLoop_traced s.alloc.arr (min s.sz d.sz) (min s.sz d.sz) 0 d.alloc.arr with
    | none => rfl
    | some r =>
      by_cases h1 : d.sz < s.sz
      · simp only [if_pos h1, Option.map_some']
        show Except.map Prod.fst
            (inBlock (copy_n_traced s.alloc.arr d.sz (s.sz - d.sz) r.1 d.sz) >>= _)
          = (inBlock (uninitialized_copy_n s.alloc.arr d.sz (s.sz - d.sz) r.1 d.sz) >>= _)
        rw [← copy_n_traced_fst]
        cases copy_n_traced s.alloc.arr d.sz (s.sz - d.sz) r.1 d.sz <;> rfl
      · by_cases h2 : d.sz > s.sz
        · simp only [if_neg h1, if_pos h2, Option.map_some']
          show Except.map Prod.fst (inBlock (destroy_n_traced r.1 s.sz (d.sz - s.sz)) >>= _)
            = (inBlock (destroy_n r.1 s.sz (d.sz - s.sz)) >>= _)
          rw [← destroy_n_traced_fst]
          cases destroy_n_traced r.1 s.sz (d.sz - s.sz) <;> rfl
        · simp only [if_neg h1, if_neg h2, Option.map_some']
          rfl

theorem set_self (os : Objects T) (a : Nat) (v : Vector T) (h : os[a]? = some v) :
    os.set a v = os := by
  apply List.ext_getElem?
  intro j
  rw [List.getElem?_set]
  split
  · next hj =>
    subst hj
    split
    · exact h.symm
    · next hlt => rw [List.getElem?_eq_none (Nat.le_of_not_lt hlt)]
  · rfl

/-- Between distinct objects, `copyAssignAt` is the copy assignment of the
two states, written back to the object assigned to. -/
theorem copyAssignAt_distinct (mem : Nat → Bool) (os : Objects T) (a b : Nat) (d s : Vector T)
    (ha : os[a]? = some d) (hb : os[b]? = some s) (hne : b ≠ a) :
    (copyAssignAt mem os a b).map Prod.fst =
      match Vector.copyAssign mem false d s with
      | Except.ok r => Except.ok (os.set a r.1)
      | Except.error (Fault.bad_alloc x) => Except.error (Fault.bad_alloc (os.set a x))
      | Except.error Fault.undefined => Except.error Fault.undefined := by
  rw [← copyAssignTraced_fst]
  simp only [copyAssignAt, ha, hb, if_pos hne]
  cases Vector.copyAssignTraced mem d s with
  | error e => cases e <;> rfl
  | ok r => rfl

/-- Between distinct objects, `moveAssignAt` writes back the two states
`moveAssign` yields. -/
theorem moveAssignAt_distinct (os : Objects T) (a b : Nat) (d s : Vector T)
    (ha : os[a]? = some d) (hb : os[b]? = some s) (hne : a ≠ b) :
    moveAssignAt os a b =
      some ((os.set b (Vector.moveAssign false d s).2).set a (Vector.moveAssign false d s).1,
        []) := by
  simp only [moveAssignAt, ha, hb, if_pos hne]
  rfl

/-- C15: self assignment is a no-op.  For an object `v` at the address
`a`, the copy assignment `v = v` (for every memory source) and the move
assignment `v = std::move(v)` return with every object of the program as it
was, so that the size, the capacity and the element sequence of `v` are
unchanged, and with an empty record: no element is constructed, destroyed
or assigned. -/
theorem self_assign_noop_at (mem : Nat → Bool) (os : Objects T) (a : Nat) (v : Vector T)
    (h : os[a]? = some v) :
    copyAssignAt mem os a a = Except.ok (os, []) ∧
    moveAssignAt os a a = some (os, []) ∧
    (∀ os1 ev, copyAssignAt mem os a a = Except.ok (os1, ev) →
      ev = [] ∧ ∃ v1, os1[a]? = some v1 ∧ v1.Size = v.Size ∧ v1.Capacity = v.Capacity ∧
        v1.elems = v.elems) ∧
    (∀ os1 ev, moveAssignAt os a a = some (os1, ev) →
      ev = [] ∧ ∃ v1, os1[a]? = some v1 ∧ v1.Size = v.Size ∧ v1.Capacity = v.Capacity ∧
        v1.elems = v.elems) := by
  have h1 : copyAssignAt mem os a a = Except.ok (os, []) := by
    simp only [copyAssignAt, h, ne_eq, not_true_eq_false, if_false]
    rfl
  have h2 : moveAssignAt os a a = some (os, []) := by
    simp only [moveAssignAt, h, ne_eq, not_true_eq_false, if_false]
  refine ⟨h1, h2, ?_, ?_⟩
  · intro os1 ev he
    rw [h1] at he
    cases he
    exact ⟨rfl, v, h, rfl, rfl, rfl⟩
  · intro os1 ev he
    rw [h2] at he
    cases he
    exact ⟨rfl, v, h, rfl, rfl, rfl⟩

theorem self_assign_noop_at_witness :
    ([demo, full2] : Objects Nat)[0]? = some demo ∧
    copyAssignAt grantNone [demo, full2] 0 0 = Except.ok ([demo, full2], []) ∧
    moveAssignAt [demo, full2] 0 0 = some ([demo, full2], []) :=
  ⟨rfl, (self_assign_noop_at grantNone [demo, full2] 0 demo rfl).1,
    (self_assign_noop_at grantNone [demo, full2] 0 demo rfl).2.1⟩

/-- Between distinct objects the record is not empty: `demo = full2`
assigns to two elements in place and destroys the third, `full2 = demo`
constructs three elements in a new block and destroys the two old ones,
and the move assignment exchanges the two objects without an event. -/
theorem assign_distinct_events :
    copyAssignAt grantAll [demo, full2] 0 1 = Except.ok
      ([{ alloc := { arr := [some 1, some 2, none, none, none], cap := 5 }, sz := 2 }, full2],
        [Event.assign 0, Event.assign 1, Event.destroy 2]) ∧
    copyAssignAt grantAll [demo, full2] 1 0 = Except.ok
      ([demo, { alloc := { arr := [some 1, some 2, some 3], cap := 3 }, sz := 3 }],
        [Event.construct 0, Event.construct 1, Event.construct 2,
          Event.destroy 0, Event.destroy 1]) ∧
    moveAssignAt [demo, full2] 0 1 = some ([full2, demo], []) :=
  ⟨rfl, rfl, rfl⟩

/-! ## Size and capacity with the byte count of the source -/

theorem ReserveBytes_cases (w : Nat) (mem : Nat → Bool) (n : Nat) (x : Vector T) :
    ReserveBytes w mem n x = Except.error Fault.undefined ∨
    ReserveBytes w mem n x = Except.error (Fault.bad_alloc x) ∨
    ∃ y, ReserveBytes w mem n x = Except.ok y ∧ y.sz = x.sz ∧ n ≤ y.alloc.cap ∧
      x.alloc.cap ≤ y.alloc.cap := by
  unfold Vector.ReserveBytes
  by_cases hn : n > x.alloc.cap
  · rw [if_pos hn]
    cases MyAllocator.sizedBytes (T := T) w mem n with
    | none => exact Or.inr (Or.inl rfl)
    | some a =>
      simp only []
      cases uninitialized_move_n x.alloc.arr 0 x.sz a.arr 0 with
      | none => exact Or.inl rfl
      | some b2 =>
        cases destroy_n x.alloc.arr 0 x.sz with
        | none => exact Or.inl rfl
        | some b1 =>
          exact Or.inr (Or.inr ⟨_, rfl, rfl, Nat.le_refl _, Nat.le_of_lt hn⟩)
  · rw [if_neg hn]
    exact Or.inr (Or.inr ⟨x, rfl, rfl, by omega, Nat.le_refl _⟩)

/-- With the byte count of the source, `Reserve`, `Resize` and the sized
constructor still leave `size <= capacity` in every state they leave: the
two counters do not depend on what the block holds. -/
theorem Size_le_Capacity_bytes [Inhabited T] (w : Nat) (mem : Nat → Bool) (n : Nat)
    (x : Vector T) (hx : x.Size ≤ x.Capacity) :
    Keeps (fun y => y.Size ≤ y.Capacity) id (ReserveBytes w mem n x) ∧
    Keeps (fun y => y.Size ≤ y.Capacity) id (ResizeBytes w mem n x) ∧
    (∀ y : Vector T, Vector.sizedBytes w mem n = Except.ok y → y.Size ≤ y.Capacity) := by
  have hx2 : x.sz ≤ x.alloc.cap := hx
  refine ⟨?_, ?_, ?_⟩
  · rcases ReserveBytes_cases w mem n x with h | h | ⟨y, h, h1, h2, h3⟩
    · rw [h]; trivial
    · rw [h]; exact hx
    · rw [h]
      show y.sz ≤ y.alloc.cap
      omega
  · unfold Vector.ResizeBytes
    rcases ReserveBytes_cases w mem n x with h | h | ⟨y, h, h1, h2, h3⟩
    · rw [h]; trivial
    · rw [h]; exact hx
    · rw [h]
      show Keeps _ id (if n < y.sz then _ else _)
      by_cases c1 : n < y.sz
      · rw [if_pos c1]
        cases destroy_n y.alloc.arr n (y.sz - n) with
        | none => trivial
        | some b => exact h2
      · rw [if_neg c1]
        by_cases c2 : n > y.sz
        · rw [if_pos c2]
          cases uninitialized_value_construct_n y.alloc.arr y.sz (n - y.sz) with
          | none => trivial
          | some b => exact h2
        · rw [if_neg c2]
          exact h2
  · intro y hy
    unfold Vector.sizedBytes at hy
    cases hs : MyAllocator.sizedBytes (T := T) w mem n with
    | none =>
      rw [hs] at hy
      cases hy
    | some a =>
      rw [hs] at hy
      have hc : a.cap = n := by
        unfold MyAllocator.sizedBytes at hs
        cases hA : AllocateBytes (T := T) w mem n with
        | none => rw [hA] at hs; cases hs
        | some blk =>
          rw [hA] at hs
          cases hs
          rfl
      simp only [] at hy
      cases hv : uninitialized_value_construct_n a.arr 0 n with
      | none =>
        rw [hv] at hy
        cases hy
      | some b =>
        rw [hv] at hy
        cases hy
        show n ≤ a.cap
        omega

/-- The guard is what keeps self assignment free of events: the body of
the copy assignment, run on two equal states, assigns to every element. -/
theorem copyAssign_body_assigns :
    Vector.copyAssignTraced grantAll demo demo = Except.ok
      ((demo, demo), [Event.assign 0, Event.assign 1, Event.assign 2]) := rfl

end MyVector
